import Mathlib

/-!
# Cloudbase run resource: source packaging and name validation

A shallow embedding of `service_tencentcloud_common.go` (`zipSourceCode`,
`uploadFile`) and of the parts of `resource_tc_cloudbase_run.go` that drive it
(`validateCloudbaseRunName`, `prepareAndUploadCode`,
`resourceTencentCloudCloudbaseRunCustomizeDiff`, `setDeployInfo`,
`setServerConfig`, and the policies stored by
`resourceTencentCloudCloudbaseRunRead`).

Modelling conventions.

* The directory that is packaged is a snapshot `Node`: a file carries its name
  and bytes, a directory its name and the objects it lists.
* The packaging code is given twice.  `zipSourceCode`, `prepareAndUploadCode`
  and `resourceTencentCloudCloudbaseRunCustomizeDiff` are the functions on a
  host where the temporary directory lies outside the packaged directory and
  every file-system call succeeds, for a configuration whose lists hold strings
  only.  `zipSourceCodeOn`, `prepareAndUploadCodeOn`,
  `resourceTencentCloudCloudbaseRunCustomizeDiffOn` and `setDeployInfo` are the
  functions on any `Host`: the temporary file is created before the walk, so it
  is in the tree that is walked when the temporary directory is; `os.CreateTemp`,
  `os.Lstat`, the reading of a directory, `zip.FileInfoHeader`, `CreateHeader`,
  `os.Open` and `io.Copy` may fail; and a list element of the configuration may
  be the nil interface, on which the type assertion panics.  A run on a host
  that succeeds is the run of the first layer on the tree as the walk found it
  (`zipSourceCodeOn_ok`).  `filepath.Rel` has no error on a path the walk made
  from `sourceDir`.
* `filepath.Walk` is the library walk: it lists every directory in
  lexical order of names, calls the callback on a directory before its
  contents, honours `SkipDir`, and stops at the first other error.
* `doublestar.Match` is a third-party matcher.  The packaging code is
  parameterised by it (`Matcher`); a concrete model, `doublestarMatch`, is used
  for the worked scenarios.
* The host's path separator is a parameter (`GOOS`), since `filepath.Rel`
  answers with the host's separator.
* The archive is the sequence of entries handed to the zip writer, and the
  temporary directory is an association list from file names to archives.
* The resource data is read through the Terraform SDK.  An attribute is held as
  `d.Get` gives it, and `GetOk` follows the rule of the SDK: the key counts as
  set when its value is not the zero value of its type, which for a list is the
  empty list.
-/

namespace Cloudbase

/-! ## Filesystem snapshot -/

/-- A filesystem object: a regular file with its bytes, or a directory with the
objects it contains. -/
inductive Node where
  | file (name : String) (content : List Nat) : Node
  | dir (name : String) (children : List Node) : Node

/-- The base name, `info.Name()`. -/
def Node.Name : Node → String
  | .file n _ => n
  | .dir n _ => n

/-- The directory flag, `info.IsDir()`. -/
def Node.IsDir : Node → Bool
  | .file _ _ => false
  | .dir _ _ => true

/-- The bytes `io.Copy` reads from the object (none for a directory). -/
def Node.Content : Node → List Nat
  | .file _ c => c
  | .dir _ _ => []

/-- The objects a directory lists (none for a file). -/
def Node.Children : Node → List Node
  | .file _ _ => []
  | .dir _ cs => cs

/-- The operating systems that differ in `os.PathSeparator`. -/
inductive GOOS where
  | unix : GOOS
  | windows : GOOS
deriving DecidableEq

/-- The constant `os.PathSeparator`: a slash, or a backslash on Windows. -/
def PathSeparator : GOOS → Char
  | .unix => '/'
  | .windows => Char.ofNat 92

/-- Components joined by a separator. -/
def joinPath (sep : String) : List String → String
  | [] => ""
  | [a] => a
  | a :: b :: rest => a ++ sep ++ joinPath sep (b :: rest)

/-- The value of `filepath.Rel(sourceDir, path)` for a visited `path`, given as
the list of names leading from `sourceDir` to it: `.` for `sourceDir` itself,
else the names joined by the host separator. -/
def Rel (goos : GOOS) (path : List String) : String :=
  match path with
  | [] => "."
  | _ => joinPath (String.singleton (PathSeparator goos)) path

/-! ## `filepath.Walk` -/

/-- Byte-wise order on strings, as used by `sort.Strings`. -/
def lessEq : List Char → List Char → Bool
  | [], _ => true
  | _ :: _, [] => false
  | a :: as, b :: bs => if a.toNat < b.toNat then true else if b.toNat < a.toNat then false else lessEq as bs

/-- Order of two directory members by name. -/
def Node.le (a b : Node) : Prop := lessEq a.Name.data b.Name.data = true

instance Node.decidableLe : DecidableRel Node.le :=
  fun a b => inferInstanceAs (Decidable (lessEq a.Name.data b.Name.data = true))

/-- The listing `readDirNames` gives for a directory: its members sorted by
name. -/
def readDirNames (members : List Node) : List Node :=
  List.insertionSort Node.le members

mutual
/-- The snapshot as `filepath.Walk` reads it: every directory listed in sorted
order. -/
def sortNode : Node → Node
  | .file n c => .file n c
  | .dir n cs => .dir n (readDirNames (sortNodes cs))
/-- Every member of a listing read in sorted order. -/
def sortNodes : List Node → List Node
  | [] => []
  | c :: cs => sortNode c :: sortNodes cs
end

/-- What a `WalkFunc` returns: `nil`, `filepath.SkipDir`, or another error. -/
inductive WalkRet where
  | nil : WalkRet
  | SkipDir : WalkRet
  | err (msg : String) : WalkRet
deriving DecidableEq

mutual
/-- The recursive `walk` of `path/filepath`: the callback is called on the
object; for a directory whose callback returned `nil` the members follow. -/
def walk {σ : Type} (fn : List String → Node → σ → σ × WalkRet)
    (path : List String) : Node → σ → σ × WalkRet
  | .file n c, s => fn path (.file n c) s
  | .dir n cs, s =>
    match fn path (.dir n cs) s with
    | (s1, .nil) => walkNames fn path cs s1
    | (s1, r) => (s1, r)
/-- The loop of `walk` over the names of a directory: `SkipDir` from a
directory member is swallowed, every other error ends the loop. -/
def walkNames {σ : Type} (fn : List String → Node → σ → σ × WalkRet)
    (path : List String) : List Node → σ → σ × WalkRet
  | [], s => (s, .nil)
  | c :: cs, s =>
    match walk fn (path ++ [c.Name]) c s with
    | (s1, .nil) => walkNames fn path cs s1
    | (s1, .SkipDir) => if c.IsDir then walkNames fn path cs s1 else (s1, .SkipDir)
    | (s1, .err e) => (s1, .err e)
end

/-- The function `filepath.Walk`: the walk from the root, whose `SkipDir` is
turned into `nil`. -/
def Walk {σ : Type} (root : Node) (fn : List String → Node → σ → σ × WalkRet)
    (s : σ) : σ × WalkRet :=
  match walk fn [] (sortNode root) s with
  | (s1, .SkipDir) => (s1, .nil)
  | (s1, r) => (s1, r)

/-! ## `zipSourceCode` -/

/-- Equality of Go results `(value, error)` is decidable. -/
instance exceptDecEq {ε α : Type} [DecidableEq ε] [DecidableEq α] : DecidableEq (Except ε α)
  | .ok a, .ok b => if h : a = b then isTrue (by rw [h]) else isFalse (fun h1 => h (by cases h1; rfl))
  | .error a, .error b =>
    if h : a = b then isTrue (by rw [h]) else isFalse (fun h1 => h (by cases h1; rfl))
  | .ok _, .error _ => isFalse (fun h => by cases h)
  | .error _, .ok _ => isFalse (fun h => by cases h)

/-- The type of `doublestar.Match(pattern, name)`: a verdict, or the error text
for a pattern it rejects. -/
abbrev Matcher := String → String → Except String Bool

/-- The struct `ZipOptions`. -/
structure ZipOptions where
  IncludeList : List String
  ExcludeList : List String

/-- One entry handed to the zip writer: the header name, the directory flag of
the header's mode, and the bytes copied into it. -/
structure ZipEntry where
  name : String
  isDir : Bool
  content : List Nat
deriving DecidableEq

/-- The entries of a zip file, in the order written. -/
abbrev Archive := List ZipEntry

/-- The temporary directory: the archives it holds, by file name. -/
abbrev Disk := List (String × Archive)

/-- The file at a path of the temporary directory, if there is one. -/
def Disk.read (disk : Disk) (path : String) : Option Archive :=
  (disk.find? (fun f => f.1 == path)).map (fun f => f.2)

/-- The call `os.Remove(path)`. -/
def Disk.Remove (disk : Disk) (path : String) : Disk :=
  disk.filter (fun f => !(f.1 == path))

/-- The loop over `opts.ExcludeList` (lines 72-83): the first pattern that
matches or is rejected decides. -/
def matchExclude (m : Matcher) (relPath : String) : List String → Except String Bool
  | [] => .ok false
  | pattern :: rest =>
    match m pattern relPath with
    | .error m_err => .error ("匹配排除规则失败: " ++ m_err)
    | .ok true => .ok true
    | .ok false => matchExclude m relPath rest

/-- The loop over `opts.IncludeList` (lines 88-97) computing `isIncluded`. -/
def matchInclude (m : Matcher) (relPath : String) : List String → Except String Bool
  | [] => .ok false
  | pattern :: rest =>
    match m pattern relPath with
    | .error m_err => .error ("匹配包含规则失败: " ++ m_err)
    | .ok true => .ok true
    | .ok false => matchInclude m relPath rest

/-- The callback `zipSourceCode` passes to `filepath.Walk` (lines 55-135); the
state is the sequence of entries written so far. -/
def zipWalkFn (m : Matcher) (goos : GOOS) (opts : ZipOptions)
    (path : List String) (info : Node) (zipWriter : Archive) : Archive × WalkRet :=
  let relPath := Rel goos path
  if relPath = "." then (zipWriter, .nil)
  else
    match matchExclude m relPath opts.ExcludeList with
    | .error e => (zipWriter, .err e)
    | .ok true => if info.IsDir then (zipWriter, .SkipDir) else (zipWriter, .nil)
    | .ok false =>
      match (if opts.IncludeList.length > 0 then matchInclude m relPath opts.IncludeList
             else .ok true) with
      | .error e => (zipWriter, .err e)
      | .ok false => (zipWriter, .nil)
      | .ok true =>
        let name := if info.IsDir then relPath ++ "/" else relPath
        (zipWriter ++ [ZipEntry.mk name info.IsDir info.Content], .nil)

/-- The function `zipSourceCode(sourceDir, opts)` on a host where the temporary
directory lies outside `sourceDir` and every file-system call succeeds: the
temporary file `tmp` is created, the tree is walked into it, and the result is
its path or an error.  The second component is the temporary directory
afterwards.  The function on any host is `zipSourceCodeOn`. -/
def zipSourceCode (m : Matcher) (goos : GOOS) (tmp : String) (disk : Disk)
    (sourceDir : Node) (opts : Option ZipOptions) : Except String String × Disk :=
  let opts := opts.getD (ZipOptions.mk [] [])
  match Walk sourceDir (zipWalkFn m goos opts) [] with
  | (zipWriter, .err e) => (.error ("压缩文件失败: " ++ e), (tmp, zipWriter) :: disk)
  | (zipWriter, _) => (.ok tmp, (tmp, zipWriter) :: disk)

/-! ## A model of `doublestar.Match` -/

/-- One element of a pattern segment. -/
inductive Tok where
  | lit (c : Char) : Tok
  | any : Tok
  | star : Tok
  | cls (negated : Bool) (ranges : List (Char × Char)) : Tok

/-- One segment of a pattern: `**` on its own, or a sequence of elements. -/
inductive Seg where
  | doublestar : Seg
  | toks (ts : List Tok) : Seg

/-- The text cut at every slash. -/
def splitSlash : List Char → List (List Char)
  | [] => [[]]
  | c :: cs =>
    match splitSlash cs with
    | [] => [[c]]
    | s :: ss => if c = '/' then [] :: s :: ss else (c :: s) :: ss

/-- The items of a bracket class up to its closing bracket, with the text that
follows; `none` when the class is empty or not closed. -/
def parseClass : Nat → List Char → List (Char × Char) → Option (List (Char × Char) × List Char)
  | 0, _, _ => none
  | _ + 1, [], _ => none
  | fuel + 1, c :: rest, acc =>
    if c = ']' then (if acc.isEmpty then none else some (acc.reverse, rest))
    else
      match rest with
      | d :: hi :: rest2 =>
        if d = '-' ∧ hi ≠ ']' then parseClass fuel rest2 ((c, hi) :: acc)
        else parseClass fuel rest ((c, c) :: acc)
      | _ => parseClass fuel rest ((c, c) :: acc)

/-- The elements of one pattern segment; `none` for a malformed segment. -/
def parseToks : Nat → List Char → Option (List Tok)
  | 0, _ => none
  | _ + 1, [] => some []
  | fuel + 1, c :: rest =>
    if c = '*' then (parseToks fuel rest).map (fun ts => Tok.star :: ts)
    else if c = '?' then (parseToks fuel rest).map (fun ts => Tok.any :: ts)
    else if c = '[' then
      let negated := rest.head? = some '!' ∨ rest.head? = some '^'
      let body := if negated then rest.drop 1 else rest
      match parseClass (body.length + 1) body [] with
      | none => none
      | some (ranges, rest2) => (parseToks fuel rest2).map (fun ts => Tok.cls negated ranges :: ts)
    else (parseToks fuel rest).map (fun ts => Tok.lit c :: ts)

/-- One pattern segment parsed. -/
def parseSeg (seg : List Char) : Option Seg :=
  if seg = ['*', '*'] then some Seg.doublestar
  else (parseToks (seg.length + 1) seg).map Seg.toks

/-- Every segment of a pattern parsed; `none` as soon as one is malformed. -/
def parseSegs : List (List Char) → Option (List Seg)
  | [] => some []
  | s :: ss =>
    match parseSeg s, parseSegs ss with
    | some p, some ps => some (p :: ps)
    | _, _ => none

/-- A star: the continuation is tried after every number of characters. -/
def starLoop (f : List Char → Bool) : List Char → Bool
  | [] => f []
  | c :: cs => f (c :: cs) || starLoop f cs

/-- Whether a character lies in one of the ranges of a class. -/
def inClass (ranges : List (Char × Char)) (c : Char) : Bool :=
  ranges.any (fun r => decide (r.1.toNat ≤ c.toNat ∧ c.toNat ≤ r.2.toNat))

/-- Whether the elements of a segment match one segment of the name. -/
def matchToks : List Tok → List Char → Bool
  | [], n => n.isEmpty
  | Tok.star :: ts, n => starLoop (matchToks ts) n
  | _ :: _, [] => false
  | Tok.any :: ts, _ :: cs => matchToks ts cs
  | Tok.lit a :: ts, c :: cs => a == c && matchToks ts cs
  | Tok.cls negated ranges :: ts, c :: cs => (inClass ranges c != negated) && matchToks ts cs

/-- A double star: the continuation is tried after every number of segments. -/
def dsLoop (f : List (List Char) → Bool) : List (List Char) → Bool
  | [] => f []
  | n :: ns => f (n :: ns) || dsLoop f ns

/-- Whether the segments of a pattern match the segments of a name. -/
def matchSegs : List Seg → List (List Char) → Bool
  | [], ns => ns.isEmpty
  | Seg.doublestar :: ps, ns => dsLoop (matchSegs ps) ns
  | Seg.toks _ :: _, [] => false
  | Seg.toks ts :: ps, n :: ns => matchToks ts n && matchSegs ps ns

/-- The text of `doublestar.ErrBadPattern` (it is `path.ErrBadPattern`). -/
def ErrBadPattern : String := "syntax error in pattern"

/-- Modelled from the spec: the glob matcher `doublestar.Match` (a third-party
library) is missing.  Pattern and name are cut at slashes; `*` matches any run
of characters within one segment, `?` one character, a bracket class one
character of its ranges, and a segment `**` any number of whole segments, so
that it matches across directory boundaries.  A pattern with an empty or
unclosed bracket class is malformed and is answered with `ErrBadPattern`
whatever the name.  Brace alternatives and backslash escapes of the library are
not part of the model. -/
def doublestarMatch : Matcher := fun pattern name =>
  match parseSegs (splitSlash pattern.data) with
  | none => .error ErrBadPattern
  | some segs => .ok (matchSegs segs (splitSlash name.data))

/-! ## `validateCloudbaseRunName` -/

/-- The range tables `unicode.Lower` and `unicode.Number` of the Go library for
the characters above Latin-1, where `unicode.IsLower` and `unicode.IsNumber`
consult them. -/
structure UnicodeTables where
  Lower : Char → Bool
  Number : Char → Bool

/-- The function `unicode.IsLower`: up to U+00FF the Latin-1 property table
(`a`-`z`, the micro sign, and the letters U+00DF-U+00F6 and U+00F8-U+00FF),
above it the range table. -/
def IsLower (u : UnicodeTables) (r : Char) : Bool :=
  if r.toNat ≤ 255 then
    decide ((97 ≤ r.toNat ∧ r.toNat ≤ 122) ∨ r.toNat = 181 ∨ (223 ≤ r.toNat ∧ r.toNat ≤ 246) ∨
      (248 ≤ r.toNat ∧ r.toNat ≤ 255))
  else u.Lower r

/-- The function `unicode.IsNumber`: up to U+00FF the Latin-1 property table
(`0`-`9`, the superscripts U+00B2, U+00B3, U+00B9 and the fractions
U+00BC-U+00BE), above it the range table. -/
def IsNumber (u : UnicodeTables) (r : Char) : Bool :=
  if r.toNat ≤ 255 then
    decide ((48 ≤ r.toNat ∧ r.toNat ≤ 57) ∨ r.toNat = 178 ∨ r.toNat = 179 ∨ r.toNat = 185 ∨
      (188 ≤ r.toNat ∧ r.toNat ≤ 190))
  else u.Number r

/-- The severity of a diagnostic, `diag.Severity`. -/
inductive Severity where
  | Error : Severity
  | Warning : Severity
deriving DecidableEq

/-- The struct `diag.Diagnostic`. -/
structure Diagnostic where
  Severity : Severity
  Summary : String
  Detail : String
deriving DecidableEq

/-- The loop over all runes (lines 437-446): the first rune that is neither a
lowercase letter, a number nor a hyphen yields the diagnostic. -/
def checkRunes (u : UnicodeTables) : List Char → List Diagnostic
  | [] => []
  | r :: rest =>
    if !IsLower u r && !IsNumber u r && r != '-' then
      [Diagnostic.mk Severity.Error "Invalid name format"
        "Name can only contain lowercase letters, numbers and hyphens(-)"]
    else checkRunes u rest

/-- The validator returned by `validateCloudbaseRunName()`, applied to a
string value. -/
def validateCloudbaseRunName (u : UnicodeTables) (value : String) : List Diagnostic :=
  let runes := value.data
  if runes.length > 39 ∨ runes.length < 1 then
    [Diagnostic.mk Severity.Error "Invalid name length"
      "Name length must be between 1 and 39 characters"]
  else
    match runes with
    | [] => []
    | r0 :: _ =>
      if !IsLower u r0 then
        [Diagnostic.mk Severity.Error "Invalid name format"
          "Name must start with a lowercase letter"]
      else checkRunes u runes

/-- Unicode tables that hold nothing above Latin-1; used where the name at hand
is Latin-1 and the tables are not consulted. -/
def latin1Tables : UnicodeTables := UnicodeTables.mk (fun _ => false) (fun _ => false)

/-! ## The contents of a snapshot, and the filters as properties of paths -/

/-- One object below the packaged root: the names leading to it from the root,
whether it is a directory, and its bytes. -/
structure Member where
  path : List String
  isDir : Bool
  content : List Nat
deriving DecidableEq

mutual
/-- The object at `path` and every object below it. -/
def membersAt (path : List String) : Node → List Member
  | .file _ c => [Member.mk path false c]
  | .dir _ cs => Member.mk path true [] :: membersOf path cs
/-- Every object below the directory at `path` whose listing is given. -/
def membersOf (path : List String) : List Node → List Member
  | [] => []
  | c :: cs => membersAt (path ++ [c.Name]) c ++ membersOf path cs
end

/-- The archive entry of an object: its relative path, followed by a slash when
it is a directory, with its bytes. -/
def entryOf (goos : GOOS) (x : Member) : ZipEntry :=
  ZipEntry.mk (if x.isDir then Rel goos x.path ++ "/" else Rel goos x.path) x.isDir x.content

/-- A name a directory can list on the host: not empty, not `.`, and free of
the slash and of the host separator. -/
def ValidName (goos : GOOS) (s : String) : Prop :=
  s ≠ "" ∧ s ≠ "." ∧ '/' ∉ s.data ∧ PathSeparator goos ∉ s.data

instance ValidName.decidable (goos : GOOS) (s : String) : Decidable (ValidName goos s) :=
  inferInstanceAs (Decidable (_ ∧ _ ∧ _ ∧ _))

mutual
/-- Every name at or below the node is one a directory can list. -/
def validNode (goos : GOOS) : Node → Bool
  | .file n _ => decide (ValidName goos n)
  | .dir n cs => decide (ValidName goos n) && validNodes goos cs
/-- Every name in or below the listing is one a directory can list. -/
def validNodes (goos : GOOS) : List Node → Bool
  | [] => true
  | c :: cs => validNode goos c && validNodes goos cs
end

/-- The matcher accepts the pattern: it answers every name with a verdict. -/
def Accepts (m : Matcher) (pattern : String) : Prop :=
  ∀ name, ∃ b, m pattern name = .ok b

/-- The matcher rejects the pattern: it answers every name with the error. -/
def Rejects (m : Matcher) (pattern : String) (e : String) : Prop :=
  ∀ name, m pattern name = .error e

/-- Some pattern of the list matches the name. -/
def matchesAny (m : Matcher) (patterns : List String) (name : String) : Bool :=
  patterns.any (fun p => decide (m p name = .ok true))

/-- The relative path of the object, or of a directory above it, matches an
exclude pattern. -/
def excluded (m : Matcher) (goos : GOOS) (exclude : List String) (path : List String) : Bool :=
  path.inits.tail.any (fun q => matchesAny m exclude (Rel goos q))

/-- The object passes the filters: nothing on its path is excluded, and its own
relative path matches an include pattern when there are any. -/
def kept (m : Matcher) (goos : GOOS) (opts : ZipOptions) (x : Member) : Bool :=
  !excluded m goos opts.ExcludeList x.path &&
    (opts.IncludeList.isEmpty || matchesAny m opts.IncludeList (Rel goos x.path))

/-- The member with its listing replaced when it is a directory. -/
def Node.withChildren (f : List Node → List Node) : Node → Node
  | .file n c => .file n c
  | .dir n cs => .dir n (f cs)

/-- The listing with the object at a relative path, and all below it, taken
out. -/
def removePath : List String → List Node → List Node
  | [], cs => cs
  | [a], cs => cs.filter (fun c => !decide (c.Name = a))
  | a :: b :: rest, cs =>
    cs.map (fun c => if c.Name = a then c.withChildren (removePath (b :: rest)) else c)

/-! ## `uploadFile` -/

/-- The struct `UploadOptions`; `Headers` is the map, one pair per key. -/
structure UploadOptions where
  Action : String
  File : String
  Method : String
  Headers : List (String × String)
  WithCredential : Bool

/-- The request `http.NewRequest` builds: method, address, headers, and the
file that is streamed as its body. -/
structure HttpRequest where
  Method : String
  URL : String
  Header : List (String × String)
  Body : Archive

/-- The answer of the server as `uploadFile` reads it: status code, status
line, headers, and what `io.ReadAll` gets from the body, its bytes or an
error. -/
structure HttpResponse where
  StatusCode : Int
  Status : String
  Header : List (String × String)
  Body : Except String (List Nat)

/-- The libraries `uploadFile` calls: `http.NewRequest` (its error, if any, for
a method and an address), `client.Do` (an answer or a transport error) and
`json.Unmarshal` (the decoded value, or nothing when the bytes are not JSON). -/
structure Net (J : Type) where
  NewRequest : String → String → Option String
  Do : HttpRequest → Except String HttpResponse
  Unmarshal : List Nat → Option J

/-- The struct `UploadResult`: the decoded data and the four values of the
`Context` map. -/
structure UploadResult (J : Type) where
  Data : Option J
  statusCode : Int
  status : String
  headers : List (String × String)
  file : String

/-- The function `uploadFile(opts)`, reading the file from the temporary
directory. -/
def uploadFile {J : Type} (net : Net J) (disk : Disk) (opts : UploadOptions) :
    Except String (UploadResult J) :=
  match disk.read opts.File with
  | none => .error ("打开文件失败: open " ++ opts.File ++ ": no such file or directory")
  | some file =>
    let method := if opts.Method = "" then "POST" else opts.Method
    match net.NewRequest method opts.Action with
    | some err => .error ("创建请求失败: " ++ err)
    | none =>
      match net.Do (HttpRequest.mk method opts.Action opts.Headers file) with
      | .error err => .error ("发送请求失败: " ++ err)
      | .ok resp =>
        match resp.Body with
        | .error err => .error ("读取响应失败: " ++ err)
        | .ok body =>
          let data := if body.length > 0 then net.Unmarshal body else none
          if resp.StatusCode < 200 ∨ resp.StatusCode ≥ 300 then
            .error ("HTTP 错误: " ++ resp.Status)
          else .ok (UploadResult.mk data resp.StatusCode resp.Status resp.Header opts.File)

/-! ## `prepareAndUploadCode` and the customize-diff hash -/

/-- The SDK struct `KeyValue`, both fields pointers. -/
structure KeyValue where
  Key : Option String
  Value : Option String

/-- The fields of the build-service answer that are read; every one is a
pointer, and `UploadHeaders` is a slice of pointers. -/
structure DescribeCloudBaseBuildServiceResponseParams where
  UploadUrl : Option String
  UploadHeaders : List (Option KeyValue)
  PackageName : Option String
  PackageVersion : Option String

/-- The SDK struct `DescribeCloudBaseBuildServiceResponse`. -/
structure DescribeCloudBaseBuildServiceResponse where
  Response : Option DescribeCloudBaseBuildServiceResponseParams

/-- The service `TcbService`: what `DescribeCloudBaseBuildService` answers for a
service name and an environment id. -/
structure TcbService where
  DescribeCloudBaseBuildService :
    String → String → Except String DescribeCloudBaseBuildServiceResponse

/-- The struct `uploadResult`. -/
structure uploadResult where
  packageName : String
  packageVersion : String
deriving DecidableEq

/-- How a Go call ends: with a value, with an error, in a panic on a nil
pointer, or in a panic on a type assertion that does not hold. -/
inductive GoResult (α : Type) where
  | ok (v : α) : GoResult α
  | error (e : String) : GoResult α
  | nilDereference : GoResult α
  | typeAssertion : GoResult α
deriving DecidableEq

/-- The variable `defaultSourceCodeExclude`. -/
def defaultSourceCodeExclude : List String :=
  [".git", ".terraform*", "logs", "node_modules", "__pycache__", "venv", "terraform.tfstate*"]

/-- The configuration as the resource functions read it when every element of
its lists is a string; a list attribute is `none` when the configuration does
not set it. -/
structure ResourceData where
  deploy_type : String
  source_code_include : Option (List String)
  source_code_exclude : Option (List String)

/-- The method `GetOk` of the Terraform SDK on a list attribute: the value, and
whether it is set to something other than the zero value, the empty list. -/
def GetOk (v : Option (List String)) : List String × Bool :=
  match v with
  | some (x :: xs) => (x :: xs, true)
  | _ => ([], false)

/-- The exclude list resolved from a configuration whose lists hold strings
only (lines 474-482 and 675-683). -/
def resolveExclude (d : ResourceData) : List String :=
  match GetOk d.source_code_exclude with
  | (v, true) => v
  | (_, false) => defaultSourceCodeExclude

/-- The include list resolved from a configuration whose lists hold strings
only (lines 485-491 and 686-692). -/
def resolveInclude (d : ResourceData) : List String :=
  match GetOk d.source_code_include with
  | (v, true) => v
  | (_, false) => []

/-- The assignment `headers[k] = v` on a map. -/
def setHeader (headers : List (String × String)) (k v : String) : List (String × String) :=
  (k, v) :: headers.filter (fun h => !(h.1 == k))

/-- The loop building the headers (lines 464-471); `none` when an element of
the slice is a nil pointer. -/
def buildHeaders : List (Option KeyValue) → List (String × String) → Option (List (String × String))
  | [], headers => some headers
  | none :: _, _ => none
  | some header :: rest, headers =>
    match header.Key, header.Value with
    | some k, some v => buildHeaders rest (setHeader headers k v)
    | _, _ => buildHeaders rest headers

/-- The function `prepareAndUploadCode` on a host as for `zipSourceCode`, for a
configuration whose lists hold strings only; `buildDir` is the snapshot of the
directory of that name.  The second component is the temporary directory when
the call has returned, after the deferred `os.Remove`.  The function on any
host and configuration is `prepareAndUploadCodeOn`. -/
def prepareAndUploadCode {J : Type} (m : Matcher) (goos : GOOS) (tmp : String) (net : Net J)
    (disk : Disk) (d : ResourceData) (service : TcbService) (name envId : String)
    (buildDir : Node) : GoResult uploadResult × Disk :=
  match service.DescribeCloudBaseBuildService name envId with
  | .error err => (.error ("获取构建服务信息失败: " ++ err), disk)
  | .ok buildService =>
    match buildService.Response with
    | none => (.error "构建服务返回信息不完整", disk)
    | some resp =>
      match resp.UploadUrl, resp.PackageName with
      | some uploadUrl, some packageName =>
        match buildHeaders resp.UploadHeaders [] with
        | none => (.nilDereference, disk)
        | some headers =>
          let excludeList := resolveExclude d
          let includeList := resolveInclude d
          match zipSourceCode m goos tmp disk buildDir (some (ZipOptions.mk includeList excludeList)) with
          | (.error err, disk1) => (.error ("代码压缩失败: " ++ err), disk1)
          | (.ok zipFile, disk1) =>
            match uploadFile net disk1 (UploadOptions.mk uploadUrl zipFile "PUT" headers false) with
            | .error err => (.error ("上传文件失败: " ++ err), disk1.Remove zipFile)
            | .ok _ =>
              match resp.PackageVersion with
              | none => (.nilDereference, disk1.Remove zipFile)
              | some packageVersion =>
                (.ok (uploadResult.mk packageName packageVersion), disk1.Remove zipFile)
      | _, _ => (.error "构建服务返回信息不完整", disk)

/-- The libraries the hash computation calls: the bytes `archive/zip` writes
for a sequence of entries, and `sha256.Sum256`. -/
structure Codec where
  zipBytes : Archive → List Nat
  Sum256 : List Nat → List Nat

/-- A lowercase hexadecimal digit. -/
def hexDigit (n : Nat) : Char :=
  if n < 10 then Char.ofNat (48 + n) else Char.ofNat (87 + n)

/-- The rendering `fmt.Sprintf("%x", bytes)`: two lowercase digits a byte. -/
def sprintfHex (bytes : List Nat) : String :=
  String.mk (bytes.flatMap (fun b => [hexDigit (b / 16 % 16), hexDigit (b % 16)]))

/-- What the customize-diff function has done when it returns: its error, and
the value it gave to `SetNew("source_code_hash", _)`, if it got there. -/
structure DiffOutcome where
  err : Option String
  source_code_hash : Option String
deriving DecidableEq

/-- The function `resourceTencentCloudCloudbaseRunCustomizeDiff` on a host as
for `zipSourceCode`, for a configuration whose lists hold strings only;
`currentDir` is the snapshot of the working directory.  The second component is
the temporary directory when the call has returned.  The function on any host
and configuration is `resourceTencentCloudCloudbaseRunCustomizeDiffOn`. -/
def resourceTencentCloudCloudbaseRunCustomizeDiff (m : Matcher) (goos : GOOS) (tmp : String)
    (codec : Codec) (disk : Disk) (d : ResourceData) (currentDir : Node) : DiffOutcome × Disk :=
  if d.deploy_type ≠ "package" then (DiffOutcome.mk none none, disk)
  else
    let excludeList := resolveExclude d
    let includeList := resolveInclude d
    match zipSourceCode m goos tmp disk currentDir (some (ZipOptions.mk includeList excludeList)) with
    | (.error err, disk1) => (DiffOutcome.mk (some ("计算源代码哈希值失败: " ++ err)) none, disk1)
    | (.ok zipFile, disk1) =>
      match disk1.read zipFile with
      | none =>
        (DiffOutcome.mk (some ("读取压缩文件失败: open " ++ zipFile ++ ": no such file or directory")) none,
          disk1.Remove zipFile)
      | some content =>
        let hash := sprintfHex (codec.Sum256 (codec.zipBytes content))
        (DiffOutcome.mk none (some hash), disk1.Remove zipFile)

/-! ## Rejected patterns -/

/-- Filtering the relative path `rel` runs into a pattern the matcher rejects,
and `msg` is the error the callback returns for it: the rejected pattern stands
in the exclude list and no exclude pattern before it matches `rel`, or it
stands in the include list, no exclude pattern matches `rel` and no include
pattern before it does. -/
def RejectedAt (m : Matcher) (opts : ZipOptions) (rel msg : String) : Prop :=
  (∃ pre p post e, opts.ExcludeList = pre ++ p :: post ∧
      (∀ x ∈ pre, m x rel = .ok false) ∧ m p rel = .error e ∧
      msg = "匹配排除规则失败: " ++ e) ∨
  ((∀ x ∈ opts.ExcludeList, m x rel = .ok false) ∧
    ∃ pre p post e, opts.IncludeList = pre ++ p :: post ∧
      (∀ x ∈ pre, m x rel = .ok false) ∧ m p rel = .error e ∧
      msg = "匹配包含规则失败: " ++ e)

/-- The walk reaches the object and filtering it runs into a rejected pattern:
no directory above the object is excluded, and `RejectedAt` holds of its
relative path. -/
def FailsAt (m : Matcher) (goos : GOOS) (opts : ZipOptions) (x : Member) (msg : String) : Prop :=
  excluded m goos opts.ExcludeList x.path.dropLast = false ∧
    RejectedAt m opts (Rel goos x.path) msg

/-! ## The worked scenarios of the spec -/

/-- Scenario 1: `a.txt`, `b.log`, `sub/c.txt`. -/
def scenario1 : List Node :=
  [.file "a.txt" [97], .file "b.log" [98], .dir "sub" [.file "c.txt" [99]]]

/-- Scenario 2: `node_modules/pkg/index.js`, `src/main.go`. -/
def scenario2 : List Node :=
  [.dir "node_modules" [.dir "pkg" [.file "index.js" [105]]], .dir "src" [.file "main.go" [109]]]

/-- Scenario 3: `src/a.go`, `src/pkg/b.go`, `README.md`. -/
def scenario3 : List Node :=
  [.dir "src" [.file "a.go" [97], .dir "pkg" [.file "b.go" [98]]], .file "README.md" [82]]

/-- A build service that answers with an upload address, a package name and a
package version. -/
def sampleService : TcbService :=
  TcbService.mk (fun _ _ => .ok (DescribeCloudBaseBuildServiceResponse.mk
    (some (DescribeCloudBaseBuildServiceResponseParams.mk (some "https://upload.example/pkg") []
      (some "pkg") (some "v1")))))

/-- A server that answers every request with the given status and an empty
body. -/
def sampleNet (code : Int) (status : String) : Net Unit :=
  Net.mk (fun _ _ => none) (fun _ => .ok (HttpResponse.mk code status [] (.ok []))) (fun _ => none)

/-- The name rule as C9 words it: 1 to 39 characters, the first one of `a`-`z`,
every one of `a`-`z`, `0`-`9` or the hyphen. -/
def claimedNameRule (value : String) : Prop :=
  1 ≤ value.length ∧ value.length ≤ 39 ∧
  (∃ r0 rest, value.data = r0 :: rest ∧ 97 ≤ r0.toNat ∧ r0.toNat ≤ 122) ∧
  ∀ r ∈ value.data,
    (97 ≤ r.toNat ∧ r.toNat ≤ 122) ∨ (48 ≤ r.toNat ∧ r.toNat ≤ 57) ∨ r = '-'

/-! ## `setServerConfig` -/

/-- One element of `policy_details` as `d.Get` gives it: the map with its two
keys. -/
structure PolicyDetail where
  policy_type : String
  policy_threshold : Int
deriving DecidableEq

/-- The resource data as `setServerConfig` reads it: the attributes of
`ResourceData` and the further ones, each as `d.Get` gives it (the
zero value of its type when nothing is configured and the schema has no
default).  `Id` is `d.Id()`; a `float64` is held by its IEEE 754 bits;
`open_access_types` is the set in the order of `Set.List()`; `env_params` is the
map, one pair per key. -/
structure RunResourceData extends ResourceData where
  Id : String
  server_name : String
  image_url : String
  dockerfile : String
  build_dir : String
  cpu : Nat
  mem : Nat
  min_num : Int
  max_num : Int
  port : Int
  custom_logs : String
  open_access_types : List String
  policy_details : List PolicyDetail
  env_params : List (String × String)

/-- What the process finds around it: the variable `ENV_ID`, and the snapshot
of the directory `os.Getwd()` names. -/
structure Process where
  ENV_ID : String
  Getwd : Node

/-- The fields of the SDK struct `DeployParam` that are written, all pointers. -/
structure DeployParam where
  DeployType : Option String
  ImageUrl : Option String
  PackageName : Option String
  PackageVersion : Option String
  ReleaseType : Option String
deriving DecidableEq

/-- The SDK struct `HpaPolicy`, both fields pointers. -/
structure HpaPolicy where
  PolicyType : Option String
  PolicyThreshold : Option Nat
deriving DecidableEq

/-- The fields of the SDK struct `ServerBaseConfig` that are written; a slice
is held by its elements, every other field is a pointer. -/
structure ServerBaseConfig where
  EnvId : Option String
  ServerName : Option String
  OpenAccessTypes : List String
  Cpu : Option Nat
  Mem : Option Nat
  MinNum : Option Nat
  MaxNum : Option Nat
  PolicyDetails : List HpaPolicy
  CustomLogs : Option String
  EnvParams : Option String
  InitialDelaySeconds : Option Nat
  CreateTime : Option String
  Port : Option Int
  HasDockerfile : Option Bool
  Dockerfile : Option String
  BuildDir : Option String
  Tag : Option String
deriving DecidableEq

/-- The conversion `uint64(v)` of an `int`. -/
def uint64 (v : Int) : Nat := (v % 18446744073709551616).toNat

/-- Whether the bits are those of the `float64` zero, of either sign. -/
def float64IsZero (bits : Nat) : Bool := bits % 9223372036854775808 == 0

/-- The function `setServerConfig`, with `json.Marshal` on the map of
environment variables as `marshal`: the struct as the function leaves it, and
the error it returns, if any. -/
def setServerConfig (marshal : List (String × String) → Except String String)
    (proc : Process) (d : RunResourceData) (config : ServerBaseConfig) :
    ServerBaseConfig × Option String :=
  let isCreate : Bool := decide (d.Id = "")
  let Dockerfile := some d.dockerfile
  let BuildDir := some d.build_dir
  let Cpu := if !float64IsZero d.cpu then some d.cpu
    else if isCreate then some 0 else config.Cpu
  let Mem := if !float64IsZero d.mem then some d.mem
    else if isCreate then some 0 else config.Mem
  let MinNum := if d.min_num ≠ 0 then some (uint64 d.min_num)
    else if isCreate then some 0 else config.MinNum
  let MaxNum := if d.max_num ≠ 0 then some (uint64 d.max_num)
    else if isCreate then some 0 else config.MaxNum
  let Port := if d.port ≠ 0 then some d.port
    else if isCreate then some 80 else config.Port
  let CustomLogs := if d.custom_logs ≠ "" then some d.custom_logs
    else if isCreate then some "" else config.CustomLogs
  let accessTypes := if d.open_access_types ≠ [] then d.open_access_types
    else if isCreate then ["PUBLIC", "OA"] else []
  let OpenAccessTypes := accessTypes
  let PolicyDetails : List HpaPolicy :=
    match d.policy_details with
    | [] => []
    | pd :: _ => [] ++ [HpaPolicy.mk (some pd.policy_type) (some (uint64 pd.policy_threshold))]
  let envParams : Except String (Option String) :=
    if d.env_params ≠ [] then
      match marshal d.env_params with
      | .error err => .error ("序列化环境变量失败: " ++ err)
      | .ok bytes => .ok (some bytes)
    else .ok config.EnvParams
  match envParams with
  | .error err =>
    (ServerBaseConfig.mk config.EnvId config.ServerName OpenAccessTypes Cpu Mem MinNum MaxNum
      PolicyDetails CustomLogs config.EnvParams config.InitialDelaySeconds config.CreateTime
      Port config.HasDockerfile Dockerfile BuildDir config.Tag, some err)
  | .ok EnvParams =>
    (ServerBaseConfig.mk (some proc.ENV_ID) (some d.server_name) OpenAccessTypes Cpu Mem
      MinNum MaxNum PolicyDetails CustomLogs EnvParams (some 0)
      (if isCreate then some "" else config.CreateTime) Port (some true) Dockerfile BuildDir
      (if isCreate then some "" else config.Tag), none)

/-- One map the read operation builds for a policy: the two pointers of the
policy under the keys `policy_type` and `policy_threshold`. -/
structure StoredPolicy where
  policy_type : Option String
  policy_threshold : Option Nat
deriving DecidableEq

/-- The loop of the read operation over the policies (lines 292-298); `none`
when an element of the slice is a nil pointer. -/
def storedPolicies : List (Option HpaPolicy) → Option (List StoredPolicy)
  | [] => some []
  | none :: _ => none
  | some policy :: rest =>
    match storedPolicies rest with
    | none => none
    | some policyDetails =>
      some (StoredPolicy.mk policy.PolicyType policy.PolicyThreshold :: policyDetails)

/-- Lines 290-302 of `resourceTencentCloudCloudbaseRunRead`: the value given to
`d.Set("policy_details", _)`, or `none` when the call is not made. -/
def resourceTencentCloudCloudbaseRunRead_policyDetails
    (PolicyDetails : List (Option HpaPolicy)) : GoResult (Option (List StoredPolicy)) :=
  if PolicyDetails.length > 0 then
    match storedPolicies PolicyDetails with
    | none => .nilDereference
    | some policyDetails => .ok (some policyDetails)
  else .ok none

/-- The resource data with `build_dir` set to another value. -/
def RunResourceData.withBuildDir (d : RunResourceData) (buildDir : String) : RunResourceData :=
  RunResourceData.mk d.toResourceData d.Id d.server_name d.image_url d.dockerfile buildDir
    d.cpu d.mem d.min_num d.max_num d.port d.custom_logs d.open_access_types d.policy_details
    d.env_params

/-- The struct `&tcbr.ServerBaseConfig{}`. -/
def emptyServerBaseConfig : ServerBaseConfig :=
  ServerBaseConfig.mk none none [] none none none none [] none none none none none none none
    none none

/-- The struct `&tcbr.DeployParam{}`. -/
def emptyDeployParam : DeployParam := DeployParam.mk none none none none none

/-- A configuration of the service `svc` before its creation, with the given
deployment type, exclude list, build directory and policies, and nothing else
set. -/
def sampleRunData (deployType : String) (exclude : Option (List String)) (buildDir : String)
    (policies : List PolicyDetail) : RunResourceData :=
  RunResourceData.mk (ResourceData.mk deployType none exclude) "" "svc" "" "Dockerfile" buildDir
    0 0 0 0 0 "" [] policies []

/-- A process in environment `env-1` whose working directory holds the files
`main.go` and `app.log`. -/
def sampleProcess : Process :=
  Process.mk "env-1" (.dir "app" [.file "main.go" [109], .file "app.log" [108]])

/-! ## The order of the entries -/

mutual
/-- No directory at or below the node lists a name twice. -/
def uniqueNode : Node → Bool
  | .file _ _ => true
  | .dir _ cs => uniqueNodes cs
/-- The listing holds no name twice, and neither does a directory in or below
it. -/
def uniqueNodes : List Node → Bool
  | [] => true
  | c :: cs => cs.all (fun x => x.Name != c.Name) && uniqueNode c && uniqueNodes cs
end

/-- The depth-first order of two paths: a directory comes before everything
beneath it, and where two paths part, the one whose name is first in the order
of `sort.Strings` comes first. -/
def pathBefore : List String → List String → Bool
  | [], [] => false
  | [], _ :: _ => true
  | _ :: _, [] => false
  | a :: p, b :: q => if a = b then pathBefore p q else lessEq a.data b.data

/-- A tree whose directories list their members out of order: `b.txt`, then the
directory `a` holding `z.go`, `c.go` and `run.log`. -/
def scenario4 : List Node :=
  [.file "b.txt" [98], .dir "a" [.file "z.go" [122], .file "c.go" [99], .file "run.log" [108]]]

/-! ## `zipSourceCode` on any host -/

/-- The temporary file `os.CreateTemp` makes: its path, which is
`tmpFile.Name()`, and the name under which the temporary directory lists it. -/
structure TempFile where
  Name : String
  Base : String
deriving DecidableEq

/-- What the host answers during one run of `zipSourceCode`.  A path is the
list of names leading from `sourceDir` to an object.  `CreateTemp` is the
answer of `os.CreateTemp("", "cloudbase-*.zip")`.  `TempDir` is the path of
`os.TempDir()` when that directory is `sourceDir` or lies below it, and
`TempContent` holds the bytes `io.Copy` then reads from the temporary file when
the walk comes to it (the copy of the file into itself is taken to end).  The
other fields give the error, if any, of `os.Lstat` and of `readDirNames` inside
`filepath.Walk`, and of `zip.FileInfoHeader`, `zipWriter.CreateHeader`,
`os.Open` and `io.Copy`, for the object at a path. -/
structure Host where
  CreateTemp : Except String TempFile
  TempDir : Option (List String)
  TempContent : List Nat
  Lstat : List String → Option String
  ReadDir : List String → Option String
  FileInfoHeader : List String → Option String
  CreateHeader : List String → Option String
  Open : List String → Option String
  Copy : List String → Option String

/-- No file-system call of the walk fails. -/
def NoFaults (host : Host) : Prop :=
  ∀ path, host.Lstat path = none ∧ host.ReadDir path = none ∧
    host.FileInfoHeader path = none ∧ host.CreateHeader path = none ∧
    host.Open path = none ∧ host.Copy path = none

/-- The listing with the object `x` added to the directory at a path. -/
def insertTemp (x : Node) : List String → List Node → List Node
  | [], cs => cs ++ [x]
  | a :: q, cs =>
    cs.map (fun c => if c.Name = a then c.withChildren (insertTemp x q) else c)

/-- The listing of `sourceDir` as the walk finds it: the temporary file has been
created, so it is there when the temporary directory is `sourceDir` or lies
below it. -/
def Host.listing (host : Host) (tmpFile : TempFile) (children : List Node) : List Node :=
  match host.TempDir with
  | none => children
  | some q => insertTemp (.file tmpFile.Base host.TempContent) q children

/-- The directory `sourceDir` as the walk finds it. -/
def Host.walked (host : Host) (tmpFile : TempFile) (sourceDir : Node) : Node :=
  sourceDir.withChildren (host.listing tmpFile)

mutual
/-- The recursive `walk` of `path/filepath` on a host: the listing of a
directory is read first and the callback is called with its error; it is
called with the error of `os.Lstat` for a member that cannot be examined. -/
def walkOn {σ : Type} (host : Host) (fn : List String → Node → Option String → σ → σ × WalkRet)
    (path : List String) : Node → σ → σ × WalkRet
  | .file n c, s => fn path (.file n c) none s
  | .dir n cs, s =>
    match fn path (.dir n cs) (host.ReadDir path) s with
    | (s1, .nil) =>
      if (host.ReadDir path).isSome then (s1, .nil) else walkNamesOn host fn path cs s1
    | (s1, r) => (s1, r)
/-- The loop of `walk` over the names of a directory on a host. -/
def walkNamesOn {σ : Type} (host : Host)
    (fn : List String → Node → Option String → σ → σ × WalkRet)
    (path : List String) : List Node → σ → σ × WalkRet
  | [], s => (s, .nil)
  | c :: cs, s =>
    match host.Lstat (path ++ [c.Name]) with
    | some err =>
      match fn (path ++ [c.Name]) c (some err) s with
      | (s1, .err e) => (s1, .err e)
      | (s1, _) => walkNamesOn host fn path cs s1
    | none =>
      match walkOn host fn (path ++ [c.Name]) c s with
      | (s1, .nil) => walkNamesOn host fn path cs s1
      | (s1, .SkipDir) => if c.IsDir then walkNamesOn host fn path cs s1 else (s1, .SkipDir)
      | (s1, .err e) => (s1, .err e)
end

/-- The function `filepath.Walk` on a host. -/
def WalkOn {σ : Type} (host : Host) (root : Node)
    (fn : List String → Node → Option String → σ → σ × WalkRet) (s : σ) : σ × WalkRet :=
  match (match host.Lstat [] with
         | some err => fn [] (sortNode root) (some err) s
         | none => walkOn host fn [] (sortNode root) s) with
  | (s1, .SkipDir) => (s1, .nil)
  | (s1, r) => (s1, r)

/-- The callback `zipSourceCode` passes to `filepath.Walk` (lines 55-135), with
its error returns; `err` is the error the walk hands to it.  On an error the
state keeps the entries that were completed. -/
def zipWalkFnOn (host : Host) (m : Matcher) (goos : GOOS) (opts : ZipOptions)
    (path : List String) (info : Node) (err : Option String) (zipWriter : Archive) :
    Archive × WalkRet :=
  match err with
  | some e => (zipWriter, .err e)
  | none =>
    let relPath := Rel goos path
    if relPath = "." then (zipWriter, .nil)
    else
      match matchExclude m relPath opts.ExcludeList with
      | .error e => (zipWriter, .err e)
      | .ok true => if info.IsDir then (zipWriter, .SkipDir) else (zipWriter, .nil)
      | .ok false =>
        match (if opts.IncludeList.length > 0 then matchInclude m relPath opts.IncludeList
               else .ok true) with
        | .error e => (zipWriter, .err e)
        | .ok false => (zipWriter, .nil)
        | .ok true =>
          match host.FileInfoHeader path with
          | some e => (zipWriter, .err ("创建文件头失败: " ++ e))
          | none =>
            let name := if info.IsDir then relPath ++ "/" else relPath
            match host.CreateHeader path with
            | some e => (zipWriter, .err ("创建zip条目失败: " ++ e))
            | none =>
              if info.IsDir then
                (zipWriter ++ [ZipEntry.mk name info.IsDir info.Content], .nil)
              else
                match host.Open path with
                | some e => (zipWriter, .err ("打开文件失败: " ++ e))
                | none =>
                  match host.Copy path with
                  | some e => (zipWriter, .err ("写入文件失败: " ++ e))
                  | none => (zipWriter ++ [ZipEntry.mk name info.IsDir info.Content], .nil)

/-- The function `zipSourceCode(sourceDir, opts)` on a host: the temporary file
is created, the tree as it then is is walked into it, and the result is the
path of the file or an error.  The second component is the temporary directory
afterwards. -/
def zipSourceCodeOn (host : Host) (m : Matcher) (goos : GOOS) (disk : Disk)
    (sourceDir : Node) (opts : Option ZipOptions) : Except String String × Disk :=
  let opts := opts.getD (ZipOptions.mk [] [])
  match host.CreateTemp with
  | .error err => (.error ("创建临时文件失败: " ++ err), disk)
  | .ok tmpFile =>
    match WalkOn host (host.walked tmpFile sourceDir) (zipWalkFnOn host m goos opts) [] with
    | (zipWriter, .err e) => (.error ("压缩文件失败: " ++ e), (tmpFile.Name, zipWriter) :: disk)
    | (zipWriter, _) => (.ok tmpFile.Name, (tmpFile.Name, zipWriter) :: disk)

/-! ## The resource functions on any host and configuration -/

/-- The attributes `prepareAndUploadCode`, `setDeployInfo` and the
customize-diff function read, or that bear on them, as `*schema.ResourceData`
and `*schema.ResourceDiff` hand them out.  A list attribute is `none` when the
configuration does not set it; an element of a list is an `interface{}`, and it
is `none` when it is the nil interface, which is what the SDK hands out for an
element that is the empty string. -/
structure SchemaData where
  deploy_type : String
  source_code_include : Option (List (Option String))
  source_code_exclude : Option (List (Option String))
  Id : String
  server_name : String
  image_url : String
  build_dir : String

/-- The method `GetOk` of the Terraform SDK on a list attribute whose elements
are `interface{}` values. -/
def GetOkList (v : Option (List (Option String))) : List (Option String) × Bool :=
  match v with
  | some (x :: xs) => (x :: xs, true)
  | _ => ([], false)

/-- The loop `for i, item := range v.([]interface{}) { list[i] = item.(string) }`:
the strings, or `none` when an element is not a string and the assertion
panics. -/
def assertStrings : List (Option String) → Option (List String)
  | [] => some []
  | none :: _ => none
  | some item :: rest =>
    match assertStrings rest with
    | none => none
    | some list => some (item :: list)

/-- The function `prepareAndUploadCode` on a host; `buildDir` is the snapshot of
the directory of that name.  The second component is the temporary directory
when the call has returned, after the deferred `os.Remove`. -/
def prepareAndUploadCodeOn {J : Type} (host : Host) (m : Matcher) (goos : GOOS) (net : Net J)
    (disk : Disk) (d : SchemaData) (service : TcbService) (name envId : String)
    (buildDir : Node) : GoResult uploadResult × Disk :=
  match service.DescribeCloudBaseBuildService name envId with
  | .error err => (.error ("获取构建服务信息失败: " ++ err), disk)
  | .ok buildService =>
    match buildService.Response with
    | none => (.error "构建服务返回信息不完整", disk)
    | some resp =>
      match resp.UploadUrl, resp.PackageName with
      | some uploadUrl, some packageName =>
        match buildHeaders resp.UploadHeaders [] with
        | none => (.nilDereference, disk)
        | some headers =>
          match (match GetOkList d.source_code_exclude with
                 | (v, true) => assertStrings v
                 | (_, false) => some defaultSourceCodeExclude) with
          | none => (.typeAssertion, disk)
          | some excludeList =>
            match (match GetOkList d.source_code_include with
                   | (v, true) => assertStrings v
                   | (_, false) => some []) with
            | none => (.typeAssertion, disk)
            | some includeList =>
              match zipSourceCodeOn host m goos disk buildDir
                  (some (ZipOptions.mk includeList excludeList)) with
              | (.error err, disk1) => (.error ("代码压缩失败: " ++ err), disk1)
              | (.ok zipFile, disk1) =>
                match uploadFile net disk1
                    (UploadOptions.mk uploadUrl zipFile "PUT" headers false) with
                | .error err => (.error ("上传文件失败: " ++ err), disk1.Remove zipFile)
                | .ok _ =>
                  match resp.PackageVersion with
                  | none => (.nilDereference, disk1.Remove zipFile)
                  | some packageVersion =>
                    (.ok (uploadResult.mk packageName packageVersion), disk1.Remove zipFile)
      | _, _ => (.error "构建服务返回信息不完整", disk)

/-- The function `resourceTencentCloudCloudbaseRunCustomizeDiff` on a host.  The
value is what the function gave to `SetNew("source_code_hash", _)`, if it got
there; the second component is the temporary directory when the call has
returned. -/
def resourceTencentCloudCloudbaseRunCustomizeDiffOn (host : Host) (m : Matcher) (goos : GOOS)
    (codec : Codec) (disk : Disk) (proc : Process) (d : SchemaData) :
    GoResult (Option String) × Disk :=
  let deployType := d.deploy_type
  if deployType ≠ "package" then (.ok none, disk)
  else
    let currentDir := proc.Getwd
    match (match GetOkList d.source_code_exclude with
           | (v, true) => assertStrings v
           | (_, false) => some defaultSourceCodeExclude) with
    | none => (.typeAssertion, disk)
    | some excludeList =>
      match (match GetOkList d.source_code_include with
             | (v, true) => assertStrings v
             | (_, false) => some []) with
      | none => (.typeAssertion, disk)
      | some includeList =>
        match zipSourceCodeOn host m goos disk currentDir
            (some (ZipOptions.mk includeList excludeList)) with
        | (.error err, disk1) => (.error ("计算源代码哈希值失败: " ++ err), disk1)
        | (.ok zipFile, disk1) =>
          match disk1.read zipFile with
          | none =>
            (.error ("读取压缩文件失败: open " ++ zipFile ++ ": no such file or directory"),
              disk1.Remove zipFile)
          | some content =>
            let hash := sprintfHex (codec.Sum256 (codec.zipBytes content))
            (.ok (some hash), disk1.Remove zipFile)

/-- The function `setDeployInfo`: the struct as it leaves it, or its error.  The
second component is the temporary directory afterwards. -/
def setDeployInfo {J : Type} (host : Host) (m : Matcher) (goos : GOOS) (net : Net J)
    (disk : Disk) (proc : Process) (d : SchemaData) (service : TcbService)
    (deployInfo : DeployParam) : GoResult DeployParam × Disk :=
  let deployType := d.deploy_type
  let serverName := d.server_name
  let envId := proc.ENV_ID
  let targetDir := proc.Getwd
  let releaseType := if d.Id ≠ "" then some "FULL" else deployInfo.ReleaseType
  if deployType = "package" then
    match prepareAndUploadCodeOn host m goos net disk d service serverName envId targetDir with
    | (.error err, disk1) => (.error ("上传代码失败: " ++ err), disk1)
    | (.nilDereference, disk1) => (.nilDereference, disk1)
    | (.typeAssertion, disk1) => (.typeAssertion, disk1)
    | (.ok packageInfo, disk1) =>
      (.ok (DeployParam.mk (some deployType) deployInfo.ImageUrl
        (some packageInfo.packageName) (some packageInfo.packageVersion) releaseType), disk1)
  else
    (.ok (DeployParam.mk (some deployType) (some d.image_url) deployInfo.PackageName
      deployInfo.PackageVersion releaseType), disk)

/-- The resource data with `build_dir` set to another value. -/
def SchemaData.withBuildDir (d : SchemaData) (buildDir : String) : SchemaData :=
  SchemaData.mk d.deploy_type d.source_code_include d.source_code_exclude d.Id d.server_name
    d.image_url buildDir

/-- The resource data with `source_code_exclude` set to another value. -/
def SchemaData.withExclude (d : SchemaData) (exclude : Option (List (Option String))) :
    SchemaData :=
  SchemaData.mk d.deploy_type d.source_code_include exclude d.Id d.server_name d.image_url
    d.build_dir

/-- A host on which the temporary file is `/tmp/cloudbase-1.zip`, the temporary
directory lies outside the packaged directory, and no call fails. -/
def sampleHost : Host :=
  Host.mk (.ok (TempFile.mk "/tmp/cloudbase-1.zip" "cloudbase-1.zip")) none []
    (fun _ => none) (fun _ => none) (fun _ => none) (fun _ => none) (fun _ => none)
    (fun _ => none)

/-- A host on which the packaged directory is the temporary directory itself,
with the temporary file of the given name, still empty when it is copied. -/
def tempDirHost (base : String) : Host :=
  Host.mk (.ok (TempFile.mk ("/tmp/" ++ base) base)) (some []) []
    (fun _ => none) (fun _ => none) (fun _ => none) (fun _ => none) (fun _ => none)
    (fun _ => none)

/-- A host on which `io.Copy` fails for the object `link`, as it does for a
symbolic link to a directory. -/
def symlinkHost : Host :=
  Host.mk (.ok (TempFile.mk "/tmp/cloudbase-1.zip" "cloudbase-1.zip")) none []
    (fun _ => none) (fun _ => none) (fun _ => none) (fun _ => none) (fun _ => none)
    (fun path => if path = ["link"] then some "read link: is a directory" else none)

/-- A host on which the directory `node_modules` cannot be listed. -/
def unreadableHost : Host :=
  Host.mk (.ok (TempFile.mk "/tmp/cloudbase-1.zip" "cloudbase-1.zip")) none []
    (fun _ => none)
    (fun path =>
      if path = ["node_modules"] then some "open node_modules: permission denied" else none)
    (fun _ => none) (fun _ => none) (fun _ => none) (fun _ => none)

/-- A configuration of the service `svc` before its creation, with the given
deployment type, include list, exclude list and build directory. -/
def sampleSchemaData (deployType : String) (incl exclude : Option (List (Option String)))
    (buildDir : String) : SchemaData :=
  SchemaData.mk deployType incl exclude "" "svc" "" buildDir

/-! # Proofs -/

/-! ## Relative paths as strings -/

theorem joinPath_cons (sep a : String) (l : List String) (hl : l ≠ []) :
    joinPath sep (a :: l) = a ++ sep ++ joinPath sep l := by
  cases l with
  | nil => exact absurd rfl hl
  | cons b rest => rfl

theorem sep_ne_dot (goos : GOOS) : PathSeparator goos ≠ '.' := by
  cases goos <;> decide

theorem Rel_snoc_ne_dot (goos : GOOS) (q : List String) (a : String) (ha : a ≠ ".") :
    Rel goos (q ++ [a]) ≠ "." := by
  cases q with
  | nil => simpa [Rel, joinPath] using ha
  | cons b q1 =>
    have hne : q1 ++ [a] ≠ [] := by simp
    intro h
    have h1 : joinPath (String.singleton (PathSeparator goos)) (b :: (q1 ++ [a])) = "." := by
      simpa [Rel] using h
    rw [joinPath_cons _ _ _ hne] at h1
    have h2 := congrArg String.data h1
    simp only [String.data_append, String.singleton] at h2
    have h3 : b.data ++ (PathSeparator goos :: (joinPath (String.singleton (PathSeparator goos)) (q1 ++ [a])).data) = ['.'] := by
      simpa using h2
    cases hb : b.data with
    | nil =>
      rw [hb] at h3
      simp at h3
      exact sep_ne_dot goos h3.1
    | cons c cs =>
      rw [hb] at h3
      simp at h3

theorem append_sep_inj (sep : Char) : ∀ (a b x y : List Char), sep ∉ a → sep ∉ b →
    a ++ sep :: x = b ++ sep :: y → a = b ∧ x = y
  | [], [], x, y, _, _, h => by simpa using h
  | [], d :: b, x, y, _, hb, h => by
    simp at h
    exact absurd (h.1 ▸ List.mem_cons_self _ _) hb
  | c :: a, [], x, y, ha, _, h => by
    simp at h
    exact absurd (h.1 ▸ List.mem_cons_self _ _) ha
  | c :: a, d :: b, x, y, ha, hb, h => by
    simp at h
    have ih := append_sep_inj sep a b x y (fun hm => ha (List.mem_cons_of_mem _ hm))
      (fun hm => hb (List.mem_cons_of_mem _ hm)) h.2
    exact ⟨by rw [h.1, ih.1], ih.2⟩

theorem joinPath_data_cons (c : Char) (a : String) (l : List String) (hl : l ≠ []) :
    (joinPath (String.singleton c) (a :: l)).data =
      a.data ++ c :: (joinPath (String.singleton c) l).data := by
  rw [joinPath_cons _ _ _ hl]
  simp [String.data_append, String.singleton]

theorem joinPath_injective (c : Char) : ∀ (q r : List String), q ≠ [] → r ≠ [] →
    (∀ s ∈ q, c ∉ s.data) → (∀ s ∈ r, c ∉ s.data) →
    joinPath (String.singleton c) q = joinPath (String.singleton c) r → q = r
  | [], _, hq, _, _, _, _ => absurd rfl hq
  | _ :: _, [], _, hr, _, _, _ => absurd rfl hr
  | [a], [b], _, _, _, _, h => by simpa [joinPath] using h
  | [a], b :: b2 :: r, _, _, hq, hr, h => by
    have h1 := congrArg String.data h
    rw [joinPath_data_cons c b (b2 :: r) (by simp)] at h1
    simp only [joinPath] at h1
    exact absurd (h1 ▸ (by simp : c ∈ b.data ++ c :: (joinPath (String.singleton c) (b2 :: r)).data))
      (hq a (by simp))
  | a :: a2 :: q, [b], _, _, hq, hr, h => by
    have h1 := congrArg String.data h
    rw [joinPath_data_cons c a (a2 :: q) (by simp)] at h1
    simp only [joinPath] at h1
    exact absurd (h1 ▸ (by simp : c ∈ a.data ++ c :: (joinPath (String.singleton c) (a2 :: q)).data))
      (hr b (by simp))
  | a :: a2 :: q, b :: b2 :: r, _, _, hq, hr, h => by
    have h1 := congrArg String.data h
    rw [joinPath_data_cons c a (a2 :: q) (by simp), joinPath_data_cons c b (b2 :: r) (by simp)] at h1
    have h2 := append_sep_inj c _ _ _ _ (hq a (by simp)) (hr b (by simp)) h1
    have ih := joinPath_injective c (a2 :: q) (b2 :: r) (by simp) (by simp)
      (fun s hs => hq s (List.mem_cons_of_mem _ hs)) (fun s hs => hr s (List.mem_cons_of_mem _ hs))
      (String.ext h2.2)
    rw [String.ext h2.1, ih]

theorem Rel_injective (goos : GOOS) (q r : List String) (hq : q ≠ []) (hr : r ≠ [])
    (vq : ∀ s ∈ q, ValidName goos s) (vr : ∀ s ∈ r, ValidName goos s)
    (h : Rel goos q = Rel goos r) : q = r := by
  apply joinPath_injective (PathSeparator goos) q r hq hr
    (fun s hs => (vq s hs).2.2.2) (fun s hs => (vr s hs).2.2.2)
  cases q with
  | nil => exact absurd rfl hq
  | cons a q =>
    cases r with
    | nil => exact absurd rfl hr
    | cons b r => simpa [Rel] using h

theorem joinPath_last (c : Char) : ∀ (q : List String), q ≠ [] →
    (∀ s ∈ q, s ≠ "" ∧ '/' ∉ s.data) →
    ∃ cs d, (joinPath (String.singleton c) q).data = cs ++ [d] ∧ d ≠ '/'
  | [], hq, _ => absurd rfl hq
  | [a], _, hv => by
    have ha := hv a (by simp)
    have hne : a.data ≠ [] := fun h => ha.1 (String.ext h)
    refine ⟨a.data.dropLast, a.data.getLast hne, ?_, ?_⟩
    · simp [joinPath, List.dropLast_append_getLast]
    · intro h
      exact ha.2 (h ▸ List.getLast_mem hne)
  | a :: a2 :: q, _, hv => by
    obtain ⟨cs, d, h1, h2⟩ := joinPath_last c (a2 :: q) (by simp)
      (fun s hs => hv s (List.mem_cons_of_mem _ hs))
    refine ⟨a.data ++ c :: cs, d, ?_, h2⟩
    rw [joinPath_data_cons c a (a2 :: q) (by simp), h1]
    simp

theorem Rel_ne_append_slash (goos : GOOS) (q : List String) (hq : q ≠ [])
    (vq : ∀ s ∈ q, ValidName goos s) (t : String) : Rel goos q ≠ t ++ "/" := by
  obtain ⟨cs, d, h1, h2⟩ := joinPath_last (PathSeparator goos) q hq
    (fun s hs => ⟨(vq s hs).1, (vq s hs).2.2.1⟩)
  intro h
  have h3 : (Rel goos q).data = cs ++ [d] := by
    cases q with
    | nil => exact absurd rfl hq
    | cons a q => simpa [Rel] using h1
  rw [h] at h3
  have h4 : t.data ++ ['/'] = cs ++ [d] := by simpa [String.data_append] using h3
  have h5 := List.append_inj' h4 rfl
  simp at h5
  exact h2 h5.2.symm

/-! ## The filters -/

theorem matchExclude_eq (m : Matcher) (rel : String) : ∀ (exclude : List String),
    (∀ p ∈ exclude, Accepts m p) → matchExclude m rel exclude = .ok (matchesAny m exclude rel)
  | [], _ => rfl
  | p :: rest, h => by
    obtain ⟨b, hb⟩ := h p (by simp) rel
    have ih := matchExclude_eq m rel rest (fun x hx => h x (List.mem_cons_of_mem _ hx))
    cases b <;> simp [matchExclude, matchesAny, hb, ih]

theorem matchInclude_eq (m : Matcher) (rel : String) : ∀ (patterns : List String),
    (∀ p ∈ patterns, Accepts m p) → matchInclude m rel patterns = .ok (matchesAny m patterns rel)
  | [], _ => rfl
  | p :: rest, h => by
    obtain ⟨b, hb⟩ := h p (by simp) rel
    have ih := matchInclude_eq m rel rest (fun x hx => h x (List.mem_cons_of_mem _ hx))
    cases b <;> simp [matchInclude, matchesAny, hb, ih]

theorem matchesAny_iff (m : Matcher) (patterns : List String) (name : String) :
    matchesAny m patterns name = true ↔ ∃ p ∈ patterns, m p name = .ok true := by
  simp [matchesAny]

theorem mem_inits_tail (q path : List String) :
    q ∈ path.inits.tail ↔ q ≠ [] ∧ q <+: path := by
  cases path with
  | nil => simp
  | cons a l =>
    rw [List.inits_cons]
    simp only [List.tail_cons, List.mem_map, List.mem_inits]
    constructor
    · rintro ⟨t, ht, rfl⟩
      exact ⟨by simp, by simpa [List.cons_prefix_cons] using ht⟩
    · rintro ⟨hne, hp⟩
      cases q with
      | nil => exact absurd rfl hne
      | cons b t =>
        rw [List.cons_prefix_cons] at hp
        exact ⟨t, hp.2, by rw [hp.1]⟩

theorem excluded_iff (m : Matcher) (goos : GOOS) (exclude path : List String) :
    excluded m goos exclude path = true ↔
      ∃ q, q ≠ [] ∧ q <+: path ∧ matchesAny m exclude (Rel goos q) = true := by
  simp only [excluded, List.any_eq_true, mem_inits_tail]
  constructor
  · rintro ⟨q, ⟨h1, h2⟩, h3⟩
    exact ⟨q, h1, h2, h3⟩
  · rintro ⟨q, h1, h2, h3⟩
    exact ⟨q, ⟨h1, h2⟩, h3⟩

theorem excluded_nil (m : Matcher) (goos : GOOS) (exclude : List String) :
    excluded m goos exclude [] = false := by
  simp [excluded]

theorem excluded_snoc (m : Matcher) (goos : GOOS) (exclude path : List String) (a : String) :
    excluded m goos exclude (path ++ [a]) =
      (excluded m goos exclude path || matchesAny m exclude (Rel goos (path ++ [a]))) := by
  rw [Bool.eq_iff_iff]
  simp only [Bool.or_eq_true, excluded_iff]
  constructor
  · rintro ⟨q, h1, h2, h3⟩
    rcases List.prefix_concat_iff.mp h2 with h | h
    · right; rw [← h]; exact h3
    · left; exact ⟨q, h1, h, h3⟩
  · rintro (⟨q, h1, h2, h3⟩ | h)
    · exact ⟨q, h1, h2.trans (List.prefix_append _ _), h3⟩
    · exact ⟨path ++ [a], by simp, List.prefix_refl _, h⟩

theorem excluded_mono (m : Matcher) (goos : GOOS) (exclude p q : List String)
    (hpq : p <+: q) (h : excluded m goos exclude p = true) :
    excluded m goos exclude q = true := by
  rw [excluded_iff] at h ⊢
  obtain ⟨r, h1, h2, h3⟩ := h
  exact ⟨r, h1, h2.trans hpq, h3⟩

/-! ## The objects of a snapshot -/

mutual
theorem membersAt_extends : ∀ (n : Node) (path : List String) (x : Member),
    x ∈ membersAt path n → path <+: x.path
  | .file _ c, path, x, h => by
    simp [membersAt] at h
    rw [h]
  | .dir _ cs, path, x, h => by
    simp only [membersAt, List.mem_cons] at h
    rcases h with h | h
    · rw [h]
    · exact membersOf_extends cs path x h
theorem membersOf_extends : ∀ (cs : List Node) (path : List String) (x : Member),
    x ∈ membersOf path cs → path <+: x.path
  | [], _, x, h => by simp [membersOf] at h
  | c :: cs, path, x, h => by
    simp only [membersOf, List.mem_append] at h
    rcases h with h | h
    · exact (List.prefix_append _ _).trans (membersAt_extends c _ x h)
    · exact membersOf_extends cs path x h
end

/-! ## The walk writes the filtered listing -/

theorem validNode_name (goos : GOOS) : ∀ (n : Node), validNode goos n = true →
    ValidName goos n.Name
  | .file _ _, h => by simpa [validNode, Node.Name] using h
  | .dir _ _, h => by
    simp only [validNode, Bool.and_eq_true, decide_eq_true_eq] at h
    exact h.1

theorem validNode_children (goos : GOOS) (n : String) (cs : List Node)
    (h : validNode goos (.dir n cs) = true) : validNodes goos cs = true := by
  simp only [validNode, Bool.and_eq_true] at h
  exact h.2

theorem zipWalkFn_eq (m : Matcher) (goos : GOOS) (opts : ZipOptions)
    (hexc : ∀ p ∈ opts.ExcludeList, Accepts m p) (hinc : ∀ p ∈ opts.IncludeList, Accepts m p)
    (path : List String) (info : Node) (zw : Archive) (hrel : Rel goos path ≠ ".") :
    zipWalkFn m goos opts path info zw =
      if matchesAny m opts.ExcludeList (Rel goos path) = true then
        (zw, if info.IsDir then WalkRet.SkipDir else WalkRet.nil)
      else if (opts.IncludeList.isEmpty || matchesAny m opts.IncludeList (Rel goos path)) = true then
        (zw ++ [entryOf goos (Member.mk path info.IsDir info.Content)], WalkRet.nil)
      else (zw, WalkRet.nil) := by
  simp only [zipWalkFn, if_neg hrel, matchExclude_eq m _ _ hexc, matchInclude_eq m _ _ hinc]
  cases h1 : matchesAny m opts.ExcludeList (Rel goos path)
  · cases hl : opts.IncludeList with
    | nil => simp [entryOf]
    | cons p ps =>
      cases h2 : matchesAny m (p :: ps) (Rel goos path) <;> simp [entryOf]
  · cases info.IsDir <;> simp

theorem filter_kept_excluded (m : Matcher) (goos : GOOS) (opts : ZipOptions)
    (path : List String) (l : List Member) (hl : ∀ x ∈ l, path <+: x.path)
    (h : excluded m goos opts.ExcludeList path = true) :
    l.filter (kept m goos opts) = [] := by
  rw [List.filter_eq_nil_iff]
  intro x hx
  simp [kept, excluded_mono m goos _ _ _ (hl x hx) h]

mutual
theorem walk_zip (m : Matcher) (goos : GOOS) (opts : ZipOptions)
    (hexc : ∀ p ∈ opts.ExcludeList, Accepts m p) (hinc : ∀ p ∈ opts.IncludeList, Accepts m p) :
    ∀ (n : Node) (q : List String) (a : String) (zw : Archive), a ≠ "." →
      excluded m goos opts.ExcludeList q = false → validNode goos n = true →
      ∃ r, walk (zipWalkFn m goos opts) (q ++ [a]) n zw =
          (zw ++ ((membersAt (q ++ [a]) n).filter (kept m goos opts)).map (entryOf goos), r) ∧
        (r = WalkRet.nil ∨ (r = WalkRet.SkipDir ∧ n.IsDir = true))
  | .file name c, q, a, zw, ha, hq, _ => by
    have hrel := Rel_snoc_ne_dot goos q a ha
    simp only [walk, zipWalkFn_eq m goos opts hexc hinc _ _ _ hrel, membersAt, Node.IsDir,
      Node.Content]
    cases h1 : matchesAny m opts.ExcludeList (Rel goos (q ++ [a]))
    · cases h2 : (opts.IncludeList.isEmpty || matchesAny m opts.IncludeList (Rel goos (q ++ [a])))
      · exact ⟨WalkRet.nil, by simp [List.filter, kept, h2], Or.inl rfl⟩
      · exact ⟨WalkRet.nil, by simp [List.filter, kept, h2, excluded_snoc, hq, h1], Or.inl rfl⟩
    · exact ⟨WalkRet.nil, by simp [List.filter, kept, excluded_snoc, h1], Or.inl rfl⟩
  | .dir name cs, q, a, zw, ha, hq, hv => by
    have hrel := Rel_snoc_ne_dot goos q a ha
    simp only [walk, zipWalkFn_eq m goos opts hexc hinc _ _ _ hrel, membersAt, Node.IsDir,
      Node.Content]
    cases h1 : matchesAny m opts.ExcludeList (Rel goos (q ++ [a]))
    · have hq1 : excluded m goos opts.ExcludeList (q ++ [a]) = false := by
        rw [excluded_snoc, hq, h1]; rfl
      have ih := fun zw1 => walkNames_zip m goos opts hexc hinc cs (q ++ [a]) zw1 hq1
        (validNode_children goos name cs hv)
      cases h2 : (opts.IncludeList.isEmpty || matchesAny m opts.IncludeList (Rel goos (q ++ [a])))
      · refine ⟨WalkRet.nil, ?_, Or.inl rfl⟩
        simp [ih, List.filter, kept, h2]
      · refine ⟨WalkRet.nil, ?_, Or.inl rfl⟩
        simp [ih, List.filter, kept, h2, hq1]
    · have hq1 : excluded m goos opts.ExcludeList (q ++ [a]) = true := by
        rw [excluded_snoc, h1]; simp
      refine ⟨WalkRet.SkipDir, ?_, Or.inr ⟨rfl, trivial⟩⟩
      have hnil := filter_kept_excluded m goos opts (q ++ [a])
        (Member.mk (q ++ [a]) true [] :: membersOf (q ++ [a]) cs)
        (by
          intro x hx
          rcases List.mem_cons.mp hx with h | h
          · rw [h]
          · exact membersOf_extends cs _ x h) hq1
      simp [hnil]
theorem walkNames_zip (m : Matcher) (goos : GOOS) (opts : ZipOptions)
    (hexc : ∀ p ∈ opts.ExcludeList, Accepts m p) (hinc : ∀ p ∈ opts.IncludeList, Accepts m p) :
    ∀ (cs : List Node) (q : List String) (zw : Archive),
      excluded m goos opts.ExcludeList q = false → validNodes goos cs = true →
      walkNames (zipWalkFn m goos opts) q cs zw =
        (zw ++ ((membersOf q cs).filter (kept m goos opts)).map (entryOf goos), WalkRet.nil)
  | [], q, zw, _, _ => by simp [walkNames, membersOf]
  | c :: cs, q, zw, hq, hv => by
    simp only [validNodes, Bool.and_eq_true] at hv
    obtain ⟨r, h1, h2⟩ := walk_zip m goos opts hexc hinc c q c.Name zw
      (validNode_name goos c hv.1).2.1 hq hv.1
    have ih := fun zw1 => walkNames_zip m goos opts hexc hinc cs q zw1 hq hv.2
    rcases h2 with h2 | ⟨h2, h3⟩
    · subst h2
      simp [walkNames, h1, ih, membersOf]
    · subst h2
      simp [walkNames, h1, ih, membersOf, h3]
end

/-! ## Sorted listings -/

theorem sortNode_Name (n : Node) : (sortNode n).Name = n.Name := by
  cases n <;> simp [sortNode, Node.Name]

theorem validNodes_iff (goos : GOOS) : ∀ (cs : List Node),
    validNodes goos cs = true ↔ ∀ c ∈ cs, validNode goos c = true
  | [] => by simp [validNodes]
  | c :: cs => by simp [validNodes, validNodes_iff goos cs]

theorem validNodes_readDirNames (goos : GOOS) (cs : List Node) (h : validNodes goos cs = true) :
    validNodes goos (readDirNames cs) = true := by
  rw [validNodes_iff] at h ⊢
  intro c hc
  exact h c ((List.mem_insertionSort _).mp hc)

mutual
theorem validNode_sort (goos : GOOS) : ∀ (n : Node), validNode goos n = true →
    validNode goos (sortNode n) = true
  | .file _ _, h => by simpa [sortNode] using h
  | .dir n cs, h => by
    simp only [validNode, Bool.and_eq_true] at h
    simp only [sortNode, validNode, Bool.and_eq_true]
    exact ⟨h.1, validNodes_readDirNames goos _ (validNodes_sort goos cs h.2)⟩
theorem validNodes_sort (goos : GOOS) : ∀ (cs : List Node), validNodes goos cs = true →
    validNodes goos (sortNodes cs) = true
  | [], _ => by simp [sortNodes, validNodes]
  | c :: cs, h => by
    simp only [validNodes, Bool.and_eq_true] at h
    simp only [sortNodes, validNodes, Bool.and_eq_true]
    exact ⟨validNode_sort goos c h.1, validNodes_sort goos cs h.2⟩
end

theorem membersOf_perm (path : List String) {l1 l2 : List Node} (h : l1.Perm l2) :
    (membersOf path l1).Perm (membersOf path l2) := by
  induction h with
  | nil => exact List.Perm.refl _
  | cons c _ ih => exact List.Perm.append_left _ ih
  | swap a b l =>
    simp only [membersOf, ← List.append_assoc]
    exact List.Perm.append_right _ List.perm_append_comm
  | trans _ _ ih1 ih2 => exact ih1.trans ih2

mutual
theorem membersAt_sort : ∀ (n : Node) (path : List String),
    (membersAt path (sortNode n)).Perm (membersAt path n)
  | .file _ _, _ => by simp [sortNode]
  | .dir n cs, path => by
    simp only [sortNode, membersAt, List.perm_cons]
    exact (membersOf_perm path (List.perm_insertionSort _ _)).trans (membersOf_sort cs path)
theorem membersOf_sort : ∀ (cs : List Node) (path : List String),
    (membersOf path (sortNodes cs)).Perm (membersOf path cs)
  | [], _ => by simp [sortNodes]
  | c :: cs, path => by
    simp only [sortNodes, membersOf, sortNode_Name]
    exact (membersAt_sort c _).append (membersOf_sort cs path)
end

/-! ## What `zipSourceCode` writes -/

/-- The archive `zipSourceCode` writes for a directory when the matcher accepts
every pattern: the objects below the root that pass the filters, directory by
directory in sorted order. -/
theorem zipSourceCode_dir (m : Matcher) (goos : GOOS) (tmp : String) (disk : Disk)
    (name : String) (cs : List Node) (opts : ZipOptions)
    (hv : validNodes goos cs = true)
    (hexc : ∀ p ∈ opts.ExcludeList, Accepts m p) (hinc : ∀ p ∈ opts.IncludeList, Accepts m p) :
    zipSourceCode m goos tmp disk (.dir name cs) (some opts) =
      (.ok tmp, (tmp, ((membersOf [] (readDirNames (sortNodes cs))).filter
        (kept m goos opts)).map (entryOf goos)) :: disk) := by
  have h := walkNames_zip m goos opts hexc hinc (readDirNames (sortNodes cs)) [] []
    (excluded_nil m goos _) (validNodes_readDirNames goos _ (validNodes_sort goos cs hv))
  simp [zipSourceCode, Walk, sortNode, walk, zipWalkFn, Rel, h]

theorem filtered_perm (m : Matcher) (goos : GOOS) (cs : List Node) (opts : ZipOptions) :
    (((membersOf [] (readDirNames (sortNodes cs))).filter (kept m goos opts)).map
      (entryOf goos)).Perm
    (((membersOf [] cs).filter (kept m goos opts)).map (entryOf goos)) :=
  (((membersOf_perm [] (List.perm_insertionSort _ _)).trans (membersOf_sort cs [])).filter _).map _

/-! ## Entries determine their objects -/

mutual
theorem membersAt_valid (goos : GOOS) : ∀ (n : Node) (path : List String) (x : Member),
    x ∈ membersAt path n → validNode goos n = true → (∀ s ∈ path, ValidName goos s) →
    ∀ s ∈ x.path, ValidName goos s
  | .file _ c, path, x, h, _, hp => by
    simp [membersAt] at h
    rw [h]; exact hp
  | .dir n cs, path, x, h, hv, hp => by
    simp only [membersAt, List.mem_cons] at h
    rcases h with h | h
    · rw [h]; exact hp
    · exact membersOf_valid goos cs path x h (validNode_children goos n cs hv) hp
theorem membersOf_valid (goos : GOOS) : ∀ (cs : List Node) (path : List String) (x : Member),
    x ∈ membersOf path cs → validNodes goos cs = true → (∀ s ∈ path, ValidName goos s) →
    ∀ s ∈ x.path, ValidName goos s
  | [], _, x, h, _, _ => by simp [membersOf] at h
  | c :: cs, path, x, h, hv, hp => by
    simp only [validNodes, Bool.and_eq_true] at hv
    simp only [membersOf, List.mem_append] at h
    rcases h with h | h
    · refine membersAt_valid goos c _ x h hv.1 ?_
      intro s hs
      rcases List.mem_append.mp hs with hs | hs
      · exact hp s hs
      · simp at hs
        rw [hs]; exact validNode_name goos c hv.1
    · exact membersOf_valid goos cs path x h hv.2 hp
end

theorem membersOf_path_ne_nil : ∀ (cs : List Node) (path : List String) (x : Member),
    x ∈ membersOf path cs → x.path ≠ []
  | [], _, x, h => by simp [membersOf] at h
  | c :: cs, path, x, h => by
    simp only [membersOf, List.mem_append] at h
    rcases h with h | h
    · intro hx
      have hp := membersAt_extends c _ x h
      rw [hx] at hp
      simp at hp
    · exact membersOf_path_ne_nil cs path x h

mutual
theorem membersAt_dir_content : ∀ (n : Node) (path : List String) (x : Member),
    x ∈ membersAt path n → x.isDir = true → x.content = []
  | .file _ c, path, x, h, hd => by
    simp [membersAt] at h
    rw [h] at hd; simp at hd
  | .dir _ cs, path, x, h, hd => by
    simp only [membersAt, List.mem_cons] at h
    rcases h with h | h
    · rw [h]
    · exact membersOf_dir_content cs path x h hd
theorem membersOf_dir_content : ∀ (cs : List Node) (path : List String) (x : Member),
    x ∈ membersOf path cs → x.isDir = true → x.content = []
  | [], _, x, h, _ => by simp [membersOf] at h
  | c :: cs, path, x, h, hd => by
    simp only [membersOf, List.mem_append] at h
    rcases h with h | h
    · exact membersAt_dir_content c _ x h hd
    · exact membersOf_dir_content cs path x h hd
end

theorem string_append_right_cancel (a b t : String) (h : a ++ t = b ++ t) : a = b := by
  have h1 := congrArg String.data h
  simp only [String.data_append] at h1
  exact String.ext (List.append_cancel_right h1)

theorem entryOf_path (goos : GOOS) (x y : Member) (hx : x.path ≠ []) (hy : y.path ≠ [])
    (vx : ∀ s ∈ x.path, ValidName goos s) (vy : ∀ s ∈ y.path, ValidName goos s)
    (h : entryOf goos x = entryOf goos y) : x.path = y.path := by
  simp only [entryOf, ZipEntry.mk.injEq] at h
  obtain ⟨h1, h2, _⟩ := h
  rw [h2] at h1
  cases hd : y.isDir
  · rw [hd] at h1
    exact Rel_injective goos _ _ hx hy vx vy (by simpa using h1)
  · rw [hd] at h1
    exact Rel_injective goos _ _ hx hy vx vy
      (string_append_right_cancel _ _ "/" (by simpa using h1))

theorem kept_congr (m : Matcher) (goos : GOOS) (opts : ZipOptions) (x y : Member)
    (h : x.path = y.path) : kept m goos opts x = kept m goos opts y := by
  simp [kept, h]

/-- An object of a well-named tree has its entry in the filtered archive exactly
when it passes the filters. -/
theorem mem_archive_iff (m : Matcher) (goos : GOOS) (opts : ZipOptions) (cs : List Node)
    (hv : validNodes goos cs = true) (archive : Archive)
    (hperm : archive.Perm (((membersOf [] cs).filter (kept m goos opts)).map (entryOf goos)))
    (x : Member) (hx : x ∈ membersOf [] cs) :
    entryOf goos x ∈ archive ↔ kept m goos opts x = true := by
  rw [hperm.mem_iff, List.mem_map]
  constructor
  · rintro ⟨y, hy, hxy⟩
    rw [List.mem_filter] at hy
    have hp := entryOf_path goos y x (membersOf_path_ne_nil cs [] y hy.1)
      (membersOf_path_ne_nil cs [] x hx) (membersOf_valid goos cs [] y hy.1 hv (by simp))
      (membersOf_valid goos cs [] x hx hv (by simp)) hxy
    rw [← kept_congr m goos opts y x hp]
    exact hy.2
  · intro hk
    exact ⟨x, List.mem_filter.mpr ⟨hx, hk⟩, rfl⟩

theorem kept_iff (m : Matcher) (goos : GOOS) (opts : ZipOptions) (x : Member) :
    kept m goos opts x = true ↔
      (∀ q, q ≠ [] → q <+: x.path → ∀ p ∈ opts.ExcludeList, m p (Rel goos q) ≠ .ok true) ∧
      (opts.IncludeList = [] ∨ ∃ p ∈ opts.IncludeList, m p (Rel goos x.path) = .ok true) := by
  simp only [kept, Bool.and_eq_true, Bool.not_eq_true', Bool.or_eq_true, List.isEmpty_iff,
    matchesAny_iff]
  rw [← Bool.not_eq_true, excluded_iff]
  simp only [matchesAny_iff]
  constructor
  · rintro ⟨h1, h2⟩
    exact ⟨fun q hq hp p hpm hm => h1 ⟨q, hq, hp, p, hpm, hm⟩, h2⟩
  · rintro ⟨h1, h2⟩
    exact ⟨fun ⟨q, hq, hp, p, hpm, hm⟩ => h1 q hq hp p hpm hm, h2⟩

/-! ## The order of a listing -/

theorem lessEq_total : ∀ (a b : List Char), lessEq a b = true ∨ lessEq b a = true
  | [], _ => Or.inl rfl
  | _ :: _, [] => Or.inr rfl
  | a :: as, b :: bs => by
    simp only [lessEq]
    rcases Nat.lt_trichotomy a.toNat b.toNat with h | h | h
    · left; simp [h]
    · have h1 : ¬ a.toNat < b.toNat := by omega
      have h2 : ¬ b.toNat < a.toNat := by omega
      simpa [h1, h2] using lessEq_total as bs
    · right; simp [h]

theorem lessEq_trans : ∀ (a b c : List Char), lessEq a b = true → lessEq b c = true →
    lessEq a c = true
  | [], _, _, _, _ => rfl
  | _ :: _, [], _, h, _ => by simp [lessEq] at h
  | _ :: _, _ :: _, [], _, h => by simp [lessEq] at h
  | a :: as, b :: bs, c :: cs, h1, h2 => by
    simp only [lessEq] at h1 h2 ⊢
    by_cases hab : a.toNat < b.toNat
    · by_cases hbc : b.toNat < c.toNat
      · have : a.toNat < c.toNat := by omega
        simp [this]
      · by_cases hcb : c.toNat < b.toNat
        · simp [hbc, hcb] at h2
        · have : a.toNat < c.toNat := by omega
          simp [this]
    · by_cases hba : b.toNat < a.toNat
      · simp [hab, hba] at h1
      · simp only [hab, hba, if_false] at h1
        by_cases hbc : b.toNat < c.toNat
        · have : a.toNat < c.toNat := by omega
          simp [this]
        · by_cases hcb : c.toNat < b.toNat
          · simp [hbc, hcb] at h2
          · simp only [hbc, hcb, if_false] at h2
            have h3 : ¬ a.toNat < c.toNat := by omega
            have h4 : ¬ c.toNat < a.toNat := by omega
            simpa [h3, h4] using lessEq_trans as bs cs h1 h2

theorem Node.le_isTotal : IsTotal Node Node.le :=
  ⟨fun a b => lessEq_total a.Name.data b.Name.data⟩

theorem Node.le_isTrans : IsTrans Node Node.le :=
  ⟨fun a b c => lessEq_trans a.Name.data b.Name.data c.Name.data⟩

/-- The listing `readDirNames` gives is in the order of the names. -/
theorem readDirNames_sorted (l : List Node) : (readDirNames l).Sorted Node.le :=
  haveI := Node.le_isTotal
  haveI := Node.le_isTrans
  List.sorted_insertionSort Node.le l

theorem orderedInsert_of_le (a : Node) : ∀ (l : List Node), (∀ b ∈ l, Node.le a b) →
    List.orderedInsert Node.le a l = a :: l
  | [], _ => rfl
  | b :: l, h => by simp [List.orderedInsert, h b (by simp)]

theorem filter_orderedInsert (p : Node → Bool) (a : Node) : ∀ (l : List Node),
    l.Sorted Node.le →
    (List.orderedInsert Node.le a l).filter p =
      if p a = true then List.orderedInsert Node.le a (l.filter p) else l.filter p
  | [], _ => by by_cases h : p a = true <;> simp [h]
  | b :: l, hs => by
    have hs1 := List.sorted_cons.mp hs
    have ih := filter_orderedInsert p a l hs1.2
    by_cases hab : Node.le a b
    · simp only [List.orderedInsert, if_pos hab]
      by_cases hpa : p a = true
      · rw [if_pos hpa, List.filter_cons_of_pos hpa]
        rw [orderedInsert_of_le a]
        intro c hc
        have hc1 := (List.mem_filter.mp hc).1
        rcases List.mem_cons.mp hc1 with h | h
        · rw [h]; exact hab
        · exact lessEq_trans _ _ _ hab (hs1.1 c h)
      · rw [if_neg hpa, List.filter_cons_of_neg hpa]
    · simp only [List.orderedInsert, if_neg hab]
      by_cases hpb : p b = true
      · rw [List.filter_cons_of_pos hpb, ih, List.filter_cons_of_pos hpb]
        by_cases hpa : p a = true
        · simp [hpa, List.orderedInsert, hab]
        · simp [hpa]
      · rw [List.filter_cons_of_neg hpb, ih, List.filter_cons_of_neg hpb]

theorem readDirNames_filter (p : Node → Bool) : ∀ (l : List Node),
    readDirNames (l.filter p) = (readDirNames l).filter p
  | [] => rfl
  | a :: l => by
    have ih := readDirNames_filter p l
    simp only [readDirNames] at ih ⊢
    have hs : (List.insertionSort Node.le l).Sorted Node.le := readDirNames_sorted l
    rw [List.insertionSort, filter_orderedInsert p a _ hs]
    by_cases hpa : p a = true
    · rw [if_pos hpa, List.filter_cons_of_pos hpa, List.insertionSort, ih]
    · rw [if_neg hpa, List.filter_cons_of_neg hpa, ih]

theorem readDirNames_map (f : Node → Node) (hf : ∀ c, (f c).Name = c.Name) (l : List Node) :
    readDirNames (l.map f) = (readDirNames l).map f := by
  simp only [readDirNames]
  symm
  apply List.map_insertionSort
  intro a _ b _
  simp [Node.le, hf]

/-! ## Taking a subtree out -/

theorem withChildren_Name (f : List Node → List Node) (c : Node) :
    (c.withChildren f).Name = c.Name := by
  cases c <;> rfl

theorem sortNodes_eq_map : ∀ (cs : List Node), sortNodes cs = cs.map sortNode
  | [] => rfl
  | c :: cs => by simp [sortNodes, sortNodes_eq_map cs]

theorem removePath_sorted : ∀ (q : List String) (cs : List Node),
    readDirNames (sortNodes (removePath q cs)) = removePath q (readDirNames (sortNodes cs))
  | [], _ => rfl
  | [a], cs => by
    simp only [removePath, sortNodes_eq_map]
    rw [← readDirNames_filter]
    congr 1
    induction cs with
    | nil => rfl
    | cons c cs ih =>
      by_cases hc : c.Name = a
      · simp [hc, sortNode_Name, ih]
      · simp [hc, sortNode_Name, ih]
  | a :: b :: rest, cs => by
    have ih := removePath_sorted (b :: rest)
    simp only [removePath, sortNodes_eq_map]
    rw [← readDirNames_map _ (by
      intro c
      by_cases hc : c.Name = a
      · simp [hc, withChildren_Name]
      · simp [hc])]
    congr 1
    simp only [List.map_map]
    apply List.map_congr_left
    intro c _
    simp only [Function.comp]
    by_cases hc : c.Name = a
    · simp only [hc, if_true, sortNode_Name]
      cases c with
      | file n d => simp [Node.withChildren, sortNode]
      | dir n ds =>
        simp only [Node.withChildren, sortNode, sortNodes_eq_map] at ih ⊢
        rw [ih]
    · simp [hc, sortNode_Name]

theorem removePath_valid (goos : GOOS) : ∀ (q : List String) (cs : List Node),
    validNodes goos cs = true → validNodes goos (removePath q cs) = true
  | [], _, h => h
  | [a], cs, h => by
    rw [validNodes_iff] at h ⊢
    intro c hc
    exact h c (List.mem_filter.mp hc).1
  | a :: b :: rest, cs, h => by
    have ih := removePath_valid goos (b :: rest)
    rw [validNodes_iff] at h ⊢
    intro c hc
    simp only [removePath, List.mem_map] at hc
    obtain ⟨c0, hc0, rfl⟩ := hc
    by_cases hn : c0.Name = a
    · simp only [hn, if_true]
      cases c0 with
      | file n d => exact h _ hc0
      | dir n ds =>
        have hv := h _ hc0
        simp only [validNode, Bool.and_eq_true] at hv
        simp only [Node.withChildren, validNode, Bool.and_eq_true]
        exact ⟨hv.1, ih ds hv.2⟩
    · simpa [hn] using h _ hc0

theorem removePath_kept (m : Matcher) (goos : GOOS) (opts : ZipOptions) :
    ∀ (q : List String) (base : List String) (cs : List Node), q ≠ [] →
      excluded m goos opts.ExcludeList (base ++ q) = true →
      (membersOf base (removePath q cs)).filter (kept m goos opts) =
        (membersOf base cs).filter (kept m goos opts)
  | [], _, _, hq, _ => absurd rfl hq
  | [a], base, cs, _, hex => by
    induction cs with
    | nil => rfl
    | cons c cs ih =>
      simp only [removePath] at ih ⊢
      by_cases hc : c.Name = a
      · have hnil := filter_kept_excluded m goos opts (base ++ [a])
          (membersAt (base ++ [c.Name]) c)
          (fun x hx => by rw [← hc]; exact membersAt_extends c _ x hx) hex
        subst hc
        simp [membersOf, ih, hnil]
      · simp [hc, membersOf, ih]
  | a :: b :: rest, base, cs, _, hex => by
    have ih := removePath_kept m goos opts (b :: rest) (base ++ [a])
    induction cs with
    | nil => rfl
    | cons c cs ihc =>
      simp only [removePath] at ihc ⊢
      simp only [List.map_cons, membersOf, List.filter_append, ihc]
      congr 1
      by_cases hc : c.Name = a
      · simp only [hc, if_true, withChildren_Name]
        cases c with
        | file n d => rfl
        | dir n ds =>
          simp only [Node.withChildren, membersAt, List.filter_cons]
          rw [ih ds (by simp) (by simpa using hex)]
      · simp [hc]

/-! ## The walk when some pattern may be rejected -/

theorem matchExclude_ok (m : Matcher) (rel : String) : ∀ (exclude : List String) (b : Bool),
    matchExclude m rel exclude = .ok b → b = matchesAny m exclude rel
  | [], b, h => by
    simp only [matchExclude, Except.ok.injEq] at h
    simp [matchesAny, ← h]
  | p :: rest, b, h => by
    simp only [matchExclude] at h
    cases hp : m p rel with
    | error e => simp [hp] at h
    | ok v =>
      cases v
      · simp only [hp] at h
        have ih := matchExclude_ok m rel rest b h
        simp only [matchesAny] at ih ⊢
        simp [hp, ih]
      · simp only [hp, Except.ok.injEq] at h
        simp [matchesAny, hp, ← h]

theorem matchInclude_ok (m : Matcher) (rel : String) : ∀ (patterns : List String) (b : Bool),
    matchInclude m rel patterns = .ok b → b = matchesAny m patterns rel
  | [], b, h => by
    simp only [matchInclude, Except.ok.injEq] at h
    simp [matchesAny, ← h]
  | p :: rest, b, h => by
    simp only [matchInclude] at h
    cases hp : m p rel with
    | error e => simp [hp] at h
    | ok v =>
      cases v
      · simp only [hp] at h
        have ih := matchInclude_ok m rel rest b h
        simp only [matchesAny] at ih ⊢
        simp [hp, ih]
      · simp only [hp, Except.ok.injEq] at h
        simp [matchesAny, hp, ← h]

theorem zipWalkFn_cases (m : Matcher) (goos : GOOS) (opts : ZipOptions)
    (path : List String) (info : Node) (zw : Archive) (hrel : Rel goos path ≠ ".") :
    (∃ e, zipWalkFn m goos opts path info zw = (zw, WalkRet.err e)) ∨
    zipWalkFn m goos opts path info zw =
      if matchesAny m opts.ExcludeList (Rel goos path) = true then
        (zw, if info.IsDir then WalkRet.SkipDir else WalkRet.nil)
      else if (opts.IncludeList.isEmpty || matchesAny m opts.IncludeList (Rel goos path)) = true then
        (zw ++ [entryOf goos (Member.mk path info.IsDir info.Content)], WalkRet.nil)
      else (zw, WalkRet.nil) := by
  simp only [zipWalkFn, if_neg hrel]
  cases h1 : matchExclude m (Rel goos path) opts.ExcludeList with
  | error e => exact Or.inl ⟨e, rfl⟩
  | ok b =>
    have hb := matchExclude_ok m _ _ b h1
    subst hb
    cases h2 : matchesAny m opts.ExcludeList (Rel goos path)
    · cases hl : opts.IncludeList with
      | nil => right; simp [entryOf]
      | cons p ps =>
        simp only [List.length_cons, Nat.zero_lt_succ, if_true, gt_iff_lt]
        cases h3 : matchInclude m (Rel goos path) (p :: ps) with
        | error e => exact Or.inl ⟨e, rfl⟩
        | ok b2 =>
          have hb2 := matchInclude_ok m _ _ b2 h3
          subst hb2
          right
          cases h4 : matchesAny m (p :: ps) (Rel goos path) <;> simp [entryOf]
    · right
      cases info.IsDir <;> simp

mutual
theorem walk_zip_cases (m : Matcher) (goos : GOOS) (opts : ZipOptions) :
    ∀ (n : Node) (q : List String) (a : String) (zw : Archive), a ≠ "." →
      excluded m goos opts.ExcludeList q = false → validNode goos n = true →
      (∃ zw1 e, walk (zipWalkFn m goos opts) (q ++ [a]) n zw = (zw1, WalkRet.err e)) ∨
      ∃ r, walk (zipWalkFn m goos opts) (q ++ [a]) n zw =
          (zw ++ ((membersAt (q ++ [a]) n).filter (kept m goos opts)).map (entryOf goos), r) ∧
        (r = WalkRet.nil ∨ (r = WalkRet.SkipDir ∧ n.IsDir = true))
  | .file name c, q, a, zw, ha, hq, _ => by
    have hrel := Rel_snoc_ne_dot goos q a ha
    rcases zipWalkFn_cases m goos opts (q ++ [a]) (.file name c) zw hrel with ⟨e, he⟩ | he
    · exact Or.inl ⟨zw, e, by simp [walk, he]⟩
    · right
      simp only [walk, he, membersAt, Node.IsDir, Node.Content]
      cases h1 : matchesAny m opts.ExcludeList (Rel goos (q ++ [a]))
      · cases h2 : (opts.IncludeList.isEmpty || matchesAny m opts.IncludeList (Rel goos (q ++ [a])))
        · exact ⟨WalkRet.nil, by simp [List.filter, kept, h2], Or.inl rfl⟩
        · exact ⟨WalkRet.nil, by simp [List.filter, kept, h2, excluded_snoc, hq, h1], Or.inl rfl⟩
      · exact ⟨WalkRet.nil, by simp [List.filter, kept, excluded_snoc, h1], Or.inl rfl⟩
  | .dir name cs, q, a, zw, ha, hq, hv => by
    have hrel := Rel_snoc_ne_dot goos q a ha
    rcases zipWalkFn_cases m goos opts (q ++ [a]) (.dir name cs) zw hrel with ⟨e, he⟩ | he
    · exact Or.inl ⟨zw, e, by simp [walk, he]⟩
    · simp only [walk, he, membersAt, Node.IsDir, Node.Content]
      cases h1 : matchesAny m opts.ExcludeList (Rel goos (q ++ [a]))
      · have hq1 : excluded m goos opts.ExcludeList (q ++ [a]) = false := by
          rw [excluded_snoc, hq, h1]; rfl
        have ih := fun zw1 => walkNames_zip_cases m goos opts cs (q ++ [a]) zw1 hq1
          (validNode_children goos name cs hv)
        cases h2 : (opts.IncludeList.isEmpty || matchesAny m opts.IncludeList (Rel goos (q ++ [a])))
        · rcases ih zw with ⟨zw1, e, h3⟩ | h3
          · exact Or.inl ⟨zw1, e, by simp [h3]⟩
          · exact Or.inr ⟨WalkRet.nil, by simp [h3, List.filter, kept, h2], Or.inl rfl⟩
        · rcases ih (zw ++ [entryOf goos (Member.mk (q ++ [a]) true [])]) with ⟨zw1, e, h3⟩ | h3
          · exact Or.inl ⟨zw1, e, by simp [h3]⟩
          · exact Or.inr ⟨WalkRet.nil, by simp [h3, List.filter, kept, h2, hq1], Or.inl rfl⟩
      · have hq1 : excluded m goos opts.ExcludeList (q ++ [a]) = true := by
          rw [excluded_snoc, h1]; simp
        refine Or.inr ⟨WalkRet.SkipDir, ?_, Or.inr ⟨rfl, trivial⟩⟩
        have hnil := filter_kept_excluded m goos opts (q ++ [a])
          (Member.mk (q ++ [a]) true [] :: membersOf (q ++ [a]) cs)
          (by
            intro x hx
            rcases List.mem_cons.mp hx with h | h
            · rw [h]
            · exact membersOf_extends cs _ x h) hq1
        simp [hnil]
theorem walkNames_zip_cases (m : Matcher) (goos : GOOS) (opts : ZipOptions) :
    ∀ (cs : List Node) (q : List String) (zw : Archive),
      excluded m goos opts.ExcludeList q = false → validNodes goos cs = true →
      (∃ zw1 e, walkNames (zipWalkFn m goos opts) q cs zw = (zw1, WalkRet.err e)) ∨
      walkNames (zipWalkFn m goos opts) q cs zw =
        (zw ++ ((membersOf q cs).filter (kept m goos opts)).map (entryOf goos), WalkRet.nil)
  | [], q, zw, _, _ => by simp [walkNames, membersOf]
  | c :: cs, q, zw, hq, hv => by
    simp only [validNodes, Bool.and_eq_true] at hv
    have ih := fun zw1 => walkNames_zip_cases m goos opts cs q zw1 hq hv.2
    rcases walk_zip_cases m goos opts c q c.Name zw (validNode_name goos c hv.1).2.1 hq hv.1
      with ⟨zw1, e, h1⟩ | ⟨r, h1, h2⟩
    · exact Or.inl ⟨zw1, e, by simp [walkNames, h1]⟩
    · rcases h2 with h2 | ⟨h2, h3⟩
      · subst h2
        rcases ih (zw ++ ((membersAt (q ++ [c.Name]) c).filter (kept m goos opts)).map
          (entryOf goos)) with ⟨zw1, e, h4⟩ | h4
        · exact Or.inl ⟨zw1, e, by simp [walkNames, h1, h4]⟩
        · exact Or.inr (by simp [walkNames, h1, h4, membersOf])
      · subst h2
        rcases ih (zw ++ ((membersAt (q ++ [c.Name]) c).filter (kept m goos opts)).map
          (entryOf goos)) with ⟨zw1, e, h4⟩ | h4
        · exact Or.inl ⟨zw1, e, by simp [walkNames, h1, h3, h4]⟩
        · exact Or.inr (by simp [walkNames, h1, h3, h4, membersOf])
end

/-- Whenever `zipSourceCode` returns a path for a directory, whatever the
patterns, the path is the temporary file and the archive holds the objects that
pass the filters, directory by directory in sorted order. -/
theorem zipSourceCode_ok (m : Matcher) (goos : GOOS) (tmp : String) (disk : Disk)
    (name : String) (cs : List Node) (opts : ZipOptions) (hv : validNodes goos cs = true)
    (p : String) (disk1 : Disk)
    (h : zipSourceCode m goos tmp disk (.dir name cs) (some opts) = (.ok p, disk1)) :
    p = tmp ∧ disk1 = (tmp, ((membersOf [] (readDirNames (sortNodes cs))).filter
        (kept m goos opts)).map (entryOf goos)) :: disk := by
  rcases walkNames_zip_cases m goos opts (readDirNames (sortNodes cs)) [] []
    (excluded_nil m goos _) (validNodes_readDirNames goos _ (validNodes_sort goos cs hv))
    with ⟨zw1, e, h1⟩ | h1
  · simp [zipSourceCode, Walk, sortNode, walk, zipWalkFn, Rel, h1] at h
  · simp only [zipSourceCode, Walk, sortNode, walk, zipWalkFn, Rel, h1, Option.getD_some,
      if_true, List.nil_append, Prod.mk.injEq, Except.ok.injEq] at h
    exact ⟨h.1.symm, h.2.symm⟩

theorem zipWalkFn_excluded (m : Matcher) (goos : GOOS) (opts : ZipOptions)
    (path : List String) (info : Node) (zw : Archive) (hrel : Rel goos path ≠ ".")
    (h : matchExclude m (Rel goos path) opts.ExcludeList = .ok true) :
    zipWalkFn m goos opts path info zw =
      (zw, if info.IsDir then WalkRet.SkipDir else WalkRet.nil) := by
  simp only [zipWalkFn, if_neg hrel, h]
  cases info.IsDir <;> simp

theorem walk_excluded (m : Matcher) (goos : GOOS) (opts : ZipOptions)
    (path : List String) (c : Node) (zw : Archive) (hrel : Rel goos path ≠ ".")
    (h : matchExclude m (Rel goos path) opts.ExcludeList = .ok true) :
    walk (zipWalkFn m goos opts) path c zw =
      (zw, if c.IsDir then WalkRet.SkipDir else WalkRet.nil) := by
  cases c with
  | file n d => simp [walk, zipWalkFn_excluded m goos opts path _ zw hrel h]
  | dir n ds => simp [walk, zipWalkFn_excluded m goos opts path _ zw hrel h, Node.IsDir]

theorem zipWalkFn_dir_listing (m : Matcher) (goos : GOOS) (opts : ZipOptions)
    (path : List String) (n : String) (ds ds1 : List Node) (zw : Archive) :
    zipWalkFn m goos opts path (.dir n ds) zw = zipWalkFn m goos opts path (.dir n ds1) zw := by
  simp [zipWalkFn, Node.IsDir, Node.Content]

theorem walk_withChildren (m : Matcher) (goos : GOOS) (opts : ZipOptions) (a : String)
    (sub base : List String)
    (hsub : ∀ (ds : List Node) (zw : Archive),
      walkNames (zipWalkFn m goos opts) (base ++ [a]) (removePath sub ds) zw =
        walkNames (zipWalkFn m goos opts) (base ++ [a]) ds zw)
    (c : Node) (zw : Archive) :
    walk (zipWalkFn m goos opts) (base ++ [a])
        (if c.Name = a then c.withChildren (removePath sub) else c) zw =
      walk (zipWalkFn m goos opts) (base ++ [a]) c zw ∧
    (if c.Name = a then c.withChildren (removePath sub) else c).IsDir = c.IsDir ∧
    (if c.Name = a then c.withChildren (removePath sub) else c).Name = c.Name := by
  by_cases hc : c.Name = a
  · rw [if_pos hc]
    cases c with
    | file n d => exact ⟨rfl, rfl, rfl⟩
    | dir n ds =>
      refine ⟨?_, rfl, rfl⟩
      simp only [Node.withChildren, walk]
      rw [zipWalkFn_dir_listing m goos opts _ n (removePath sub ds) ds zw]
      cases hf : zipWalkFn m goos opts (base ++ [a]) (.dir n ds) zw with
      | mk s1 r =>
        cases r with
        | nil => exact hsub ds s1
        | SkipDir => rfl
        | err e => rfl
  · rw [if_neg hc]
    exact ⟨rfl, rfl, rfl⟩

theorem walkNames_withChildren (m : Matcher) (goos : GOOS) (opts : ZipOptions) (a : String)
    (sub base : List String)
    (hsub : ∀ (ds : List Node) (zw : Archive),
      walkNames (zipWalkFn m goos opts) (base ++ [a]) (removePath sub ds) zw =
        walkNames (zipWalkFn m goos opts) (base ++ [a]) ds zw) :
    ∀ (cs : List Node) (zw : Archive),
      walkNames (zipWalkFn m goos opts) base
          (cs.map (fun c => if c.Name = a then c.withChildren (removePath sub) else c)) zw =
        walkNames (zipWalkFn m goos opts) base cs zw
  | [], _ => rfl
  | c :: cs, zw => by
    have ih := walkNames_withChildren m goos opts a sub base hsub cs
    obtain ⟨h1, h2, h3⟩ := walk_withChildren m goos opts a sub base hsub c zw
    simp only [List.map_cons, walkNames]
    rw [h3, h2]
    by_cases hc : c.Name = a
    · rw [hc] at h1 ⊢
      rw [h1]
      cases hw : walk (zipWalkFn m goos opts) (base ++ [a]) c zw with
      | mk s1 r => cases r <;> simp [ih]
    · rw [if_neg hc]
      cases hw : walk (zipWalkFn m goos opts) (base ++ [c.Name]) c zw with
      | mk s1 r => cases r <;> simp [ih]

/-- The walk does not notice that an excluded path has been taken out of the
tree: objects at that path are skipped without a trace. -/
theorem walkNames_removePath (m : Matcher) (goos : GOOS) (opts : ZipOptions) :
    ∀ (q : List String) (base : List String) (cs : List Node) (zw : Archive), q ≠ [] →
      Rel goos (base ++ q) ≠ "." →
      matchExclude m (Rel goos (base ++ q)) opts.ExcludeList = .ok true →
      walkNames (zipWalkFn m goos opts) base (removePath q cs) zw =
        walkNames (zipWalkFn m goos opts) base cs zw
  | [], _, _, _, hq, _, _ => absurd rfl hq
  | [a], base, cs, zw, _, hrel, hex => by
    induction cs generalizing zw with
    | nil => rfl
    | cons c cs ih =>
      simp only [removePath] at ih ⊢
      by_cases hc : c.Name = a
      · subst hc
        have hw := walk_excluded m goos opts (base ++ [c.Name]) c zw hrel hex
        cases hd : c.IsDir <;> simp [walkNames, hw, hd, ih]
      · simp only [hc, decide_False, Bool.not_false, List.filter_cons_of_pos, walkNames]
        cases hw : walk (zipWalkFn m goos opts) (base ++ [c.Name]) c zw with
        | mk s1 r => cases r <;> simp [ih]
  | a :: b :: rest, base, cs, zw, _, hrel, hex => by
    simp only [removePath]
    exact walkNames_withChildren m goos opts a (b :: rest) base
      (fun ds zw1 => walkNames_removePath m goos opts (b :: rest) (base ++ [a]) ds zw1 (by simp)
        (by simpa using hrel) (by simpa using hex)) cs zw

/-! ## Further facts about the filters -/

theorem kept_no_patterns (m : Matcher) (goos : GOOS) (x : Member) :
    kept m goos (ZipOptions.mk [] []) x = true := by
  simp [kept, excluded, matchesAny]

theorem kept_iff_split (m : Matcher) (goos : GOOS) (incl exclude : List String)
    (hne : incl ≠ []) (x : Member) (hx : x.path ≠ []) :
    kept m goos (ZipOptions.mk incl exclude) x = true ↔
      (∃ p ∈ incl, m p (Rel goos x.path) = .ok true) ∧
      (∀ p ∈ exclude, m p (Rel goos x.path) ≠ .ok true) ∧
      (∀ q, q ≠ [] → q <+: x.path → q ≠ x.path → ∀ p ∈ exclude, m p (Rel goos q) ≠ .ok true) := by
  rw [kept_iff]
  constructor
  · rintro ⟨h1, h2⟩
    exact ⟨h2.resolve_left hne, h1 x.path hx (List.prefix_refl _), fun q hq hp _ => h1 q hq hp⟩
  · rintro ⟨h1, h2, h3⟩
    refine ⟨?_, Or.inr h1⟩
    intro q hq hp
    by_cases hqx : q = x.path
    · rw [hqx]; exact h2
    · exact h3 q hq hp hqx

theorem Rel_ne_dot (goos : GOOS) (q : List String) (hq : q ≠ [])
    (vq : ∀ s ∈ q, ValidName goos s) : Rel goos q ≠ "." := by
  rw [← List.dropLast_append_getLast hq]
  exact Rel_snoc_ne_dot goos _ _ (vq _ (List.getLast_mem hq)).2.1

theorem append_slash_ne_dot (s : String) : s ++ "/" ≠ "." := by
  intro h
  have h1 := congrArg String.data h
  simp only [String.data_append] at h1
  have h2 : s.data ++ ['/'] = [] ++ ['.'] := by simpa using h1
  have h3 := List.append_inj' h2 rfl
  simp at h3

theorem matchExclude_eq_at (m : Matcher) (rel : String) : ∀ (exclude : List String),
    (∀ p ∈ exclude, ∃ b, m p rel = .ok b) →
    matchExclude m rel exclude = .ok (matchesAny m exclude rel)
  | [], _ => rfl
  | p :: rest, h => by
    obtain ⟨b, hb⟩ := h p (by simp)
    have ih := matchExclude_eq_at m rel rest (fun x hx => h x (List.mem_cons_of_mem _ hx))
    cases b <;> simp [matchExclude, matchesAny, hb, ih]

theorem matchExclude_false (m : Matcher) (rel : String) : ∀ (pre : List String),
    (∀ x ∈ pre, m x rel = .ok false) → matchExclude m rel pre = .ok false
  | [], _ => rfl
  | p :: pre, h => by
    simp [matchExclude, h p (by simp),
      matchExclude_false m rel pre (fun x hx => h x (List.mem_cons_of_mem _ hx))]

theorem matchExclude_error (m : Matcher) (rel : String) (p : String) (post : List String)
    (err : String) (hp : m p rel = .error err) : ∀ (pre : List String),
    (∀ x ∈ pre, m x rel = .ok false) →
    matchExclude m rel (pre ++ p :: post) = .error ("匹配排除规则失败: " ++ err)
  | [], _ => by simp [matchExclude, hp]
  | q :: pre, h => by
    simp [matchExclude, h q (by simp),
      matchExclude_error m rel p post err hp pre (fun x hx => h x (List.mem_cons_of_mem _ hx))]

theorem matchInclude_error (m : Matcher) (rel : String) (p : String) (post : List String)
    (err : String) (hp : m p rel = .error err) : ∀ (pre : List String),
    (∀ x ∈ pre, m x rel = .ok false) →
    matchInclude m rel (pre ++ p :: post) = .error ("匹配包含规则失败: " ++ err)
  | [], _ => by simp [matchInclude, hp]
  | q :: pre, h => by
    simp [matchInclude, h q (by simp),
      matchInclude_error m rel p post err hp pre (fun x hx => h x (List.mem_cons_of_mem _ hx))]

/-- Taking an excluded path out of a directory does not change what
`zipSourceCode` returns for it. -/
theorem zipSourceCode_removePath (m : Matcher) (goos : GOOS) (tmp : String) (disk : Disk)
    (name : String) (cs : List Node) (opts : ZipOptions) (dir : List String) (hne : dir ≠ [])
    (hrel : Rel goos dir ≠ ".")
    (hex : matchExclude m (Rel goos dir) opts.ExcludeList = .ok true) :
    zipSourceCode m goos tmp disk (.dir name (removePath dir cs)) (some opts) =
      zipSourceCode m goos tmp disk (.dir name cs) (some opts) := by
  have h := walkNames_removePath m goos opts dir [] (readDirNames (sortNodes cs)) [] hne
    (by simpa using hrel) (by simpa using hex)
  simp only [zipSourceCode, Walk, sortNode, walk, zipWalkFn, Rel, if_true, Option.getD_some]
  rw [removePath_sorted, h]

/-- The archive of the objects that pass the filters has no entry named by a
path at or under an excluded one. -/
theorem no_entry_under_excluded (m : Matcher) (goos : GOOS) (opts : ZipOptions)
    (cs : List Node) (hv : validNodes goos cs = true) (dir : List String) (hne : dir ≠ [])
    (hex : excluded m goos opts.ExcludeList dir = true) (e : ZipEntry)
    (he : e ∈ ((membersOf [] cs).filter (kept m goos opts)).map (entryOf goos))
    (q : List String) (hq : dir <+: q) (vq : ∀ s ∈ q, ValidName goos s) :
    e.name ≠ Rel goos q ∧ e.name ≠ Rel goos q ++ "/" := by
  rw [List.mem_map] at he
  obtain ⟨x, hx, rfl⟩ := he
  obtain ⟨hx1, hk⟩ := List.mem_filter.mp hx
  have hxne := membersOf_path_ne_nil _ [] x hx1
  have hxv := membersOf_valid goos _ [] x hx1 hv (by simp)
  have hqne : q ≠ [] := by
    intro h0
    rw [h0] at hq
    exact hne (List.prefix_nil.mp hq)
  have hnot : x.path ≠ q := by
    intro h0
    have h3 := excluded_mono m goos opts.ExcludeList dir x.path (h0 ▸ hq) hex
    simp [kept, h3] at hk
  cases hdir : x.isDir
  · simp only [entryOf, hdir, Bool.false_eq_true, if_false]
    exact ⟨fun h0 => hnot (Rel_injective goos _ _ hxne hqne hxv vq h0),
      Rel_ne_append_slash goos x.path hxne hxv _⟩
  · simp only [entryOf, hdir, if_true]
    exact ⟨fun h0 => Rel_ne_append_slash goos q hqne vq _ h0.symm,
      fun h0 => hnot (Rel_injective goos _ _ hxne hqne hxv vq
        (string_append_right_cancel _ _ "/" h0))⟩

/-- Every entry of the archive of the objects that pass the filters is the
entry of an object below the root, named by its relative path. -/
theorem entry_shape (m : Matcher) (goos : GOOS) (opts : ZipOptions) (cs : List Node)
    (hv : validNodes goos cs = true) (e : ZipEntry)
    (he : e ∈ ((membersOf [] cs).filter (kept m goos opts)).map (entryOf goos)) :
    ∃ x ∈ membersOf [] cs,
      x.path ≠ [] ∧
      Rel goos x.path = joinPath (String.singleton (PathSeparator goos)) x.path ∧
      (goos = GOOS.unix → Rel goos x.path = joinPath "/" x.path) ∧
      (∀ t, Rel goos x.path ≠ t ++ "/") ∧
      ((x.isDir = true ∧ e = ZipEntry.mk (Rel goos x.path ++ "/") true []) ∨
        (x.isDir = false ∧ e = ZipEntry.mk (Rel goos x.path) false x.content)) ∧
      e.name ≠ "." ∧ e.name ≠ "./" := by
  rw [List.mem_map] at he
  obtain ⟨x, hx, rfl⟩ := he
  have hx1 := (List.mem_filter.mp hx).1
  have hne := membersOf_path_ne_nil cs [] x hx1
  have hval := membersOf_valid goos cs [] x hx1 hv (by simp)
  have hslash := Rel_ne_append_slash goos x.path hne hval
  have hdot := Rel_ne_dot goos x.path hne hval
  have hrel : Rel goos x.path = joinPath (String.singleton (PathSeparator goos)) x.path := by
    cases hxp : x.path with
    | nil => exact absurd hxp hne
    | cons a l => rfl
  refine ⟨x, hx1, hne, hrel, ?_, hslash, ?_, ?_, ?_⟩
  · intro hg
    rw [hrel, hg]
    rfl
  · cases hd : x.isDir
    · right
      exact ⟨rfl, by simp [entryOf, hd]⟩
    · left
      exact ⟨rfl, by simp [entryOf, hd, membersOf_dir_content cs [] x hx1 hd]⟩
  · cases hd : x.isDir
    · simpa [entryOf, hd] using hdot
    · simpa [entryOf, hd] using append_slash_ne_dot _
  · cases hd : x.isDir
    · simpa [entryOf, hd] using hslash "."
    · simp only [entryOf, hd, if_true]
      intro h2
      exact hdot (string_append_right_cancel _ "." "/" h2)

/-! ## The name validator -/

theorem checkRunes_eq_nil (u : UnicodeTables) : ∀ (runes : List Char),
    checkRunes u runes = [] ↔
      ∀ r ∈ runes, IsLower u r = true ∨ IsNumber u r = true ∨ r = '-'
  | [] => by simp [checkRunes]
  | r :: rest => by
    have ih := checkRunes_eq_nil u rest
    by_cases h : (!IsLower u r && !IsNumber u r && r != '-') = true
    · simp only [checkRunes, if_pos h]
      simp only [Bool.and_eq_true, Bool.not_eq_true', bne_iff_ne, ne_eq] at h
      constructor
      · intro h0
        simp at h0
      · intro h0
        have := h0 r (by simp)
        simp [h.1.1, h.1.2, h.2] at this
    · simp only [checkRunes, if_neg h, ih]
      simp only [Bool.and_eq_true, Bool.not_eq_true', bne_iff_ne, ne_eq, not_and, not_not] at h
      constructor
      · intro h0 x hx
        rcases List.mem_cons.mp hx with hx | hx
        · rw [hx]
          cases h1 : IsLower u r
          · cases h2 : IsNumber u r
            · exact Or.inr (Or.inr (h ⟨h1, h2⟩))
            · exact Or.inr (Or.inl rfl)
          · exact Or.inl rfl
        · exact h0 x hx
      · intro h0 x hx
        exact h0 x (List.mem_cons_of_mem _ hx)

theorem checkRunes_length (u : UnicodeTables) : ∀ (runes : List Char),
    checkRunes u runes = [] ∨ checkRunes u runes =
      [Diagnostic.mk Severity.Error "Invalid name format"
        "Name can only contain lowercase letters, numbers and hyphens(-)"]
  | [] => Or.inl rfl
  | r :: rest => by
    by_cases h : (!IsLower u r && !IsNumber u r && r != '-') = true
    · right; simp only [checkRunes, if_pos h]
    · simp only [checkRunes, if_neg h]
      exact checkRunes_length u rest

/-! ## Where the walk fails -/

theorem matchExclude_error_split (m : Matcher) (rel : String) : ∀ (l : List String) (msg : String),
    matchExclude m rel l = .error msg →
    ∃ pre p post e, l = pre ++ p :: post ∧ (∀ x ∈ pre, m x rel = .ok false) ∧
      m p rel = .error e ∧ msg = "匹配排除规则失败: " ++ e
  | [], msg, h => by simp [matchExclude] at h
  | p :: rest, msg, h => by
    simp only [matchExclude] at h
    cases hp : m p rel with
    | error e =>
      simp only [hp, Except.error.injEq] at h
      exact ⟨[], p, rest, e, rfl, by simp, hp, h.symm⟩
    | ok v =>
      cases v
      · simp only [hp] at h
        obtain ⟨pre, p1, post, e, h1, h2, h3, h4⟩ := matchExclude_error_split m rel rest msg h
        refine ⟨p :: pre, p1, post, e, by rw [h1]; rfl, ?_, h3, h4⟩
        intro x hx
        rcases List.mem_cons.mp hx with hx | hx
        · rw [hx]; exact hp
        · exact h2 x hx
      · simp [hp] at h

theorem matchInclude_error_split (m : Matcher) (rel : String) : ∀ (l : List String) (msg : String),
    matchInclude m rel l = .error msg →
    ∃ pre p post e, l = pre ++ p :: post ∧ (∀ x ∈ pre, m x rel = .ok false) ∧
      m p rel = .error e ∧ msg = "匹配包含规则失败: " ++ e
  | [], msg, h => by simp [matchInclude] at h
  | p :: rest, msg, h => by
    simp only [matchInclude] at h
    cases hp : m p rel with
    | error e =>
      simp only [hp, Except.error.injEq] at h
      exact ⟨[], p, rest, e, rfl, by simp, hp, h.symm⟩
    | ok v =>
      cases v
      · simp only [hp] at h
        obtain ⟨pre, p1, post, e, h1, h2, h3, h4⟩ := matchInclude_error_split m rel rest msg h
        refine ⟨p :: pre, p1, post, e, by rw [h1]; rfl, ?_, h3, h4⟩
        intro x hx
        rcases List.mem_cons.mp hx with hx | hx
        · rw [hx]; exact hp
        · exact h2 x hx
      · simp [hp] at h

theorem matchExclude_false_iff (m : Matcher) (rel : String) : ∀ (l : List String),
    matchExclude m rel l = .ok false → ∀ x ∈ l, m x rel = .ok false
  | [], _ => by simp
  | p :: rest, h => by
    simp only [matchExclude] at h
    cases hp : m p rel with
    | error e => simp [hp] at h
    | ok v =>
      cases v
      · simp only [hp] at h
        intro x hx
        rcases List.mem_cons.mp hx with hx | hx
        · rw [hx]; exact hp
        · exact matchExclude_false_iff m rel rest h x hx
      · simp [hp] at h

theorem zipWalkFn_rejected (m : Matcher) (goos : GOOS) (opts : ZipOptions)
    (path : List String) (info : Node) (zw : Archive) (hrel : Rel goos path ≠ ".") (msg : String)
    (h : RejectedAt m opts (Rel goos path) msg) :
    zipWalkFn m goos opts path info zw = (zw, WalkRet.err msg) := by
  simp only [zipWalkFn, if_neg hrel]
  rcases h with ⟨pre, p, post, e, h1, h2, h3, h4⟩ | ⟨h0, pre, p, post, e, h1, h2, h3, h4⟩
  · rw [h1, matchExclude_error m _ p post e h3 pre h2, h4]
  · rw [matchExclude_false m _ _ h0, h1, matchInclude_error m _ p post e h3 pre h2, h4]
    simp

theorem zipWalkFn_err_rejected (m : Matcher) (goos : GOOS) (opts : ZipOptions)
    (path : List String) (info : Node) (zw zw1 : Archive) (hrel : Rel goos path ≠ ".")
    (msg : String) (h : zipWalkFn m goos opts path info zw = (zw1, WalkRet.err msg)) :
    RejectedAt m opts (Rel goos path) msg := by
  simp only [zipWalkFn, if_neg hrel] at h
  cases h1 : matchExclude m (Rel goos path) opts.ExcludeList with
  | error e =>
    simp only [h1, Prod.mk.injEq, WalkRet.err.injEq] at h
    rw [← h.2]
    exact Or.inl (matchExclude_error_split m _ _ e h1)
  | ok b =>
    cases b
    · simp only [h1] at h
      by_cases hlen : opts.IncludeList.length > 0
      · simp only [hlen, if_true] at h
        cases h5 : matchInclude m (Rel goos path) opts.IncludeList with
        | error e =>
          simp only [h5, Prod.mk.injEq, WalkRet.err.injEq] at h
          rw [← h.2]
          exact Or.inr ⟨matchExclude_false_iff m _ _ h1, matchInclude_error_split m _ _ e h5⟩
        | ok b2 =>
          cases b2 <;> simp [h5] at h
      · simp [hlen] at h
    · simp only [h1] at h
      split at h <;> simp at h

/-- The callback either returns the error of a rejected pattern, or it filters
the object and no pattern is rejected on the way. -/
theorem zipWalkFn_trace (m : Matcher) (goos : GOOS) (opts : ZipOptions)
    (path : List String) (info : Node) (zw : Archive) (hrel : Rel goos path ≠ ".") :
    (∃ msg, zipWalkFn m goos opts path info zw = (zw, WalkRet.err msg) ∧
      RejectedAt m opts (Rel goos path) msg) ∨
    ((zipWalkFn m goos opts path info zw =
      if matchesAny m opts.ExcludeList (Rel goos path) = true then
        (zw, if info.IsDir then WalkRet.SkipDir else WalkRet.nil)
      else if (opts.IncludeList.isEmpty || matchesAny m opts.IncludeList (Rel goos path)) = true then
        (zw ++ [entryOf goos (Member.mk path info.IsDir info.Content)], WalkRet.nil)
      else (zw, WalkRet.nil)) ∧
     ∀ msg, ¬ RejectedAt m opts (Rel goos path) msg) := by
  rcases zipWalkFn_cases m goos opts path info zw hrel with ⟨e, he⟩ | he
  · exact Or.inl ⟨e, he, zipWalkFn_err_rejected m goos opts path info zw zw hrel e he⟩
  · refine Or.inr ⟨he, ?_⟩
    intro msg hr
    rw [zipWalkFn_rejected m goos opts path info zw hrel msg hr] at he
    split at he
    · split at he <;> simp at he
    · split at he <;> simp at he

theorem membersOf_dropLast_extends (cs : List Node) (path : List String) (x : Member)
    (h : x ∈ membersOf path cs) : path <+: x.path.dropLast := by
  induction cs with
  | nil => simp [membersOf] at h
  | cons c cs ih =>
    simp only [membersOf, List.mem_append] at h
    rcases h with h | h
    · obtain ⟨t, ht⟩ := membersAt_extends c _ x h
      rw [← ht, List.append_assoc, List.dropLast_append_of_ne_nil _ (by simp)]
      exact List.prefix_append _ _
    · exact ih h

mutual
theorem walk_zip_trace (m : Matcher) (goos : GOOS) (opts : ZipOptions) :
    ∀ (n : Node) (q : List String) (a : String) (zw : Archive), a ≠ "." →
      excluded m goos opts.ExcludeList q = false → validNode goos n = true →
      (∃ zw1 msg x, walk (zipWalkFn m goos opts) (q ++ [a]) n zw = (zw1, WalkRet.err msg) ∧
        x ∈ membersAt (q ++ [a]) n ∧ FailsAt m goos opts x msg) ∨
      ∃ r, walk (zipWalkFn m goos opts) (q ++ [a]) n zw =
          (zw ++ ((membersAt (q ++ [a]) n).filter (kept m goos opts)).map (entryOf goos), r) ∧
        (r = WalkRet.nil ∨ (r = WalkRet.SkipDir ∧ n.IsDir = true)) ∧
        ∀ x ∈ membersAt (q ++ [a]) n, ∀ msg, ¬ FailsAt m goos opts x msg
  | .file name c, q, a, zw, ha, hq, _ => by
    have hrel := Rel_snoc_ne_dot goos q a ha
    rcases zipWalkFn_trace m goos opts (q ++ [a]) (.file name c) zw hrel with
      ⟨msg, he, hr⟩ | ⟨he, hno⟩
    · exact Or.inl ⟨zw, msg, Member.mk (q ++ [a]) false c, by simp [walk, he],
        by simp [membersAt], by simpa [FailsAt] using And.intro hq hr⟩
    · right
      have hnone : ∀ x ∈ membersAt (q ++ [a]) (.file name c), ∀ msg,
          ¬ FailsAt m goos opts x msg := by
        intro x hx msg hf
        simp only [membersAt, List.mem_singleton] at hx
        rw [hx] at hf
        exact hno msg hf.2
      simp only [walk, he, Node.IsDir, Node.Content]
      cases h1 : matchesAny m opts.ExcludeList (Rel goos (q ++ [a]))
      · cases h2 : (opts.IncludeList.isEmpty || matchesAny m opts.IncludeList (Rel goos (q ++ [a])))
        · exact ⟨WalkRet.nil, by simp [membersAt, List.filter, kept, h2], Or.inl rfl, hnone⟩
        · exact ⟨WalkRet.nil, by simp [membersAt, List.filter, kept, h2, excluded_snoc, hq, h1],
            Or.inl rfl, hnone⟩
      · exact ⟨WalkRet.nil, by simp [membersAt, List.filter, kept, excluded_snoc, h1],
          Or.inl rfl, hnone⟩
  | .dir name cs, q, a, zw, ha, hq, hv => by
    have hrel := Rel_snoc_ne_dot goos q a ha
    rcases zipWalkFn_trace m goos opts (q ++ [a]) (.dir name cs) zw hrel with
      ⟨msg, he, hr⟩ | ⟨he, hno⟩
    · exact Or.inl ⟨zw, msg, Member.mk (q ++ [a]) true [], by simp [walk, he],
        by simp [membersAt], by simpa [FailsAt] using And.intro hq hr⟩
    · have hself : ∀ msg, ¬ FailsAt m goos opts (Member.mk (q ++ [a]) true []) msg :=
        fun msg hf => hno msg hf.2
      simp only [walk, he, Node.IsDir, Node.Content]
      cases h1 : matchesAny m opts.ExcludeList (Rel goos (q ++ [a]))
      · have hq1 : excluded m goos opts.ExcludeList (q ++ [a]) = false := by
          rw [excluded_snoc, hq, h1]; rfl
        have ih := fun zw1 => walkNames_zip_trace m goos opts cs (q ++ [a]) zw1 hq1
          (validNode_children goos name cs hv)
        cases h2 : (opts.IncludeList.isEmpty || matchesAny m opts.IncludeList (Rel goos (q ++ [a])))
        · rcases ih zw with ⟨zw1, msg, x, h3, hx, hf⟩ | ⟨h3, hnone⟩
          · exact Or.inl ⟨zw1, msg, x, by simp [h3], by simp [membersAt, hx], hf⟩
          · refine Or.inr ⟨WalkRet.nil, by simp [h3, membersAt, List.filter, kept, h2],
              Or.inl rfl, ?_⟩
            intro x hx msg
            simp only [membersAt, List.mem_cons] at hx
            rcases hx with hx | hx
            · rw [hx]; exact hself msg
            · exact hnone x hx msg
        · rcases ih (zw ++ [entryOf goos (Member.mk (q ++ [a]) true [])]) with
            ⟨zw1, msg, x, h3, hx, hf⟩ | ⟨h3, hnone⟩
          · exact Or.inl ⟨zw1, msg, x, by simp [h3], by simp [membersAt, hx], hf⟩
          · refine Or.inr ⟨WalkRet.nil, by simp [h3, membersAt, List.filter, kept, h2, hq1],
              Or.inl rfl, ?_⟩
            intro x hx msg
            simp only [membersAt, List.mem_cons] at hx
            rcases hx with hx | hx
            · rw [hx]; exact hself msg
            · exact hnone x hx msg
      · have hq1 : excluded m goos opts.ExcludeList (q ++ [a]) = true := by
          rw [excluded_snoc, h1]; simp
        refine Or.inr ⟨WalkRet.SkipDir, ?_, Or.inr ⟨rfl, trivial⟩, ?_⟩
        · have hnil := filter_kept_excluded m goos opts (q ++ [a])
            (Member.mk (q ++ [a]) true [] :: membersOf (q ++ [a]) cs)
            (by
              intro x hx
              rcases List.mem_cons.mp hx with h | h
              · rw [h]
              · exact membersOf_extends cs _ x h) hq1
          simp [membersAt, hnil]
        · intro x hx msg hf
          simp only [membersAt, List.mem_cons] at hx
          rcases hx with hx | hx
          · rw [hx] at hf; exact hself msg hf
          · have h3 := excluded_mono m goos opts.ExcludeList _ _
              (membersOf_dropLast_extends cs _ x hx) hq1
            rw [hf.1] at h3
            simp at h3
theorem walkNames_zip_trace (m : Matcher) (goos : GOOS) (opts : ZipOptions) :
    ∀ (cs : List Node) (q : List String) (zw : Archive),
      excluded m goos opts.ExcludeList q = false → validNodes goos cs = true →
      (∃ zw1 msg x, walkNames (zipWalkFn m goos opts) q cs zw = (zw1, WalkRet.err msg) ∧
        x ∈ membersOf q cs ∧ FailsAt m goos opts x msg) ∨
      (walkNames (zipWalkFn m goos opts) q cs zw =
        (zw ++ ((membersOf q cs).filter (kept m goos opts)).map (entryOf goos), WalkRet.nil) ∧
       ∀ x ∈ membersOf q cs, ∀ msg, ¬ FailsAt m goos opts x msg)
  | [], q, zw, _, _ => by simp [walkNames, membersOf]
  | c :: cs, q, zw, hq, hv => by
    simp only [validNodes, Bool.and_eq_true] at hv
    have ih := fun zw1 => walkNames_zip_trace m goos opts cs q zw1 hq hv.2
    rcases walk_zip_trace m goos opts c q c.Name zw (validNode_name goos c hv.1).2.1 hq hv.1
      with ⟨zw1, msg, x, h1, hx, hf⟩ | ⟨r, h1, h2, hnone1⟩
    · exact Or.inl ⟨zw1, msg, x, by simp [walkNames, h1], by simp [membersOf, hx], hf⟩
    · have hjoin : ∀ (hnone2 : ∀ x ∈ membersOf q cs, ∀ msg, ¬ FailsAt m goos opts x msg),
          ∀ x ∈ membersOf q (c :: cs), ∀ msg, ¬ FailsAt m goos opts x msg := by
        intro hnone2 x hx msg
        simp only [membersOf, List.mem_append] at hx
        rcases hx with hx | hx
        · exact hnone1 x hx msg
        · exact hnone2 x hx msg
      rcases h2 with h2 | ⟨h2, h3⟩
      · subst h2
        rcases ih (zw ++ ((membersAt (q ++ [c.Name]) c).filter (kept m goos opts)).map
          (entryOf goos)) with ⟨zw1, msg, x, h4, hx, hf⟩ | ⟨h4, hnone2⟩
        · exact Or.inl ⟨zw1, msg, x, by simp [walkNames, h1, h4], by simp [membersOf, hx], hf⟩
        · exact Or.inr ⟨by simp [walkNames, h1, h4, membersOf], hjoin hnone2⟩
      · subst h2
        rcases ih (zw ++ ((membersAt (q ++ [c.Name]) c).filter (kept m goos opts)).map
          (entryOf goos)) with ⟨zw1, msg, x, h4, hx, hf⟩ | ⟨h4, hnone2⟩
        · exact Or.inl ⟨zw1, msg, x, by simp [walkNames, h1, h3, h4], by simp [membersOf, hx], hf⟩
        · exact Or.inr ⟨by simp [walkNames, h1, h3, h4, membersOf], hjoin hnone2⟩
end

/-- The call of `zipSourceCode` on a directory either fails on an object that
the walk reaches and whose filtering runs into a rejected pattern, or succeeds
and no such object exists. -/
theorem zipSourceCode_trace (m : Matcher) (goos : GOOS) (tmp : String) (disk : Disk)
    (name : String) (cs : List Node) (opts : ZipOptions) (hv : validNodes goos cs = true) :
    (∃ zw1 msg x, zipSourceCode m goos tmp disk (.dir name cs) (some opts) =
        (.error ("压缩文件失败: " ++ msg), (tmp, zw1) :: disk) ∧
      x ∈ membersOf [] cs ∧ FailsAt m goos opts x msg) ∨
    ((∃ archive, zipSourceCode m goos tmp disk (.dir name cs) (some opts) =
        (.ok tmp, (tmp, archive) :: disk)) ∧
      ∀ x ∈ membersOf [] cs, ∀ msg, ¬ FailsAt m goos opts x msg) := by
  have hperm : ∀ x, x ∈ membersOf [] (readDirNames (sortNodes cs)) ↔ x ∈ membersOf [] cs :=
    fun x => ((membersOf_perm [] (List.perm_insertionSort _ _)).trans
      (membersOf_sort cs [])).mem_iff
  rcases walkNames_zip_trace m goos opts (readDirNames (sortNodes cs)) [] []
    (excluded_nil m goos _) (validNodes_readDirNames goos _ (validNodes_sort goos cs hv))
    with ⟨zw1, msg, x, h1, hx, hf⟩ | ⟨h1, hnone⟩
  · exact Or.inl ⟨zw1, msg, x,
      by simp [zipSourceCode, Walk, sortNode, walk, zipWalkFn, Rel, h1], (hperm x).mp hx, hf⟩
  · exact Or.inr ⟨⟨((membersOf [] (readDirNames (sortNodes cs))).filter
        (kept m goos opts)).map (entryOf goos),
      by simp [zipSourceCode, Walk, sortNode, walk, zipWalkFn, Rel, h1]⟩,
      fun x hx msg => hnone x ((hperm x).mpr hx) msg⟩

/-! ## The lists resolved from the configuration -/

theorem resolveExclude_none (d : ResourceData) (h : d.source_code_exclude = none) :
    resolveExclude d = defaultSourceCodeExclude := by
  simp [resolveExclude, GetOk, h]

theorem resolveExclude_nil (d : ResourceData) (h : d.source_code_exclude = some []) :
    resolveExclude d = defaultSourceCodeExclude := by
  simp [resolveExclude, GetOk, h]

theorem resolveExclude_cons (d : ResourceData) (p : String) (ps : List String)
    (h : d.source_code_exclude = some (p :: ps)) : resolveExclude d = p :: ps := by
  simp [resolveExclude, GetOk, h]

theorem resolveExclude_ne_nil (d : ResourceData) : resolveExclude d ≠ [] := by
  cases h : d.source_code_exclude with
  | none => rw [resolveExclude_none d h]; decide
  | some l =>
    cases l with
    | nil => rw [resolveExclude_nil d h]; decide
    | cons p ps => rw [resolveExclude_cons d p ps h]; exact List.cons_ne_nil _ _

/-! ## The hash of the customize-diff function -/

theorem zipSourceCode_result (m : Matcher) (goos : GOOS) (tmp : String) (disk : Disk)
    (sourceDir : Node) (opts : Option ZipOptions) :
    ∃ zipWriter : Archive,
      zipSourceCode m goos tmp disk sourceDir opts = (.ok tmp, (tmp, zipWriter) :: disk) ∨
      ∃ e, zipSourceCode m goos tmp disk sourceDir opts =
        (.error ("压缩文件失败: " ++ e), (tmp, zipWriter) :: disk) := by
  rcases hw : Walk sourceDir (zipWalkFn m goos (opts.getD (ZipOptions.mk [] []))) [] with ⟨zw, r⟩
  cases r with
  | nil => exact ⟨zw, Or.inl (by simp only [zipSourceCode, hw])⟩
  | SkipDir => exact ⟨zw, Or.inl (by simp only [zipSourceCode, hw])⟩
  | err e => exact ⟨zw, Or.inr ⟨e, by simp only [zipSourceCode, hw]⟩⟩

theorem Disk.read_cons_self (disk : Disk) (path : String) (a : Archive) :
    Disk.read ((path, a) :: disk) path = some a := by
  simp [Disk.read, List.find?]

theorem hexDigit_mem : ∀ n, n < 16 → hexDigit n ∈ "0123456789abcdef".data := by
  decide

theorem sprintfHex_length (bytes : List Nat) : (sprintfHex bytes).length = 2 * bytes.length := by
  unfold sprintfHex
  show (bytes.flatMap _).length = _
  induction bytes with
  | nil => rfl
  | cons b bs ih =>
    simp only [List.flatMap_cons, List.length_append, List.length_cons, List.length_nil, ih]
    omega

theorem sprintfHex_digits (bytes : List Nat) :
    ∀ ch ∈ (sprintfHex bytes).data, ch ∈ "0123456789abcdef".data := by
  intro ch hch
  unfold sprintfHex at hch
  simp only [List.mem_flatMap, List.mem_cons, List.mem_singleton, List.not_mem_nil,
    or_false] at hch
  obtain ⟨b, _, hb⟩ := hch
  rcases hb with hb | hb
  · rw [hb]
    exact hexDigit_mem _ (Nat.mod_lt _ (by decide))
  · rw [hb]
    exact hexDigit_mem _ (Nat.mod_lt _ (by decide))

/-! ## The policies sent and the policies stored -/

theorem setServerConfig_policies (marshal : List (String × String) → Except String String)
    (proc : Process) (d : RunResourceData) (config : ServerBaseConfig) :
    (setServerConfig marshal proc d config).1.PolicyDetails =
      match d.policy_details with
      | [] => []
      | pd :: _ => [HpaPolicy.mk (some pd.policy_type) (some (uint64 pd.policy_threshold))] := by
  unfold setServerConfig
  simp only []
  split <;> (cases d.policy_details <;> rfl)

theorem storedPolicies_map (policies : List HpaPolicy) :
    storedPolicies (policies.map some) =
      some (policies.map (fun p => StoredPolicy.mk p.PolicyType p.PolicyThreshold)) := by
  induction policies with
  | nil => rfl
  | cons p ps ih => simp only [List.map_cons, storedPolicies, ih]

/-! ## The order of the entries -/

theorem lessEq_antisymm : ∀ (a b : List Char), lessEq a b = true → lessEq b a = true → a = b
  | [], [], _, _ => rfl
  | [], _ :: _, _, h => by simp [lessEq] at h
  | _ :: _, [], h, _ => by simp [lessEq] at h
  | a :: as, b :: bs, h1, h2 => by
    simp only [lessEq] at h1 h2
    by_cases hab : a.toNat < b.toNat
    · have hba : ¬ b.toNat < a.toNat := by omega
      simp [hab, hba] at h2
    · by_cases hba : b.toNat < a.toNat
      · simp [hab, hba] at h1
      · simp only [hab, hba, if_false] at h1 h2
        have hn : a.toNat = b.toNat := by omega
        have hc : a = b := by rw [← Char.ofNat_toNat a, ← Char.ofNat_toNat b, hn]
        rw [hc, lessEq_antisymm as bs h1 h2]

theorem pathBefore_irrefl : ∀ (p : List String), pathBefore p p = false
  | [] => rfl
  | a :: p => by simp [pathBefore, pathBefore_irrefl p]

theorem pathBefore_asymm : ∀ (p q : List String), pathBefore p q = true → pathBefore q p = false
  | [], [], h => by simp [pathBefore] at h
  | [], _ :: _, _ => rfl
  | _ :: _, [], h => by simp [pathBefore] at h
  | a :: p, b :: q, h => by
    simp only [pathBefore] at h ⊢
    by_cases hab : a = b
    · rw [if_pos hab] at h
      rw [if_pos hab.symm]
      exact pathBefore_asymm p q h
    · rw [if_neg hab] at h
      rw [if_neg (fun hba => hab hba.symm)]
      cases hl : lessEq b.data a.data with
      | false => rfl
      | true => exact absurd (String.ext (lessEq_antisymm _ _ h hl)) hab

theorem pathBefore_below : ∀ (dir : List String) (a : String) (rest : List String),
    pathBefore dir (dir ++ a :: rest) = true
  | [], _, _ => rfl
  | d :: dir, a, rest => by simp [pathBefore, pathBefore_below dir a rest]

theorem pathBefore_siblings : ∀ (q : List String) (a b : String) (r1 r2 : List String),
    a ≠ b → lessEq a.data b.data = true → pathBefore (q ++ a :: r1) (q ++ b :: r2) = true
  | [], a, b, r1, r2, hab, hl => by simp [pathBefore, hab, hl]
  | c :: q, a, b, r1, r2, hab, hl => by
    simp [pathBefore, pathBefore_siblings q a b r1 r2 hab hl]

theorem membersOf_child : ∀ (cs : List Node) (path : List String) (x : Member),
    x ∈ membersOf path cs → ∃ c ∈ cs, (path ++ [c.Name]) <+: x.path
  | [], _, x, h => by simp [membersOf] at h
  | c :: cs, path, x, h => by
    simp only [membersOf, List.mem_append] at h
    rcases h with h | h
    · exact ⟨c, List.mem_cons_self _ _, membersAt_extends c _ x h⟩
    · obtain ⟨c1, hc1, hp⟩ := membersOf_child cs path x h
      exact ⟨c1, List.mem_cons_of_mem _ hc1, hp⟩

theorem membersOf_pairwise : ∀ (l : List Node) (q : List String),
    (∀ c ∈ l, (membersAt (q ++ [c.Name]) c).Pairwise
      (fun x y => pathBefore x.path y.path = true)) →
    l.Pairwise (fun c c1 => c.Name ≠ c1.Name ∧ lessEq c.Name.data c1.Name.data = true) →
    (membersOf q l).Pairwise (fun x y => pathBefore x.path y.path = true)
  | [], _, _, _ => by simp [membersOf]
  | c :: cs, q, hm, hp => by
    rw [List.pairwise_cons] at hp
    simp only [membersOf]
    rw [List.pairwise_append]
    refine ⟨hm c (List.mem_cons_self _ _),
      membersOf_pairwise cs q (fun c1 hc1 => hm c1 (List.mem_cons_of_mem _ hc1)) hp.2, ?_⟩
    intro x hx y hy
    obtain ⟨r1, h1⟩ := membersAt_extends c _ x hx
    obtain ⟨c1, hc1, r2, h2⟩ := membersOf_child cs q y hy
    rw [← h1, ← h2, List.append_assoc, List.append_assoc]
    exact pathBefore_siblings q c.Name c1.Name r1 r2 (hp.1 c1 hc1).1 (hp.1 c1 hc1).2

theorem uniqueNodes_names : ∀ (cs : List Node), uniqueNodes cs = true →
    cs.Pairwise (fun c c1 => c.Name ≠ c1.Name)
  | [], _ => List.Pairwise.nil
  | c :: cs, h => by
    simp only [uniqueNodes, Bool.and_eq_true, List.all_eq_true, bne_iff_ne, ne_eq] at h
    rw [List.pairwise_cons]
    exact ⟨fun c1 hc1 heq => h.1.1 c1 hc1 heq.symm, uniqueNodes_names cs h.2⟩

theorem readDirNames_strict (cs : List Node) (hu : uniqueNodes cs = true) :
    (readDirNames (sortNodes cs)).Pairwise
      (fun c c1 => c.Name ≠ c1.Name ∧ lessEq c.Name.data c1.Name.data = true) := by
  have h1 : (cs.map Node.Name).Nodup := List.pairwise_map.mpr (uniqueNodes_names cs hu)
  have h2 : ((sortNodes cs).map Node.Name) = cs.map Node.Name := by
    rw [sortNodes_eq_map, List.map_map]
    exact List.map_congr_left (fun c _ => sortNode_Name c)
  have h3 : ((readDirNames (sortNodes cs)).map Node.Name).Nodup := by
    unfold readDirNames
    rw [((List.perm_insertionSort Node.le (sortNodes cs)).map Node.Name).nodup_iff, h2]
    exact h1
  exact (List.pairwise_map.mp h3).and (readDirNames_sorted (sortNodes cs))

mutual
theorem membersAt_pairwise : ∀ (n : Node) (p : List String), uniqueNode n = true →
    (membersAt p (sortNode n)).Pairwise (fun x y => pathBefore x.path y.path = true)
  | .file _ _, _, _ => by simp [sortNode, membersAt]
  | .dir _ cs, p, hu => by
    simp only [uniqueNode] at hu
    simp only [sortNode, membersAt, List.pairwise_cons]
    constructor
    · intro y hy
      obtain ⟨c, _, r, hr⟩ := membersOf_child _ p y hy
      rw [← hr, List.append_assoc]
      exact pathBefore_below p c.Name r
    · refine membersOf_pairwise _ p (fun c hc => ?_) (readDirNames_strict cs hu)
      have hc1 : c ∈ sortNodes cs := (List.perm_insertionSort Node.le _).mem_iff.mp hc
      rw [sortNodes_eq_map, List.mem_map] at hc1
      obtain ⟨c0, hc0, hs⟩ := hc1
      rw [← hs]
      exact membersEach_pairwise cs hu c0 hc0 _
theorem membersEach_pairwise : ∀ (cs : List Node), uniqueNodes cs = true →
    ∀ c ∈ cs, ∀ (p : List String),
      (membersAt p (sortNode c)).Pairwise (fun x y => pathBefore x.path y.path = true)
  | [], _, c, hc, _ => by simp at hc
  | c0 :: cs, hu, c, hc, p => by
    simp only [uniqueNodes, Bool.and_eq_true] at hu
    rcases List.mem_cons.mp hc with h | h
    · rw [h]
      exact membersAt_pairwise c0 p hu.1.2
    · exact membersEach_pairwise cs hu.2 c h p
end

theorem walked_pairwise (cs : List Node) (hu : uniqueNodes cs = true) :
    (membersOf [] (readDirNames (sortNodes cs))).Pairwise
      (fun x y => pathBefore x.path y.path = true) := by
  have h := membersAt_pairwise (.dir "" cs) [] (by simpa [uniqueNode] using hu)
  simp only [sortNode, membersAt, List.pairwise_cons] at h
  exact h.2

/-- Two lists in depth-first order that hold the same objects are the same
list. -/
theorem pairwise_unique (l1 l2 : List Member)
    (h1 : l1.Pairwise (fun x y => pathBefore x.path y.path = true))
    (h2 : l2.Pairwise (fun x y => pathBefore x.path y.path = true))
    (hm : ∀ x, x ∈ l1 ↔ x ∈ l2) : l1 = l2 := by
  have hne : ∀ (x y : Member), pathBefore x.path y.path = true → x ≠ y := by
    intro x y h hxy
    rw [hxy, pathBefore_irrefl] at h
    exact Bool.noConfusion h
  have n1 : l1.Nodup := h1.imp (fun {x y} h => hne x y h)
  have n2 : l2.Nodup := h2.imp (fun {x y} h => hne x y h)
  haveI : IsAntisymm Member (fun x y => pathBefore x.path y.path = true) :=
    ⟨fun x y hxy hyx => by
      rw [pathBefore_asymm _ _ hxy] at hyx
      exact Bool.noConfusion hyx⟩
  exact List.eq_of_perm_of_sorted ((List.perm_ext_iff_of_nodup n1 n2).mpr hm) h1 h2

/-- In a list in depth-first order, the positions of two objects are in the
order of their paths. -/
theorem pairwise_index (l : List Member)
    (h : l.Pairwise (fun x y => pathBefore x.path y.path = true))
    (i j : Nat) (hi : i < l.length) (hj : j < l.length) :
    i < j ↔ pathBefore (l.get ⟨i, hi⟩).path (l.get ⟨j, hj⟩).path = true := by
  have hget := List.pairwise_iff_getElem.mp h
  constructor
  · intro hij
    exact hget i j hi hj hij
  · intro hb
    by_contra hij
    rcases Nat.lt_or_eq_of_le (Nat.le_of_not_lt hij) with hlt | heq
    · have := hget j i hj hi hlt
      rw [List.get_eq_getElem, List.get_eq_getElem, pathBefore_asymm _ _ this] at hb
      exact Bool.noConfusion hb
    · subst heq
      rw [pathBefore_irrefl] at hb
      exact Bool.noConfusion hb

theorem pathBefore_split : ∀ (q : List String) (a b : String) (r1 r2 : List String),
    a ≠ b → pathBefore (q ++ a :: r1) (q ++ b :: r2) = lessEq a.data b.data
  | [], a, b, r1, r2, hab => by simp [pathBefore, hab]
  | c :: q, a, b, r1, r2, hab => by
    simp [pathBefore, pathBefore_split q a b r1 r2 hab]

theorem walked_mem (cs : List Node) (x : Member) :
    x ∈ membersOf [] (readDirNames (sortNodes cs)) ↔ x ∈ membersOf [] cs :=
  ((membersOf_perm [] (List.perm_insertionSort _ _)).trans (membersOf_sort cs [])).mem_iff

/-! ## A run on a host and the run on the tree it finds -/

theorem zipWalkFnOn_ok (host : Host) (m : Matcher) (goos : GOOS) (opts : ZipOptions)
    (path : List String) (info : Node) (err : Option String) (zw zw1 : Archive) (r : WalkRet)
    (h : zipWalkFnOn host m goos opts path info err zw = (zw1, r)) (hr : ∀ e, r ≠ .err e) :
    err = none ∧ zipWalkFn m goos opts path info zw = (zw1, r) := by
  cases err with
  | some e =>
    simp only [zipWalkFnOn, Prod.mk.injEq] at h
    exact absurd h.2.symm (hr e)
  | none =>
    refine ⟨rfl, ?_⟩
    simp only [zipWalkFnOn] at h
    simp only [zipWalkFn]
    by_cases h0 : Rel goos path = "."
    · simpa only [h0, if_true] using h
    · simp only [h0, if_false] at h ⊢
      cases hx : matchExclude m (Rel goos path) opts.ExcludeList with
      | error e =>
        simp only [hx, Prod.mk.injEq] at h
        exact absurd h.2.symm (hr _)
      | ok b =>
        cases b with
        | true => simpa only [hx] using h
        | false =>
          simp only [hx] at h ⊢
          cases hi : (if opts.IncludeList.length > 0 then
              matchInclude m (Rel goos path) opts.IncludeList else .ok true) with
          | error e =>
            simp only [hi, Prod.mk.injEq] at h
            exact absurd h.2.symm (hr _)
          | ok b =>
            cases b with
            | false => simpa only [hi] using h
            | true =>
              simp only [hi] at h ⊢
              cases h1 : host.FileInfoHeader path with
              | some e =>
                simp only [h1, Prod.mk.injEq] at h
                exact absurd h.2.symm (hr _)
              | none =>
                simp only [h1] at h
                cases h2 : host.CreateHeader path with
                | some e =>
                  simp only [h2, Prod.mk.injEq] at h
                  exact absurd h.2.symm (hr _)
                | none =>
                  simp only [h2] at h
                  cases hd : info.IsDir with
                  | true => simpa only [hd, if_true] using h
                  | false =>
                    simp only [hd, Bool.false_eq_true, if_false] at h ⊢
                    cases h3 : host.Open path with
                    | some e =>
                      simp only [h3, Prod.mk.injEq] at h
                      exact absurd h.2.symm (hr _)
                    | none =>
                      simp only [h3] at h
                      cases h4 : host.Copy path with
                      | some e =>
                        simp only [h4, Prod.mk.injEq] at h
                        exact absurd h.2.symm (hr _)
                      | none =>
                        simpa only [h4] using h

theorem zipWalkFnOn_noFaults (host : Host) (hn : NoFaults host) (m : Matcher) (goos : GOOS)
    (opts : ZipOptions) (path : List String) (info : Node) (zw : Archive) :
    zipWalkFnOn host m goos opts path info none zw = zipWalkFn m goos opts path info zw := by
  obtain ⟨_, _, h1, h2, h3, h4⟩ := hn path
  simp only [zipWalkFnOn, zipWalkFn, h1, h2, h3, h4]
  cases info.IsDir <;> simp

mutual
theorem walkOn_ok (host : Host) (m : Matcher) (goos : GOOS) (opts : ZipOptions) :
    ∀ (n : Node) (path : List String) (zw zw1 : Archive) (r : WalkRet),
      walkOn host (zipWalkFnOn host m goos opts) path n zw = (zw1, r) → (∀ e, r ≠ .err e) →
      walk (zipWalkFn m goos opts) path n zw = (zw1, r)
  | .file n c, path, zw, zw1, r, h, hr => by
    simp only [walkOn] at h
    simp only [walk]
    exact (zipWalkFnOn_ok host m goos opts path _ _ zw zw1 r h hr).2
  | .dir n cs, path, zw, zw1, r, h, hr => by
    simp only [walkOn] at h
    simp only [walk]
    rcases hf : zipWalkFnOn host m goos opts path (.dir n cs) (host.ReadDir path) zw with ⟨s1, r1⟩
    rw [hf] at h
    cases r1 with
    | err e =>
      simp only [Prod.mk.injEq] at h
      exact absurd h.2.symm (hr e)
    | SkipDir =>
      obtain ⟨_, h1⟩ := zipWalkFnOn_ok host m goos opts path _ _ zw s1 _ hf (by simp)
      simp only [h1]
      exact h
    | nil =>
      obtain ⟨h0, h1⟩ := zipWalkFnOn_ok host m goos opts path _ _ zw s1 _ hf (by simp)
      simp only [h0, Option.isSome_none, Bool.false_eq_true, if_false] at h
      simp only [h1]
      exact walkNamesOn_ok host m goos opts cs path s1 zw1 r h hr
theorem walkNamesOn_ok (host : Host) (m : Matcher) (goos : GOOS) (opts : ZipOptions) :
    ∀ (cs : List Node) (path : List String) (zw zw1 : Archive) (r : WalkRet),
      walkNamesOn host (zipWalkFnOn host m goos opts) path cs zw = (zw1, r) →
      (∀ e, r ≠ .err e) →
      walkNames (zipWalkFn m goos opts) path cs zw = (zw1, r)
  | [], path, zw, zw1, r, h, _ => by
    simp only [walkNamesOn] at h
    simp only [walkNames]
    exact h
  | c :: cs, path, zw, zw1, r, h, hr => by
    simp only [walkNamesOn] at h
    simp only [walkNames]
    cases hl : host.Lstat (path ++ [c.Name]) with
    | some err =>
      simp only [hl, zipWalkFnOn, Prod.mk.injEq] at h
      exact absurd h.2.symm (hr _)
    | none =>
      simp only [hl] at h
      rcases hw : walkOn host (zipWalkFnOn host m goos opts) (path ++ [c.Name]) c zw with ⟨s1, r1⟩
      rw [hw] at h
      cases r1 with
      | err e =>
        simp only [Prod.mk.injEq] at h
        exact absurd h.2.symm (hr e)
      | nil =>
        have h1 := walkOn_ok host m goos opts c (path ++ [c.Name]) zw s1 _ hw (by simp)
        simp only [h1]
        exact walkNamesOn_ok host m goos opts cs path s1 zw1 r h hr
      | SkipDir =>
        have h1 := walkOn_ok host m goos opts c (path ++ [c.Name]) zw s1 _ hw (by simp)
        simp only [h1]
        cases hd : c.IsDir with
        | true =>
          simp only [hd, if_true] at h ⊢
          exact walkNamesOn_ok host m goos opts cs path s1 zw1 r h hr
        | false =>
          simp only [hd, Bool.false_eq_true, if_false] at h ⊢
          exact h
end

mutual
theorem walkOn_noFaults (host : Host) (hn : NoFaults host) (m : Matcher) (goos : GOOS)
    (opts : ZipOptions) :
    ∀ (n : Node) (path : List String) (zw : Archive),
      walkOn host (zipWalkFnOn host m goos opts) path n zw =
        walk (zipWalkFn m goos opts) path n zw
  | .file n c, path, zw => by
    simp only [walkOn, walk, zipWalkFnOn_noFaults host hn]
  | .dir n cs, path, zw => by
    simp only [walkOn, walk, (hn path).2.1, zipWalkFnOn_noFaults host hn, Option.isSome_none,
      Bool.false_eq_true, if_false]
    rcases zipWalkFn m goos opts path (.dir n cs) zw with ⟨s1, r1⟩
    cases r1 with
    | nil => exact walkNamesOn_noFaults host hn m goos opts cs path s1
    | SkipDir => rfl
    | err e => rfl
theorem walkNamesOn_noFaults (host : Host) (hn : NoFaults host) (m : Matcher) (goos : GOOS)
    (opts : ZipOptions) :
    ∀ (cs : List Node) (path : List String) (zw : Archive),
      walkNamesOn host (zipWalkFnOn host m goos opts) path cs zw =
        walkNames (zipWalkFn m goos opts) path cs zw
  | [], path, zw => by simp only [walkNamesOn, walkNames]
  | c :: cs, path, zw => by
    simp only [walkNamesOn, walkNames, (hn (path ++ [c.Name])).1,
      walkOn_noFaults host hn m goos opts c]
    rcases walk (zipWalkFn m goos opts) (path ++ [c.Name]) c zw with ⟨s1, r1⟩
    cases r1 with
    | nil => exact walkNamesOn_noFaults host hn m goos opts cs path s1
    | SkipDir =>
      cases hd : c.IsDir with
      | true =>
        simp only [if_true]
        exact walkNamesOn_noFaults host hn m goos opts cs path s1
      | false => simp
    | err e => rfl
end

/-- A run on a host that returns a path is the run of `zipSourceCode` on the
tree the walk found. -/
theorem zipSourceCodeOn_ok (host : Host) (m : Matcher) (goos : GOOS) (disk : Disk)
    (sourceDir : Node) (opts : Option ZipOptions) (p : String) (disk1 : Disk)
    (h : zipSourceCodeOn host m goos disk sourceDir opts = (.ok p, disk1)) :
    ∃ tmpFile, host.CreateTemp = .ok tmpFile ∧
      zipSourceCode m goos tmpFile.Name disk (host.walked tmpFile sourceDir) opts =
        (.ok p, disk1) := by
  unfold zipSourceCodeOn at h
  cases hc : host.CreateTemp with
  | error e =>
    simp only [hc, Prod.mk.injEq] at h
    exact Except.noConfusion h.1
  | ok tmpFile =>
    refine ⟨tmpFile, rfl, ?_⟩
    simp only [hc] at h
    unfold zipSourceCode
    have key : ∀ (zw : Archive) (r : WalkRet),
        WalkOn host (host.walked tmpFile sourceDir)
          (zipWalkFnOn host m goos (opts.getD (ZipOptions.mk [] []))) [] = (zw, r) →
        (∀ e, r ≠ .err e) →
        Walk (host.walked tmpFile sourceDir)
          (zipWalkFn m goos (opts.getD (ZipOptions.mk [] []))) [] = (zw, r) := by
      intro zw r hw hr
      unfold WalkOn at hw
      unfold Walk
      cases hl : host.Lstat [] with
      | some err =>
        simp only [hl, zipWalkFnOn] at hw
        simp only [Prod.mk.injEq] at hw
        exact absurd hw.2.symm (hr _)
      | none =>
        simp only [hl] at hw
        rcases hw1 : walkOn host (zipWalkFnOn host m goos (opts.getD (ZipOptions.mk [] []))) []
          (sortNode (host.walked tmpFile sourceDir)) [] with ⟨s1, r1⟩
        rw [hw1] at hw
        cases r1 with
        | err e =>
          simp only [Prod.mk.injEq] at hw
          exact absurd hw.2.symm (hr e)
        | nil =>
          rw [walkOn_ok host m goos _ _ [] [] s1 _ hw1 (by simp)]
          exact hw
        | SkipDir =>
          rw [walkOn_ok host m goos _ _ [] [] s1 _ hw1 (by simp)]
          exact hw
    rcases hw : WalkOn host (host.walked tmpFile sourceDir)
      (zipWalkFnOn host m goos (opts.getD (ZipOptions.mk [] []))) [] with ⟨zw, r⟩
    rw [hw] at h
    cases r with
    | err e =>
      simp only [Prod.mk.injEq] at h
      exact Except.noConfusion h.1
    | nil =>
      simp only [key zw _ hw (by simp)]
      exact h
    | SkipDir =>
      simp only [key zw _ hw (by simp)]
      exact h

/-- On a host where no call fails, `zipSourceCodeOn` is `zipSourceCode` on the
tree the walk finds. -/
theorem zipSourceCodeOn_noFaults (host : Host) (hn : NoFaults host) (tmpFile : TempFile)
    (hc : host.CreateTemp = .ok tmpFile) (m : Matcher) (goos : GOOS) (disk : Disk)
    (sourceDir : Node) (opts : Option ZipOptions) :
    zipSourceCodeOn host m goos disk sourceDir opts =
      zipSourceCode m goos tmpFile.Name disk (host.walked tmpFile sourceDir) opts := by
  simp only [zipSourceCodeOn, zipSourceCode, hc, WalkOn, Walk, (hn []).1,
    walkOn_noFaults host hn]

theorem Host.walked_dir (host : Host) (tmpFile : TempFile) (name : String)
    (children : List Node) :
    host.walked tmpFile (.dir name children) = .dir name (host.listing tmpFile children) := rfl

theorem Host.listing_outside (host : Host) (tmpFile : TempFile) (children : List Node)
    (h : host.TempDir = none) : host.listing tmpFile children = children := by
  simp only [Host.listing, h]

theorem matchExclude_first_match (m : Matcher) (rel : String) (p : String)
    (post : List String) : ∀ (pre : List String),
    (∀ x ∈ pre, m x rel = .ok false) → m p rel = .ok true →
    matchExclude m rel (pre ++ p :: post) = .ok true
  | [], _, hp => by simp only [List.nil_append, matchExclude, hp]
  | a :: pre, hpre, hp => by
    simp only [List.cons_append, matchExclude, hpre a (List.mem_cons_self _ _)]
    exact matchExclude_first_match m rel p post pre
      (fun x hx => hpre x (List.mem_cons_of_mem _ hx)) hp

theorem noFaults_sampleHost : NoFaults sampleHost :=
  fun _ => ⟨rfl, rfl, rfl, rfl, rfl, rfl⟩

/-! ## What the resource functions hand to `zipSourceCode` -/

theorem assertStrings_map : ∀ (l : List String), assertStrings (l.map some) = some l
  | [] => rfl
  | a :: l => by simp only [List.map_cons, assertStrings, assertStrings_map l]

theorem excludeList_resolved (v : Option (List (Option String))) (excl : List String)
    (hE : (v = none ∧ excl = defaultSourceCodeExclude) ∨
      (v = some [] ∧ excl = defaultSourceCodeExclude) ∨
      (∃ l, l ≠ [] ∧ v = some l ∧ assertStrings l = some excl)) :
    (match GetOkList v with
      | (w, true) => assertStrings w
      | (_, false) => some defaultSourceCodeExclude) = some excl := by
  rcases hE with ⟨hd, he⟩ | ⟨hd, he⟩ | ⟨l, hl, hd, ha⟩
  · rw [hd, he]; rfl
  · rw [hd, he]; rfl
  · obtain ⟨x, xs, hx⟩ := List.exists_cons_of_ne_nil hl
    subst hx
    rw [hd]
    exact ha

theorem includeList_resolved (v : Option (List (Option String))) (incl : List String)
    (hI : (v = none ∧ incl = []) ∨ (v = some [] ∧ incl = []) ∨
      (∃ l, l ≠ [] ∧ v = some l ∧ assertStrings l = some incl)) :
    (match GetOkList v with
      | (w, true) => assertStrings w
      | (_, false) => some []) = some incl := by
  rcases hI with ⟨hd, he⟩ | ⟨hd, he⟩ | ⟨l, hl, hd, ha⟩
  · rw [hd, he]; rfl
  · rw [hd, he]; rfl
  · obtain ⟨x, xs, hx⟩ := List.exists_cons_of_ne_nil hl
    subst hx
    rw [hd]
    exact ha

theorem prepareAndUploadCodeOn_packaging {J : Type} (host : Host) (m : Matcher) (goos : GOOS)
    (net : Net J) (disk : Disk) (d : SchemaData) (service : TcbService) (name envId : String)
    (buildDir : Node) (resp : DescribeCloudBaseBuildServiceResponseParams)
    (uploadUrl packageName : String) (headers : List (String × String))
    (incl excl : List String)
    (hs : service.DescribeCloudBaseBuildService name envId =
      .ok (DescribeCloudBaseBuildServiceResponse.mk (some resp)))
    (hu : resp.UploadUrl = some uploadUrl) (hn : resp.PackageName = some packageName)
    (hh : buildHeaders resp.UploadHeaders [] = some headers)
    (hE : (d.source_code_exclude = none ∧ excl = defaultSourceCodeExclude) ∨
      (d.source_code_exclude = some [] ∧ excl = defaultSourceCodeExclude) ∨
      (∃ l, l ≠ [] ∧ d.source_code_exclude = some l ∧ assertStrings l = some excl))
    (hI : (d.source_code_include = none ∧ incl = []) ∨
      (d.source_code_include = some [] ∧ incl = []) ∨
      (∃ l, l ≠ [] ∧ d.source_code_include = some l ∧ assertStrings l = some incl)) :
    (∀ err disk1,
      zipSourceCodeOn host m goos disk buildDir (some (ZipOptions.mk incl excl)) =
        (.error err, disk1) →
      prepareAndUploadCodeOn host m goos net disk d service name envId buildDir =
        (.error ("代码压缩失败: " ++ err), disk1)) ∧
    (∀ zipFile disk1,
      zipSourceCodeOn host m goos disk buildDir (some (ZipOptions.mk incl excl)) =
        (.ok zipFile, disk1) →
      (∀ err, uploadFile net disk1 (UploadOptions.mk uploadUrl zipFile "PUT" headers false) =
          .error err →
        prepareAndUploadCodeOn host m goos net disk d service name envId buildDir =
          (.error ("上传文件失败: " ++ err), disk1.Remove zipFile)) ∧
      (∀ r packageVersion,
        uploadFile net disk1 (UploadOptions.mk uploadUrl zipFile "PUT" headers false) = .ok r →
        resp.PackageVersion = some packageVersion →
        prepareAndUploadCodeOn host m goos net disk d service name envId buildDir =
          (.ok (uploadResult.mk packageName packageVersion), disk1.Remove zipFile))) := by
  have he := excludeList_resolved d.source_code_exclude excl hE
  have hi := includeList_resolved d.source_code_include incl hI
  refine ⟨fun err disk1 hz => ?_, fun zipFile disk1 hz => ⟨fun err hup => ?_,
    fun r v hup hv => ?_⟩⟩
  · simp only [prepareAndUploadCodeOn, hs, hu, hn, hh, he, hi, hz]
  · simp only [prepareAndUploadCodeOn, hs, hu, hn, hh, he, hi, hz, hup]
  · simp only [prepareAndUploadCodeOn, hs, hu, hn, hh, he, hi, hz, hup, hv]

theorem customizeDiffOn_packaging (host : Host) (m : Matcher) (goos : GOOS) (codec : Codec)
    (disk : Disk) (proc : Process) (d : SchemaData) (incl excl : List String)
    (hp : d.deploy_type = "package")
    (hE : (d.source_code_exclude = none ∧ excl = defaultSourceCodeExclude) ∨
      (d.source_code_exclude = some [] ∧ excl = defaultSourceCodeExclude) ∨
      (∃ l, l ≠ [] ∧ d.source_code_exclude = some l ∧ assertStrings l = some excl))
    (hI : (d.source_code_include = none ∧ incl = []) ∨
      (d.source_code_include = some [] ∧ incl = []) ∨
      (∃ l, l ≠ [] ∧ d.source_code_include = some l ∧ assertStrings l = some incl)) :
    (∀ err disk1,
      zipSourceCodeOn host m goos disk proc.Getwd (some (ZipOptions.mk incl excl)) =
        (.error err, disk1) →
      resourceTencentCloudCloudbaseRunCustomizeDiffOn host m goos codec disk proc d =
        (.error ("计算源代码哈希值失败: " ++ err), disk1)) ∧
    (∀ zipFile disk1 content,
      zipSourceCodeOn host m goos disk proc.Getwd (some (ZipOptions.mk incl excl)) =
        (.ok zipFile, disk1) →
      disk1.read zipFile = some content →
      resourceTencentCloudCloudbaseRunCustomizeDiffOn host m goos codec disk proc d =
        (.ok (some (sprintfHex (codec.Sum256 (codec.zipBytes content)))),
          disk1.Remove zipFile)) := by
  have he := excludeList_resolved d.source_code_exclude excl hE
  have hi := includeList_resolved d.source_code_include incl hI
  refine ⟨fun err disk1 hz => ?_, fun zipFile disk1 content hz hr => ?_⟩
  · simp only [resourceTencentCloudCloudbaseRunCustomizeDiffOn, hp, ne_eq, not_true_eq_false,
      if_false, he, hi, hz]
  · simp only [resourceTencentCloudCloudbaseRunCustomizeDiffOn, hp, ne_eq, not_true_eq_false,
      if_false, he, hi, hz, hr]

theorem setDeployInfo_packaging {J : Type} (host : Host) (m : Matcher) (goos : GOOS)
    (net : Net J) (disk : Disk) (proc : Process) (d : SchemaData) (service : TcbService)
    (deployInfo : DeployParam) (resp : DescribeCloudBaseBuildServiceResponseParams)
    (uploadUrl packageName : String) (headers : List (String × String))
    (incl excl : List String)
    (hp : d.deploy_type = "package")
    (hs : service.DescribeCloudBaseBuildService d.server_name proc.ENV_ID =
      .ok (DescribeCloudBaseBuildServiceResponse.mk (some resp)))
    (hu : resp.UploadUrl = some uploadUrl) (hn : resp.PackageName = some packageName)
    (hh : buildHeaders resp.UploadHeaders [] = some headers)
    (hE : (d.source_code_exclude = none ∧ excl = defaultSourceCodeExclude) ∨
      (d.source_code_exclude = some [] ∧ excl = defaultSourceCodeExclude) ∨
      (∃ l, l ≠ [] ∧ d.source_code_exclude = some l ∧ assertStrings l = some excl))
    (hI : (d.source_code_include = none ∧ incl = []) ∨
      (d.source_code_include = some [] ∧ incl = []) ∨
      (∃ l, l ≠ [] ∧ d.source_code_include = some l ∧ assertStrings l = some incl)) :
    (∀ err disk1,
      zipSourceCodeOn host m goos disk proc.Getwd (some (ZipOptions.mk incl excl)) =
        (.error err, disk1) →
      setDeployInfo host m goos net disk proc d service deployInfo =
        (.error ("上传代码失败: " ++ ("代码压缩失败: " ++ err)), disk1)) ∧
    (∀ zipFile disk1,
      zipSourceCodeOn host m goos disk proc.Getwd (some (ZipOptions.mk incl excl)) =
        (.ok zipFile, disk1) →
      (∀ err, uploadFile net disk1 (UploadOptions.mk uploadUrl zipFile "PUT" headers false) =
          .error err →
        setDeployInfo host m goos net disk proc d service deployInfo =
          (.error ("上传代码失败: " ++ ("上传文件失败: " ++ err)), disk1.Remove zipFile)) ∧
      (∀ r packageVersion,
        uploadFile net disk1 (UploadOptions.mk uploadUrl zipFile "PUT" headers false) = .ok r →
        resp.PackageVersion = some packageVersion →
        setDeployInfo host m goos net disk proc d service deployInfo =
          (.ok (DeployParam.mk (some "package") deployInfo.ImageUrl (some packageName)
            (some packageVersion) (if d.Id ≠ "" then some "FULL" else deployInfo.ReleaseType)),
            disk1.Remove zipFile))) := by
  obtain ⟨h1, h2⟩ := prepareAndUploadCodeOn_packaging host m goos net disk d service
    d.server_name proc.ENV_ID proc.Getwd resp uploadUrl packageName headers incl excl hs hu hn hh
    hE hI
  refine ⟨fun err disk1 hz => ?_, fun zipFile disk1 hz => ⟨fun err hup => ?_,
    fun r v hup hv => ?_⟩⟩
  · simp only [setDeployInfo, hp, if_true, h1 err disk1 hz]
  · simp only [setDeployInfo, hp, if_true, (h2 zipFile disk1 hz).1 err hup]
  · simp only [setDeployInfo, hp, if_true, (h2 zipFile disk1 hz).2 r v hup hv]

/-- A configured list that holds an element that is not a string makes the
three functions panic before anything is packaged. -/
theorem typeAssertion_panics {J : Type} (host : Host) (m : Matcher) (goos : GOOS)
    (net : Net J) (codec : Codec) (disk : Disk) (proc : Process) (d : SchemaData)
    (service : TcbService) (name envId : String) (buildDir : Node) (deployInfo : DeployParam)
    (resp : DescribeCloudBaseBuildServiceResponseParams)
    (uploadUrl packageName : String) (headers : List (String × String))
    (hp : d.deploy_type = "package")
    (hs : service.DescribeCloudBaseBuildService name envId =
      .ok (DescribeCloudBaseBuildServiceResponse.mk (some resp)))
    (hs1 : service.DescribeCloudBaseBuildService d.server_name proc.ENV_ID =
      .ok (DescribeCloudBaseBuildServiceResponse.mk (some resp)))
    (hu : resp.UploadUrl = some uploadUrl) (hn : resp.PackageName = some packageName)
    (hh : buildHeaders resp.UploadHeaders [] = some headers)
    (hnil : (∃ l, l ≠ [] ∧ d.source_code_exclude = some l ∧ assertStrings l = none) ∨
      ((d.source_code_exclude = none ∨ d.source_code_exclude = some [] ∨
          ∃ l excl, l ≠ [] ∧ d.source_code_exclude = some l ∧ assertStrings l = some excl) ∧
        ∃ l, l ≠ [] ∧ d.source_code_include = some l ∧ assertStrings l = none)) :
    prepareAndUploadCodeOn host m goos net disk d service name envId buildDir =
      (.typeAssertion, disk) ∧
    resourceTencentCloudCloudbaseRunCustomizeDiffOn host m goos codec disk proc d =
      (.typeAssertion, disk) ∧
    setDeployInfo host m goos net disk proc d service deployInfo = (.typeAssertion, disk) := by
  have key : (match GetOkList d.source_code_exclude with
        | (w, true) => assertStrings w
        | (_, false) => some defaultSourceCodeExclude) = none ∨
      ∃ excl, (match GetOkList d.source_code_exclude with
        | (w, true) => assertStrings w
        | (_, false) => some defaultSourceCodeExclude) = some excl ∧
      (match GetOkList d.source_code_include with
        | (w, true) => assertStrings w
        | (_, false) => some []) = none := by
    rcases hnil with ⟨l, hl, hd, ha⟩ | ⟨hE, l, hl, hd, ha⟩
    · left
      obtain ⟨x, xs, hx⟩ := List.exists_cons_of_ne_nil hl
      subst hx
      rw [hd]
      exact ha
    · right
      have hi : (match GetOkList d.source_code_include with
          | (w, true) => assertStrings w
          | (_, false) => some []) = none := by
        obtain ⟨x, xs, hx⟩ := List.exists_cons_of_ne_nil hl
        subst hx
        rw [hd]
        exact ha
      rcases hE with h0 | h0 | ⟨l1, excl, h1, h2, h3⟩
      · exact ⟨_, excludeList_resolved _ _ (Or.inl ⟨h0, rfl⟩), hi⟩
      · exact ⟨_, excludeList_resolved _ _ (Or.inr (Or.inl ⟨h0, rfl⟩)), hi⟩
      · exact ⟨excl, excludeList_resolved _ _ (Or.inr (Or.inr ⟨l1, h1, h2, h3⟩)), hi⟩
  have hprep : ∀ (name envId : String) (buildDir : Node),
      service.DescribeCloudBaseBuildService name envId =
        .ok (DescribeCloudBaseBuildServiceResponse.mk (some resp)) →
      prepareAndUploadCodeOn host m goos net disk d service name envId buildDir =
        (.typeAssertion, disk) := by
    intro name envId buildDir hs
    rcases key with he | ⟨excl, he, hi⟩
    · simp only [prepareAndUploadCodeOn, hs, hu, hn, hh, he]
    · simp only [prepareAndUploadCodeOn, hs, hu, hn, hh, he, hi]
  refine ⟨hprep name envId buildDir hs, ?_, ?_⟩
  · rcases key with he | ⟨excl, he, hi⟩
    · simp only [resourceTencentCloudCloudbaseRunCustomizeDiffOn, hp, ne_eq,
        not_true_eq_false, if_false, he]
    · simp only [resourceTencentCloudCloudbaseRunCustomizeDiffOn, hp, ne_eq,
        not_true_eq_false, if_false, he, hi]
  · simp only [setDeployInfo, hp, if_true, hprep d.server_name proc.ENV_ID proc.Getwd hs1]

/-- The two lists of a configuration either resolve, or one of them holds an
element on which the type assertion panics. -/
theorem lists_resolve_or_panic (d : SchemaData) :
    (∃ incl excl : List String,
      ((d.source_code_exclude = none ∧ excl = defaultSourceCodeExclude) ∨
        (d.source_code_exclude = some [] ∧ excl = defaultSourceCodeExclude) ∨
        (∃ l, l ≠ [] ∧ d.source_code_exclude = some l ∧ assertStrings l = some excl)) ∧
      ((d.source_code_include = none ∧ incl = []) ∨
        (d.source_code_include = some [] ∧ incl = []) ∨
        (∃ l, l ≠ [] ∧ d.source_code_include = some l ∧ assertStrings l = some incl))) ∨
    ((∃ l, l ≠ [] ∧ d.source_code_exclude = some l ∧ assertStrings l = none) ∨
      ((d.source_code_exclude = none ∨ d.source_code_exclude = some [] ∨
          ∃ l excl, l ≠ [] ∧ d.source_code_exclude = some l ∧ assertStrings l = some excl) ∧
        ∃ l, l ≠ [] ∧ d.source_code_include = some l ∧ assertStrings l = none)) := by
  have hE : (∃ excl : List String,
        (d.source_code_exclude = none ∧ excl = defaultSourceCodeExclude) ∨
        (d.source_code_exclude = some [] ∧ excl = defaultSourceCodeExclude) ∨
        (∃ l, l ≠ [] ∧ d.source_code_exclude = some l ∧ assertStrings l = some excl)) ∨
      (∃ l, l ≠ [] ∧ d.source_code_exclude = some l ∧ assertStrings l = none) := by
    cases h : d.source_code_exclude with
    | none => exact Or.inl ⟨_, Or.inl ⟨rfl, rfl⟩⟩
    | some l =>
      cases l with
      | nil => exact Or.inl ⟨_, Or.inr (Or.inl ⟨rfl, rfl⟩)⟩
      | cons x xs =>
        cases ha : assertStrings (x :: xs) with
        | none => exact Or.inr ⟨_, List.cons_ne_nil _ _, rfl, ha⟩
        | some excl => exact Or.inl ⟨excl, Or.inr (Or.inr ⟨_, List.cons_ne_nil _ _, rfl, ha⟩)⟩
  have hI : (∃ incl : List String,
        (d.source_code_include = none ∧ incl = []) ∨
        (d.source_code_include = some [] ∧ incl = []) ∨
        (∃ l, l ≠ [] ∧ d.source_code_include = some l ∧ assertStrings l = some incl)) ∨
      (∃ l, l ≠ [] ∧ d.source_code_include = some l ∧ assertStrings l = none) := by
    cases h : d.source_code_include with
    | none => exact Or.inl ⟨_, Or.inl ⟨rfl, rfl⟩⟩
    | some l =>
      cases l with
      | nil => exact Or.inl ⟨_, Or.inr (Or.inl ⟨rfl, rfl⟩)⟩
      | cons x xs =>
        cases ha : assertStrings (x :: xs) with
        | none => exact Or.inr ⟨_, List.cons_ne_nil _ _, rfl, ha⟩
        | some incl => exact Or.inl ⟨incl, Or.inr (Or.inr ⟨_, List.cons_ne_nil _ _, rfl, ha⟩)⟩
  rcases hE with ⟨excl, hE⟩ | hE
  · rcases hI with ⟨incl, hI⟩ | hI
    · exact Or.inl ⟨incl, excl, hE, hI⟩
    · refine Or.inr (Or.inr ⟨?_, hI⟩)
      rcases hE with ⟨h, _⟩ | ⟨h, _⟩ | ⟨l, hl, h, ha⟩
      · exact Or.inl h
      · exact Or.inr (Or.inl h)
      · exact Or.inr (Or.inr ⟨l, excl, hl, h, ha⟩)
  · exact Or.inr (Or.inl hE)

/-! ## Taking an excluded directory out of the tree, on a host -/

theorem zipWalkFnOn_excluded (host : Host) (m : Matcher) (goos : GOOS) (opts : ZipOptions)
    (path : List String) (info : Node) (zw : Archive) (hrel : Rel goos path ≠ ".")
    (h : matchExclude m (Rel goos path) opts.ExcludeList = .ok true) :
    zipWalkFnOn host m goos opts path info none zw =
      (zw, if info.IsDir then WalkRet.SkipDir else WalkRet.nil) := by
  simp only [zipWalkFnOn, if_neg hrel, h]
  cases info.IsDir <;> simp

theorem walkOn_excluded (host : Host) (m : Matcher) (goos : GOOS) (opts : ZipOptions)
    (path : List String) (c : Node) (zw : Archive) (hrd : host.ReadDir path = none)
    (hrel : Rel goos path ≠ ".")
    (h : matchExclude m (Rel goos path) opts.ExcludeList = .ok true) :
    walkOn host (zipWalkFnOn host m goos opts) path c zw =
      (zw, if c.IsDir then WalkRet.SkipDir else WalkRet.nil) := by
  cases c with
  | file n d => simp [walkOn, zipWalkFnOn_excluded host m goos opts path _ zw hrel h]
  | dir n ds =>
    simp [walkOn, hrd, zipWalkFnOn_excluded host m goos opts path _ zw hrel h, Node.IsDir]

theorem zipWalkFnOn_dir_listing (host : Host) (m : Matcher) (goos : GOOS) (opts : ZipOptions)
    (path : List String) (n : String) (ds ds1 : List Node) (err : Option String)
    (zw : Archive) :
    zipWalkFnOn host m goos opts path (.dir n ds) err zw =
      zipWalkFnOn host m goos opts path (.dir n ds1) err zw := by
  cases err <;> simp [zipWalkFnOn, Node.IsDir, Node.Content]

theorem zipWalkFnOn_lstat (host : Host) (m : Matcher) (goos : GOOS) (opts : ZipOptions)
    (path : List String) (info : Node) (err : String) (zw : Archive) :
    zipWalkFnOn host m goos opts path info (some err) zw = (zw, .err err) := rfl

theorem walkOn_withChildren (host : Host) (m : Matcher) (goos : GOOS) (opts : ZipOptions)
    (a : String) (sub base : List String)
    (hsub : ∀ (ds : List Node) (zw : Archive),
      walkNamesOn host (zipWalkFnOn host m goos opts) (base ++ [a]) (removePath sub ds) zw =
        walkNamesOn host (zipWalkFnOn host m goos opts) (base ++ [a]) ds zw)
    (c : Node) (zw : Archive) :
    walkOn host (zipWalkFnOn host m goos opts) (base ++ [a])
        (if c.Name = a then c.withChildren (removePath sub) else c) zw =
      walkOn host (zipWalkFnOn host m goos opts) (base ++ [a]) c zw ∧
    (if c.Name = a then c.withChildren (removePath sub) else c).IsDir = c.IsDir ∧
    (if c.Name = a then c.withChildren (removePath sub) else c).Name = c.Name := by
  by_cases hc : c.Name = a
  · rw [if_pos hc]
    cases c with
    | file n d => exact ⟨rfl, rfl, rfl⟩
    | dir n ds =>
      refine ⟨?_, rfl, rfl⟩
      simp only [Node.withChildren, walkOn]
      rw [zipWalkFnOn_dir_listing host m goos opts _ n (removePath sub ds) ds _ zw]
      cases hf : zipWalkFnOn host m goos opts (base ++ [a]) (.dir n ds)
          (host.ReadDir (base ++ [a])) zw with
      | mk s1 r =>
        cases r with
        | nil =>
          cases host.ReadDir (base ++ [a]) with
          | some e => rfl
          | none => exact hsub ds s1
        | SkipDir => rfl
        | err e => rfl
  · rw [if_neg hc]
    exact ⟨rfl, rfl, rfl⟩

theorem walkNamesOn_withChildren (host : Host) (m : Matcher) (goos : GOOS) (opts : ZipOptions)
    (a : String) (sub base : List String)
    (hsub : ∀ (ds : List Node) (zw : Archive),
      walkNamesOn host (zipWalkFnOn host m goos opts) (base ++ [a]) (removePath sub ds) zw =
        walkNamesOn host (zipWalkFnOn host m goos opts) (base ++ [a]) ds zw) :
    ∀ (cs : List Node) (zw : Archive),
      walkNamesOn host (zipWalkFnOn host m goos opts) base
          (cs.map (fun c => if c.Name = a then c.withChildren (removePath sub) else c)) zw =
        walkNamesOn host (zipWalkFnOn host m goos opts) base cs zw
  | [], _ => rfl
  | c :: cs, zw => by
    have ih := walkNamesOn_withChildren host m goos opts a sub base hsub cs
    obtain ⟨h1, h2, h3⟩ := walkOn_withChildren host m goos opts a sub base hsub c zw
    simp only [List.map_cons, walkNamesOn]
    rw [h3, h2]
    cases hl : host.Lstat (base ++ [c.Name]) with
    | some err => simp only [zipWalkFnOn_lstat]
    | none =>
      simp only []
      by_cases hc : c.Name = a
      · rw [hc] at h1 ⊢
        rw [h1]
        cases hw : walkOn host (zipWalkFnOn host m goos opts) (base ++ [a]) c zw with
        | mk s1 r => cases r <;> simp [ih]
      · rw [if_neg hc]
        cases hw : walkOn host (zipWalkFnOn host m goos opts) (base ++ [c.Name]) c zw with
        | mk s1 r => cases r <;> simp [ih]

/-- The walk on a host does not notice that an excluded path has been taken out
of the tree, when the object at that path can be examined and listed. -/
theorem walkNamesOn_removePath (host : Host) (m : Matcher) (goos : GOOS) (opts : ZipOptions) :
    ∀ (q : List String) (base : List String) (cs : List Node) (zw : Archive), q ≠ [] →
      host.Lstat (base ++ q) = none → host.ReadDir (base ++ q) = none →
      Rel goos (base ++ q) ≠ "." →
      matchExclude m (Rel goos (base ++ q)) opts.ExcludeList = .ok true →
      walkNamesOn host (zipWalkFnOn host m goos opts) base (removePath q cs) zw =
        walkNamesOn host (zipWalkFnOn host m goos opts) base cs zw
  | [], _, _, _, hq, _, _, _, _ => absurd rfl hq
  | [a], base, cs, zw, _, hL, hR, hrel, hex => by
    induction cs generalizing zw with
    | nil => rfl
    | cons c cs ih =>
      simp only [removePath] at ih ⊢
      by_cases hc : c.Name = a
      · subst hc
        have hw := walkOn_excluded host m goos opts (base ++ [c.Name]) c zw hR hrel hex
        cases hd : c.IsDir <;> simp [walkNamesOn, hL, hw, hd, ih]
      · simp only [hc, decide_False, Bool.not_false, List.filter_cons_of_pos, walkNamesOn]
        cases hl : host.Lstat (base ++ [c.Name]) with
        | some err => simp only [zipWalkFnOn_lstat]
        | none =>
          simp only []
          cases hw : walkOn host (zipWalkFnOn host m goos opts) (base ++ [c.Name]) c zw with
          | mk s1 r => cases r <;> simp [ih]
  | a :: b :: rest, base, cs, zw, _, hL, hR, hrel, hex => by
    simp only [removePath]
    exact walkNamesOn_withChildren host m goos opts a (b :: rest) base
      (fun ds zw1 => walkNamesOn_removePath host m goos opts (b :: rest) (base ++ [a]) ds zw1
        (by simp) (by simpa using hL) (by simpa using hR) (by simpa using hrel)
        (by simpa using hex)) cs zw

/-- Adding the temporary file and taking out a path other than its own can be
done in either order. -/
theorem insertTemp_removePath (b : String) (content : List Nat) :
    ∀ (dir q : List String) (cs : List Node), dir ≠ q ++ [b] →
      insertTemp (.file b content) q (removePath dir cs) =
        removePath dir (insertTemp (.file b content) q cs)
  | [], _, _, _ => by simp only [removePath]
  | [a], [], cs, h => by
    have hb : ¬ b = a := fun e => h (by rw [e]; rfl)
    simp [removePath, insertTemp, List.filter_append, Node.Name, hb]
  | [a], a1 :: q1, cs, _ => by
    simp only [removePath, insertTemp, List.filter_map]
    congr 1
    apply List.filter_congr
    intro c _
    by_cases hc : c.Name = a1
    · simp [Function.comp, hc, withChildren_Name]
    · simp [Function.comp, hc]
  | a :: b1 :: rest, [], cs, _ => by
    simp [removePath, insertTemp, Node.withChildren, Node.Name]
  | a :: b1 :: rest, a1 :: q1, cs, h => by
    simp only [removePath, insertTemp, List.map_map]
    apply List.map_congr_left
    intro c _
    simp only [Function.comp]
    cases c with
    | file n d => simp only [Node.withChildren, ite_self]
    | dir n ds =>
      by_cases h1 : n = a1 <;> by_cases h2 : n = a
      · have hne : b1 :: rest ≠ q1 ++ [b] := by
          intro e
          apply h
          rw [← h2, ← h1, e]
          rfl
        subst h1
        subst h2
        simp only [Node.withChildren, Node.Name, if_true, Node.dir.injEq, true_and]
        exact insertTemp_removePath b content (b1 :: rest) q1 ds hne
      · subst h1
        simp only [Node.withChildren, Node.Name, h2, if_true, if_false]
      · subst h2
        simp only [Node.withChildren, Node.Name, h1, if_true, if_false]
      · simp only [Node.withChildren, Node.Name, h1, h2, if_false]

theorem Host.listing_removePath (host : Host) (tmpFile : TempFile) (dir : List String)
    (cs : List Node) (hx : ∀ q, host.TempDir = some q → dir ≠ q ++ [tmpFile.Base]) :
    host.listing tmpFile (removePath dir cs) = removePath dir (host.listing tmpFile cs) := by
  unfold Host.listing
  cases ht : host.TempDir with
  | none => rfl
  | some q => exact insertTemp_removePath _ _ dir q cs (hx q ht)

/-- Taking an excluded path out of a directory does not change what
`zipSourceCode` returns for it on a host where the object at that path can be
examined and listed and is not the temporary file. -/
theorem zipSourceCodeOn_removePath (host : Host) (m : Matcher) (goos : GOOS) (disk : Disk)
    (name : String) (cs : List Node) (opts : ZipOptions) (tmpFile : TempFile)
    (hc : host.CreateTemp = .ok tmpFile)
    (dir : List String) (hne : dir ≠ [])
    (hx : ∀ q, host.TempDir = some q → dir ≠ q ++ [tmpFile.Base])
    (hL : host.Lstat dir = none) (hR : host.ReadDir dir = none)
    (hrel : Rel goos dir ≠ ".")
    (hex : matchExclude m (Rel goos dir) opts.ExcludeList = .ok true) :
    zipSourceCodeOn host m goos disk (.dir name (removePath dir cs)) (some opts) =
      zipSourceCodeOn host m goos disk (.dir name cs) (some opts) := by
  have h := fun zw => walkNamesOn_removePath host m goos opts dir []
    (readDirNames (sortNodes (host.listing tmpFile cs))) zw hne
    (by simpa using hL) (by simpa using hR) (by simpa using hrel) (by simpa using hex)
  have hw : WalkOn host (host.walked tmpFile (.dir name (removePath dir cs)))
        (zipWalkFnOn host m goos opts) [] =
      WalkOn host (host.walked tmpFile (.dir name cs)) (zipWalkFnOn host m goos opts) [] := by
    simp only [Host.walked, Node.withChildren, Host.listing_removePath host tmpFile dir cs hx,
      WalkOn, sortNode, removePath_sorted]
    cases hl : host.Lstat [] with
    | some err => rfl
    | none =>
      simp only [walkOn]
      rw [zipWalkFnOn_dir_listing host m goos opts [] name
        (removePath dir (readDirNames (sortNodes (host.listing tmpFile cs))))
        (readDirNames (sortNodes (host.listing tmpFile cs)))]
      rcases zipWalkFnOn host m goos opts [] (.dir name
        (readDirNames (sortNodes (host.listing tmpFile cs)))) (host.ReadDir []) [] with ⟨s1, r⟩
      cases r with
      | nil =>
        cases host.ReadDir [] with
        | some e => rfl
        | none =>
          simp only [Option.isSome_none, Bool.false_eq_true, if_false]
          rw [h s1]
      | SkipDir => rfl
      | err e => rfl
  simp only [zipSourceCodeOn, hc, Option.getD_some, hw]

/-! ## The claims about `zipSourceCode` -/

/-- C1, as worded, fails: when the packaged directory is the temporary
directory itself, and empty, the archive holds an entry, the one of the
temporary file that `zipSourceCode` has just created there; and a tree that
holds a symbolic link to a directory is not packaged, `io.Copy` failing on the
link. -/
theorem temp_file_packaged :
    zipSourceCodeOn (tempDirHost "cloudbase-1.zip") doublestarMatch GOOS.unix []
        (.dir "tmp" []) (some (ZipOptions.mk [] [])) =
      (.ok "/tmp/cloudbase-1.zip",
        [("/tmp/cloudbase-1.zip", [ZipEntry.mk "cloudbase-1.zip" false []])]) ∧
    zipSourceCodeOn symlinkHost doublestarMatch GOOS.unix []
        (.dir "app" [.file "a.txt" [97], .file "link" []]) (some (ZipOptions.mk [] [])) =
      (.error "压缩文件失败: 写入文件失败: read link: is a directory",
        [("/tmp/cloudbase-1.zip", [ZipEntry.mk "a.txt" false [97]])]) := by
  decide

/-- C1, amended: with an empty include list and an empty exclude list (or no
options at all), every archive `zipSourceCode` returns holds one entry for each
file and directory of the tree as the walk finds it, and nothing else; when the
temporary directory is not the packaged directory or a directory below it,
these are the files and directories below the root, and for an empty root the
archive has no entries.  The call succeeds on a host where the temporary file
can be created and no file-system call of the walk fails. -/
theorem zipSourceCode_full_inclusion (host : Host) (m : Matcher) (goos : GOOS) (disk : Disk)
    (name : String) (children : List Node) (tmpFile : TempFile)
    (hc : host.CreateTemp = .ok tmpFile)
    (hv : validNodes goos (host.listing tmpFile children) = true) :
    zipSourceCodeOn host m goos disk (.dir name children) none =
      zipSourceCodeOn host m goos disk (.dir name children) (some (ZipOptions.mk [] [])) ∧
    (NoFaults host → ∃ archive : Archive,
      zipSourceCodeOn host m goos disk (.dir name children) (some (ZipOptions.mk [] [])) =
        (.ok tmpFile.Name, (tmpFile.Name, archive) :: disk)) ∧
    ∀ (zipFile : String) (disk1 : Disk),
      zipSourceCodeOn host m goos disk (.dir name children) (some (ZipOptions.mk [] [])) =
        (.ok zipFile, disk1) →
      ∃ archive : Archive, zipFile = tmpFile.Name ∧ disk1 = (tmpFile.Name, archive) :: disk ∧
        archive.Perm ((membersOf [] (host.listing tmpFile children)).map (entryOf goos)) ∧
        (host.TempDir = none →
          archive.Perm ((membersOf [] children).map (entryOf goos)) ∧
          (children = [] → archive = [])) := by
  refine ⟨rfl, fun hn => ?_, fun zipFile disk1 h => ?_⟩
  · rw [zipSourceCodeOn_noFaults host hn tmpFile hc, Host.walked_dir]
    exact ⟨_, zipSourceCode_dir m goos tmpFile.Name disk name _ (ZipOptions.mk [] []) hv
      (by simp) (by simp)⟩
  · obtain ⟨t, ht, h1⟩ := zipSourceCodeOn_ok host m goos disk _ _ zipFile disk1 h
    rw [hc] at ht
    cases Except.ok.inj ht
    rw [Host.walked_dir] at h1
    obtain ⟨h2, h3⟩ := zipSourceCode_ok m goos tmpFile.Name disk name _ _ hv zipFile disk1 h1
    have hp : ∀ cs : List Node,
        (((membersOf [] (readDirNames (sortNodes cs))).filter
          (kept m goos (ZipOptions.mk [] []))).map (entryOf goos)).Perm
        ((membersOf [] cs).map (entryOf goos)) := by
      intro cs
      refine (filtered_perm m goos cs (ZipOptions.mk [] [])).trans ?_
      rw [List.filter_eq_self.mpr (fun x _ => kept_no_patterns m goos x)]
    refine ⟨_, h2, h3, hp _, fun ht => ?_⟩
    rw [Host.listing_outside host tmpFile children ht]
    refine ⟨hp _, fun hc0 => ?_⟩
    subst hc0
    simp [sortNodes, readDirNames, membersOf]

/-- C1, amended, at scenario 1 on a host whose temporary directory lies outside
the packaged directory and where no call fails. -/
theorem zipSourceCode_full_inclusion_witness :
    sampleHost.CreateTemp = .ok (TempFile.mk "/tmp/cloudbase-1.zip" "cloudbase-1.zip") ∧
    validNodes GOOS.unix
      (sampleHost.listing (TempFile.mk "/tmp/cloudbase-1.zip" "cloudbase-1.zip") scenario1) =
      true ∧
    NoFaults sampleHost ∧
    (∃ archive : Archive,
      zipSourceCodeOn sampleHost doublestarMatch GOOS.unix [] (.dir "app" scenario1)
          (some (ZipOptions.mk [] [])) =
        (.ok "/tmp/cloudbase-1.zip", [("/tmp/cloudbase-1.zip", archive)])) ∧
    zipSourceCodeOn sampleHost doublestarMatch GOOS.unix [] (.dir "app" scenario1) none =
      (.ok "/tmp/cloudbase-1.zip", [("/tmp/cloudbase-1.zip",
        [ZipEntry.mk "a.txt" false [97], ZipEntry.mk "b.log" false [98],
         ZipEntry.mk "sub/" true [], ZipEntry.mk "sub/c.txt" false [99]])]) ∧
    zipSourceCodeOn sampleHost doublestarMatch GOOS.unix [] (.dir "app" []) none =
      (.ok "/tmp/cloudbase-1.zip", [("/tmp/cloudbase-1.zip", [])]) :=
  ⟨rfl, by decide, noFaults_sampleHost,
   (zipSourceCode_full_inclusion sampleHost doublestarMatch GOOS.unix [] "app" scenario1
     (TempFile.mk "/tmp/cloudbase-1.zip" "cloudbase-1.zip") rfl (by decide)).2.1
     noFaults_sampleHost,
   by decide, by decide⟩

/-- C2, as stated, fails at scenario 3: with include `src/**/*.go` the archive
holds the two files only; the directories `src` and `src/pkg`, which are not
excluded, have no entry. -/
theorem include_scenario_directories_absent :
    zipSourceCode doublestarMatch GOOS.unix "cloudbase-1.zip" [] (.dir "app" scenario3)
        (some (ZipOptions.mk ["src/**/*.go"] [])) =
      (.ok "cloudbase-1.zip", [("cloudbase-1.zip",
        [ZipEntry.mk "src/a.go" false [97], ZipEntry.mk "src/pkg/b.go" false [98]])]) ∧
    Member.mk ["src"] true [] ∈ membersOf [] scenario3 ∧
    excluded doublestarMatch GOOS.unix [] ["src"] = false ∧
    ZipEntry.mk "src/" true [] ∉
      [ZipEntry.mk "src/a.go" false [97], ZipEntry.mk "src/pkg/b.go" false [98]] := by
  decide

/-- C2, amended: with a non-empty include list, `zipSourceCode` succeeds when
the matcher accepts every pattern, and in every archive it writes a directory
of the tree that is not excluded has a directory entry if and only if its own
relative path matches at least one include pattern; whether it does or not,
the walk goes on below it, so every file under it that matches an include
pattern and has nothing excluded on its path is archived. -/
theorem zipSourceCode_directory_iff (m : Matcher) (goos : GOOS) (tmp : String) (disk : Disk)
    (name : String) (children : List Node) (incl exclude : List String)
    (hv : validNodes goos children = true) (hne : incl ≠ []) :
    ((∀ p ∈ incl, Accepts m p) → (∀ p ∈ exclude, Accepts m p) →
      ∃ archive : Archive,
        zipSourceCode m goos tmp disk (.dir name children) (some (ZipOptions.mk incl exclude)) =
          (.ok tmp, (tmp, archive) :: disk)) ∧
    ∀ (zipFile : String) (disk1 : Disk),
      zipSourceCode m goos tmp disk (.dir name children) (some (ZipOptions.mk incl exclude)) =
        (.ok zipFile, disk1) →
      ∃ archive : Archive, zipFile = tmp ∧ disk1 = (tmp, archive) :: disk ∧
        ∀ (dir : List String), Member.mk dir true [] ∈ membersOf [] children →
          excluded m goos exclude dir = false →
          (ZipEntry.mk (Rel goos dir ++ "/") true [] ∈ archive ↔
            ∃ p ∈ incl, m p (Rel goos dir) = .ok true) ∧
          ∀ (path : List String) (content : List Nat),
            Member.mk path false content ∈ membersOf [] children → dir <+: path →
            excluded m goos exclude path = false →
            (∃ p ∈ incl, m p (Rel goos path) = .ok true) →
            ZipEntry.mk (Rel goos path) false content ∈ archive := by
  constructor
  · intro hinc hexc
    exact ⟨_, zipSourceCode_dir m goos tmp disk name children (ZipOptions.mk incl exclude) hv
      hexc hinc⟩
  · intro zipFile disk1 h
    obtain ⟨h1, h2⟩ := zipSourceCode_ok m goos tmp disk name children _ hv zipFile disk1 h
    have hp := filtered_perm m goos children (ZipOptions.mk incl exclude)
    refine ⟨_, h1, h2, ?_⟩
    intro dir hd hex
    constructor
    · have h3 := mem_archive_iff m goos _ children hv _ hp _ hd
      have hl : incl.isEmpty = false := by cases incl <;> simp_all
      simpa [entryOf, kept, hex, hl, matchesAny_iff] using h3
    · intro path content hx _ hexp hm
      have h3 := mem_archive_iff m goos _ children hv _ hp _ hx
      have hk : kept m goos (ZipOptions.mk incl exclude) (Member.mk path false content) = true := by
        simp [kept, hexp, (matchesAny_iff m incl _).mpr hm]
      simpa [entryOf] using h3.mpr hk

/-- C2, amended, at scenario 3: `src` is walked but has no entry, and the files
below it are archived. -/
theorem zipSourceCode_directory_iff_witness :
    validNodes GOOS.unix scenario3 = true ∧ ["src/**/*.go"] ≠ [] ∧
    ((∀ p ∈ ["src/**/*.go"], Accepts doublestarMatch p) →
      (∀ p ∈ ([] : List String), Accepts doublestarMatch p) →
      ∃ archive : Archive,
        zipSourceCode doublestarMatch GOOS.unix "cloudbase-1.zip" [] (.dir "app" scenario3)
            (some (ZipOptions.mk ["src/**/*.go"] [])) =
          (.ok "cloudbase-1.zip", [("cloudbase-1.zip", archive)])) ∧
    (∀ (zipFile : String) (disk1 : Disk),
      zipSourceCode doublestarMatch GOOS.unix "cloudbase-1.zip" [] (.dir "app" scenario3)
          (some (ZipOptions.mk ["src/**/*.go"] [])) = (.ok zipFile, disk1) →
      ∃ archive : Archive, zipFile = "cloudbase-1.zip" ∧
        disk1 = [("cloudbase-1.zip", archive)] ∧
        ∀ (dir : List String), Member.mk dir true [] ∈ membersOf [] scenario3 →
          excluded doublestarMatch GOOS.unix [] dir = false →
          (ZipEntry.mk (Rel GOOS.unix dir ++ "/") true [] ∈ archive ↔
            ∃ p ∈ ["src/**/*.go"], doublestarMatch p (Rel GOOS.unix dir) = .ok true) ∧
          ∀ (path : List String) (content : List Nat),
            Member.mk path false content ∈ membersOf [] scenario3 → dir <+: path →
            excluded doublestarMatch GOOS.unix [] path = false →
            (∃ p ∈ ["src/**/*.go"], doublestarMatch p (Rel GOOS.unix path) = .ok true) →
            ZipEntry.mk (Rel GOOS.unix path) false content ∈ archive) ∧
    (∀ p ∈ ["src/**/*.go"], Accepts doublestarMatch p) :=
  have hacc : ∀ p ∈ ["src/**/*.go"], Accepts doublestarMatch p := by
    intro p hp
    rw [List.mem_singleton] at hp
    subst hp
    exact fun _ => ⟨_, rfl⟩
  ⟨by decide, by decide,
   (zipSourceCode_directory_iff doublestarMatch GOOS.unix "cloudbase-1.zip" [] "app" scenario3
     ["src/**/*.go"] [] (by decide) (by decide)).1,
   (zipSourceCode_directory_iff doublestarMatch GOOS.unix "cloudbase-1.zip" [] "app" scenario3
     ["src/**/*.go"] [] (by decide) (by decide)).2,
   hacc⟩

/-- C3: with a non-empty include list, `zipSourceCode` succeeds when the
matcher accepts every pattern, and in every archive it writes a file of the
tree is present if and only if it matches at least one include pattern,
matches no exclude pattern, and no directory above it matches an exclude
pattern. -/
theorem zipSourceCode_file_iff (m : Matcher) (goos : GOOS) (tmp : String) (disk : Disk)
    (name : String) (children : List Node) (incl exclude : List String)
    (hv : validNodes goos children = true) (hne : incl ≠ []) :
    ((∀ p ∈ incl, Accepts m p) → (∀ p ∈ exclude, Accepts m p) →
      ∃ archive : Archive,
        zipSourceCode m goos tmp disk (.dir name children) (some (ZipOptions.mk incl exclude)) =
          (.ok tmp, (tmp, archive) :: disk)) ∧
    ∀ (zipFile : String) (disk1 : Disk),
      zipSourceCode m goos tmp disk (.dir name children) (some (ZipOptions.mk incl exclude)) =
        (.ok zipFile, disk1) →
      ∃ archive : Archive, zipFile = tmp ∧ disk1 = (tmp, archive) :: disk ∧
        ∀ (path : List String) (content : List Nat),
          Member.mk path false content ∈ membersOf [] children →
          (ZipEntry.mk (Rel goos path) false content ∈ archive ↔
            (∃ p ∈ incl, m p (Rel goos path) = .ok true) ∧
            (∀ p ∈ exclude, m p (Rel goos path) ≠ .ok true) ∧
            (∀ q, q ≠ [] → q <+: path → q ≠ path →
              ∀ p ∈ exclude, m p (Rel goos q) ≠ .ok true)) := by
  constructor
  · intro hinc hexc
    exact ⟨_, zipSourceCode_dir m goos tmp disk name children (ZipOptions.mk incl exclude) hv
      hexc hinc⟩
  · intro zipFile disk1 h
    obtain ⟨h1, h2⟩ := zipSourceCode_ok m goos tmp disk name children _ hv zipFile disk1 h
    have hp := filtered_perm m goos children (ZipOptions.mk incl exclude)
    refine ⟨_, h1, h2, ?_⟩
    intro path content hx
    have h3 := mem_archive_iff m goos _ children hv _ hp _ hx
    rw [kept_iff_split m goos incl exclude hne _ (membersOf_path_ne_nil children [] _ hx)] at h3
    simpa [entryOf] using h3

/-- C3 at scenario 3: `src/a.go` and `src/pkg/b.go` are archived although `src`
and `src/pkg` match no include pattern, and `README.md` is not. -/
theorem zipSourceCode_file_iff_witness :
    validNodes GOOS.unix scenario3 = true ∧ ["src/**/*.go"] ≠ [] ∧
    ((∀ p ∈ ["src/**/*.go"], Accepts doublestarMatch p) →
      (∀ p ∈ ([] : List String), Accepts doublestarMatch p) →
      ∃ archive : Archive,
        zipSourceCode doublestarMatch GOOS.unix "cloudbase-1.zip" [] (.dir "app" scenario3)
            (some (ZipOptions.mk ["src/**/*.go"] [])) =
          (.ok "cloudbase-1.zip", [("cloudbase-1.zip", archive)])) ∧
    (∀ (zipFile : String) (disk1 : Disk),
      zipSourceCode doublestarMatch GOOS.unix "cloudbase-1.zip" [] (.dir "app" scenario3)
          (some (ZipOptions.mk ["src/**/*.go"] [])) = (.ok zipFile, disk1) →
      ∃ archive : Archive, zipFile = "cloudbase-1.zip" ∧
        disk1 = [("cloudbase-1.zip", archive)] ∧
        ∀ (path : List String) (content : List Nat),
          Member.mk path false content ∈ membersOf [] scenario3 →
          (ZipEntry.mk (Rel GOOS.unix path) false content ∈ archive ↔
            (∃ p ∈ ["src/**/*.go"], doublestarMatch p (Rel GOOS.unix path) = .ok true) ∧
            (∀ p ∈ ([] : List String), doublestarMatch p (Rel GOOS.unix path) ≠ .ok true) ∧
            (∀ q, q ≠ [] → q <+: path → q ≠ path →
              ∀ p ∈ ([] : List String), doublestarMatch p (Rel GOOS.unix q) ≠ .ok true))) ∧
    (∀ p ∈ ["src/**/*.go"], Accepts doublestarMatch p) ∧
    doublestarMatch "src/**/*.go" "src" = .ok false ∧
    doublestarMatch "src/**/*.go" "src/pkg" = .ok false ∧
    doublestarMatch "src/**/*.go" "src/pkg/b.go" = .ok true ∧
    doublestarMatch "src/**/*.go" "README.md" = .ok false :=
  have hacc : ∀ p ∈ ["src/**/*.go"], Accepts doublestarMatch p := by
    intro p hp
    rw [List.mem_singleton] at hp
    subst hp
    exact fun _ => ⟨_, rfl⟩
  ⟨by decide, by decide,
   (zipSourceCode_file_iff doublestarMatch GOOS.unix "cloudbase-1.zip" [] "app" scenario3
     ["src/**/*.go"] [] (by decide) (by decide)).1,
   (zipSourceCode_file_iff doublestarMatch GOOS.unix "cloudbase-1.zip" [] "app" scenario3
     ["src/**/*.go"] [] (by decide) (by decide)).2,
   hacc, by decide, by decide, by decide, by decide⟩

/-- C4, as worded, fails: in the tree that holds the directory `node_modules`
only, the exclude pattern `node_modules` matches that directory, yet with the
malformed pattern `[` standing before it in the list `zipSourceCode` fails,
while for the tree with the directory taken out it returns an empty archive;
and with the exclude list `node_modules` alone it fails on a host where that
directory cannot be listed, the walk handing the error to the callback before
any pattern is looked at. -/
theorem prune_after_rejected_pattern :
    Member.mk ["node_modules"] true [] ∈
      membersOf [] [.dir "node_modules" [.dir "pkg" [.file "index.js" [105]]]] ∧
    doublestarMatch "node_modules" (Rel GOOS.unix ["node_modules"]) = .ok true ∧
    zipSourceCodeOn sampleHost doublestarMatch GOOS.unix []
        (.dir "app" [.dir "node_modules" [.dir "pkg" [.file "index.js" [105]]]])
        (some (ZipOptions.mk [] ["[", "node_modules"])) =
      (.error "压缩文件失败: 匹配排除规则失败: syntax error in pattern",
        [("/tmp/cloudbase-1.zip", [])]) ∧
    zipSourceCodeOn sampleHost doublestarMatch GOOS.unix []
        (.dir "app" (removePath ["node_modules"]
          [.dir "node_modules" [.dir "pkg" [.file "index.js" [105]]]]))
        (some (ZipOptions.mk [] ["[", "node_modules"])) =
      (.ok "/tmp/cloudbase-1.zip", [("/tmp/cloudbase-1.zip", [])]) ∧
    zipSourceCodeOn unreadableHost doublestarMatch GOOS.unix []
        (.dir "app" [.dir "node_modules" [.dir "pkg" [.file "index.js" [105]]]])
        (some (ZipOptions.mk [] ["node_modules"])) =
      (.error "压缩文件失败: open node_modules: permission denied",
        [("/tmp/cloudbase-1.zip", [])]) ∧
    zipSourceCodeOn unreadableHost doublestarMatch GOOS.unix []
        (.dir "app" (removePath ["node_modules"]
          [.dir "node_modules" [.dir "pkg" [.file "index.js" [105]]]]))
        (some (ZipOptions.mk [] ["node_modules"])) =
      (.ok "/tmp/cloudbase-1.zip", [("/tmp/cloudbase-1.zip", [])]) := by
  decide

/-- C4, amended: when an exclude pattern matches the relative path of a
directory of the tree and every exclude pattern standing before it in the list
answers that path with no match, then on a host where that directory can be
examined and listed (and the new temporary file does not stand at its path)
`zipSourceCode` returns for the tree exactly what it returns for the tree with
that directory taken out, whatever patterns stand after it; it succeeds when
the matcher accepts every pattern and no file-system call fails; and no archive
it returns has an entry for that directory or for any path under it. -/
theorem zipSourceCode_prune (host : Host) (m : Matcher) (goos : GOOS) (disk : Disk)
    (name : String) (children : List Node) (opts : ZipOptions) (tmpFile : TempFile)
    (hc : host.CreateTemp = .ok tmpFile)
    (hv : validNodes goos (host.listing tmpFile children) = true)
    (dir : List String)
    (hd : Member.mk dir true [] ∈ membersOf [] (host.listing tmpFile children))
    (hm : ∃ pre p post, opts.ExcludeList = pre ++ p :: post ∧
      (∀ x ∈ pre, m x (Rel goos dir) = .ok false) ∧ m p (Rel goos dir) = .ok true) :
    ((∀ q, host.TempDir = some q → dir ≠ q ++ [tmpFile.Base]) →
      host.Lstat dir = none → host.ReadDir dir = none →
      zipSourceCodeOn host m goos disk (.dir name (removePath dir children)) (some opts) =
        zipSourceCodeOn host m goos disk (.dir name children) (some opts)) ∧
    (NoFaults host → (∀ p ∈ opts.ExcludeList, Accepts m p) →
      (∀ p ∈ opts.IncludeList, Accepts m p) →
      ∃ archive : Archive,
        zipSourceCodeOn host m goos disk (.dir name children) (some opts) =
          (.ok tmpFile.Name, (tmpFile.Name, archive) :: disk)) ∧
    ∀ (zipFile : String) (disk1 : Disk),
      zipSourceCodeOn host m goos disk (.dir name children) (some opts) =
        (.ok zipFile, disk1) →
      ∃ archive : Archive, zipFile = tmpFile.Name ∧ disk1 = (tmpFile.Name, archive) :: disk ∧
        ∀ e ∈ archive, ∀ q, dir <+: q → (∀ s ∈ q, ValidName goos s) →
          e.name ≠ Rel goos q ∧ e.name ≠ Rel goos q ++ "/" := by
  have hne : dir ≠ [] := membersOf_path_ne_nil _ [] _ hd
  have hval := membersOf_valid goos _ [] _ hd hv (by simp)
  obtain ⟨pre, p, post, hl, hpre, hp⟩ := hm
  have hany : matchesAny m opts.ExcludeList (Rel goos dir) = true :=
    (matchesAny_iff m _ _).mpr ⟨p, by rw [hl]; simp, hp⟩
  have hex : excluded m goos opts.ExcludeList dir = true :=
    (excluded_iff m goos _ _).mpr ⟨dir, hne, List.prefix_refl _, hany⟩
  have hmatch : matchExclude m (Rel goos dir) opts.ExcludeList = .ok true := by
    rw [hl]
    exact matchExclude_first_match m _ p post pre hpre hp
  refine ⟨fun hx hL hR => zipSourceCodeOn_removePath host m goos disk name children opts
    tmpFile hc dir hne hx hL hR (Rel_ne_dot goos dir hne hval) hmatch, ?_, ?_⟩
  · intro hn hexc hinc
    rw [zipSourceCodeOn_noFaults host hn tmpFile hc, Host.walked_dir]
    exact ⟨_, zipSourceCode_dir m goos tmpFile.Name disk name _ opts hv hexc hinc⟩
  · intro zipFile disk1 h
    obtain ⟨t, ht, h0⟩ := zipSourceCodeOn_ok host m goos disk _ _ zipFile disk1 h
    rw [hc] at ht
    cases Except.ok.inj ht
    rw [Host.walked_dir] at h0
    obtain ⟨h1, h2⟩ := zipSourceCode_ok m goos tmpFile.Name disk name _ _ hv zipFile disk1 h0
    refine ⟨_, h1, h2, ?_⟩
    intro e he q hq vq
    exact no_entry_under_excluded m goos opts _
      (validNodes_readDirNames goos _ (validNodes_sort goos _ hv)) dir hne hex e he q hq vq

/-- C4, amended, at scenario 2 with the exclude list `node_modules`, `[`: the
directory `node_modules` is matched by the first pattern, so the tree and the
tree without `node_modules` give the same result, here the failure on `src`,
for which the malformed pattern is evaluated; and with the exclude list
`node_modules` alone, on a host where the packaged directory is the temporary
directory, both give the archive of the temporary file, `src/` and
`src/main.go`. -/
theorem zipSourceCode_prune_witness :
    sampleHost.CreateTemp = .ok (TempFile.mk "/tmp/cloudbase-1.zip" "cloudbase-1.zip") ∧
    validNodes GOOS.unix
      (sampleHost.listing (TempFile.mk "/tmp/cloudbase-1.zip" "cloudbase-1.zip") scenario2) =
      true ∧
    Member.mk ["node_modules"] true [] ∈ membersOf []
      (sampleHost.listing (TempFile.mk "/tmp/cloudbase-1.zip" "cloudbase-1.zip") scenario2) ∧
    (∃ pre p post, (ZipOptions.mk [] ["node_modules", "["]).ExcludeList = pre ++ p :: post ∧
      (∀ x ∈ pre, doublestarMatch x (Rel GOOS.unix ["node_modules"]) = .ok false) ∧
      doublestarMatch p (Rel GOOS.unix ["node_modules"]) = .ok true) ∧
    zipSourceCodeOn sampleHost doublestarMatch GOOS.unix []
        (.dir "app" (removePath ["node_modules"] scenario2))
        (some (ZipOptions.mk [] ["node_modules", "["])) =
      zipSourceCodeOn sampleHost doublestarMatch GOOS.unix [] (.dir "app" scenario2)
        (some (ZipOptions.mk [] ["node_modules", "["])) ∧
    zipSourceCodeOn sampleHost doublestarMatch GOOS.unix [] (.dir "app" scenario2)
        (some (ZipOptions.mk [] ["node_modules", "["])) =
      (.error "压缩文件失败: 匹配排除规则失败: syntax error in pattern",
        [("/tmp/cloudbase-1.zip", [])]) ∧
    zipSourceCodeOn (tempDirHost "cloudbase-1.zip") doublestarMatch GOOS.unix []
        (.dir "tmp" (removePath ["node_modules"] scenario2))
        (some (ZipOptions.mk [] ["node_modules"])) =
      zipSourceCodeOn (tempDirHost "cloudbase-1.zip") doublestarMatch GOOS.unix []
        (.dir "tmp" scenario2) (some (ZipOptions.mk [] ["node_modules"])) ∧
    zipSourceCodeOn (tempDirHost "cloudbase-1.zip") doublestarMatch GOOS.unix []
        (.dir "tmp" scenario2) (some (ZipOptions.mk [] ["node_modules"])) =
      (.ok "/tmp/cloudbase-1.zip", [("/tmp/cloudbase-1.zip",
        [ZipEntry.mk "cloudbase-1.zip" false [], ZipEntry.mk "src/" true [],
         ZipEntry.mk "src/main.go" false [109]])]) :=
  ⟨rfl, by decide, by decide,
   ⟨[], "node_modules", ["["], rfl, by simp, by decide⟩,
   (zipSourceCode_prune sampleHost doublestarMatch GOOS.unix [] "app" scenario2
     (ZipOptions.mk [] ["node_modules", "["])
     (TempFile.mk "/tmp/cloudbase-1.zip" "cloudbase-1.zip") rfl (by decide) ["node_modules"]
     (by decide) ⟨[], "node_modules", ["["], rfl, by simp, by decide⟩).1
     (fun _ h => nomatch h) rfl rfl,
   by decide,
   (zipSourceCode_prune (tempDirHost "cloudbase-1.zip") doublestarMatch GOOS.unix [] "tmp"
     scenario2 (ZipOptions.mk [] ["node_modules"])
     (TempFile.mk "/tmp/cloudbase-1.zip" "cloudbase-1.zip") rfl (by decide) ["node_modules"]
     (by decide) ⟨[], "node_modules", [], rfl, by simp, by decide⟩).1
     (fun q h => by cases h; decide) rfl rfl,
   by decide⟩

/-- C5, as worded, fails: when the packaged directory is the temporary
directory itself, holding `a.txt` and `b.log`, then with the exclude pattern
`*.log` the archive holds, besides `a.txt`, an entry for the temporary file
that `zipSourceCode` has just created there. -/
theorem temp_file_among_kept :
    zipSourceCodeOn (tempDirHost "cloudbase-1.zip") doublestarMatch GOOS.unix []
        (.dir "tmp" [.file "a.txt" [97], .file "b.log" [98]])
        (some (ZipOptions.mk [] ["*.log"])) =
      (.ok "/tmp/cloudbase-1.zip",
        [("/tmp/cloudbase-1.zip",
          [ZipEntry.mk "a.txt" false [97], ZipEntry.mk "cloudbase-1.zip" false []])]) ∧
    Member.mk ["cloudbase-1.zip"] false [] ∉
      membersOf [] [.file "a.txt" [97], .file "b.log" [98]] := by
  decide

/-- C5, amended: with an empty include list, every archive `zipSourceCode`
returns holds exactly the files and directories of the tree as the walk finds
it for which neither their own relative path nor that of a directory above
them matches an exclude pattern; when the temporary directory is not the
packaged directory or a directory below it, these are files and directories
below the root, and one of those has an entry if and only if no exclude pattern
matches it or a directory above it.  The call succeeds when the matcher accepts
every exclude pattern, on a host where no file-system call of the walk
fails. -/
theorem zipSourceCode_exclude_only (host : Host) (m : Matcher) (goos : GOOS) (disk : Disk)
    (name : String) (children : List Node) (exclude : List String) (tmpFile : TempFile)
    (hc : host.CreateTemp = .ok tmpFile)
    (hv : validNodes goos (host.listing tmpFile children) = true) :
    (NoFaults host → (∀ p ∈ exclude, Accepts m p) →
      ∃ archive : Archive,
        zipSourceCodeOn host m goos disk (.dir name children)
            (some (ZipOptions.mk [] exclude)) =
          (.ok tmpFile.Name, (tmpFile.Name, archive) :: disk)) ∧
    ∀ (zipFile : String) (disk1 : Disk),
      zipSourceCodeOn host m goos disk (.dir name children) (some (ZipOptions.mk [] exclude)) =
        (.ok zipFile, disk1) →
      ∃ archive : Archive, zipFile = tmpFile.Name ∧ disk1 = (tmpFile.Name, archive) :: disk ∧
        archive.Perm (((membersOf [] (host.listing tmpFile children)).filter
          (fun x => !excluded m goos exclude x.path)).map (entryOf goos)) ∧
        (host.TempDir = none →
          archive.Perm (((membersOf [] children).filter
            (fun x => !excluded m goos exclude x.path)).map (entryOf goos)) ∧
          ∀ x ∈ membersOf [] children,
            (entryOf goos x ∈ archive ↔
              ∀ q, q ≠ [] → q <+: x.path → ∀ p ∈ exclude, m p (Rel goos q) ≠ .ok true)) := by
  constructor
  · intro hn hexc
    rw [zipSourceCodeOn_noFaults host hn tmpFile hc, Host.walked_dir]
    exact ⟨_, zipSourceCode_dir m goos tmpFile.Name disk name _ (ZipOptions.mk [] exclude) hv
      hexc (by simp)⟩
  · intro zipFile disk1 h
    obtain ⟨t, ht, h1⟩ := zipSourceCodeOn_ok host m goos disk _ _ zipFile disk1 h
    rw [hc] at ht
    cases Except.ok.inj ht
    rw [Host.walked_dir] at h1
    obtain ⟨h2, h3⟩ := zipSourceCode_ok m goos tmpFile.Name disk name _ _ hv zipFile disk1 h1
    have hk : kept m goos (ZipOptions.mk [] exclude) =
        fun x => !excluded m goos exclude x.path := by
      funext x; simp [kept]
    have hp := filtered_perm m goos (host.listing tmpFile children) (ZipOptions.mk [] exclude)
    refine ⟨_, h2, h3, ?_, fun ht => ?_⟩
    · rw [← hk]
      exact hp
    · rw [Host.listing_outside host tmpFile children ht] at hp hv ⊢
      refine ⟨?_, fun x hx => ?_⟩
      · rw [← hk]
        exact hp
      · rw [mem_archive_iff m goos _ children hv _ hp x hx, kept_iff]
        simp

/-- C5, amended, at scenario 1 on a host whose temporary directory lies outside
the packaged directory and where no call fails: with exclude `*.log` the
archive is `a.txt`, `sub/`, `sub/c.txt`. -/
theorem zipSourceCode_exclude_only_witness :
    sampleHost.CreateTemp = .ok (TempFile.mk "/tmp/cloudbase-1.zip" "cloudbase-1.zip") ∧
    validNodes GOOS.unix
      (sampleHost.listing (TempFile.mk "/tmp/cloudbase-1.zip" "cloudbase-1.zip") scenario1) =
      true ∧
    NoFaults sampleHost ∧ (∀ p ∈ ["*.log"], Accepts doublestarMatch p) ∧
    (∃ archive : Archive,
      zipSourceCodeOn sampleHost doublestarMatch GOOS.unix [] (.dir "app" scenario1)
          (some (ZipOptions.mk [] ["*.log"])) =
        (.ok "/tmp/cloudbase-1.zip", [("/tmp/cloudbase-1.zip", archive)])) ∧
    zipSourceCodeOn sampleHost doublestarMatch GOOS.unix [] (.dir "app" scenario1)
        (some (ZipOptions.mk [] ["*.log"])) =
      (.ok "/tmp/cloudbase-1.zip", [("/tmp/cloudbase-1.zip",
        [ZipEntry.mk "a.txt" false [97], ZipEntry.mk "sub/" true [],
         ZipEntry.mk "sub/c.txt" false [99]])]) :=
  have hacc : ∀ p ∈ ["*.log"], Accepts doublestarMatch p := by
    intro p hp
    rw [List.mem_singleton] at hp
    subst hp
    exact fun _ => ⟨_, rfl⟩
  ⟨rfl, by decide, noFaults_sampleHost, hacc,
   (zipSourceCode_exclude_only sampleHost doublestarMatch GOOS.unix [] "app" scenario1
     ["*.log"] (TempFile.mk "/tmp/cloudbase-1.zip" "cloudbase-1.zip") rfl (by decide)).1
     noFaults_sampleHost hacc,
   by decide⟩

/-- C6, as worded, fails: with the malformed exclude pattern `[` an empty root
is packaged without error, and so is a tree whose only file is decided by the
pattern `*` that stands before `[`; and where the call does fail on the
pattern, the error is the matcher's text behind two fixed prefixes, in which
the pattern does not occur. -/
theorem invalid_pattern_not_reached :
    Rejects doublestarMatch "[" ErrBadPattern ∧
    zipSourceCodeOn sampleHost doublestarMatch GOOS.unix [] (.dir "app" [])
        (some (ZipOptions.mk [] ["["])) =
      (.ok "/tmp/cloudbase-1.zip", [("/tmp/cloudbase-1.zip", [])]) ∧
    zipSourceCodeOn sampleHost doublestarMatch GOOS.unix [] (.dir "app" [.file "a.txt" [97]])
        (some (ZipOptions.mk ["*", "["] [])) =
      (.ok "/tmp/cloudbase-1.zip",
        [("/tmp/cloudbase-1.zip", [ZipEntry.mk "a.txt" false [97]])]) ∧
    zipSourceCodeOn sampleHost doublestarMatch GOOS.unix [] (.dir "app" [.file "a.txt" [97]])
        (some (ZipOptions.mk [] ["["])) =
      (.error "压缩文件失败: 匹配排除规则失败: syntax error in pattern",
        [("/tmp/cloudbase-1.zip", [])]) :=
  ⟨fun _ => rfl, by decide, by decide, by decide⟩

/-- C6, amended: if the tree as the walk finds it holds an object whose
filtering runs into a pattern the matcher rejects (no directory above the
object is excluded, and the rejected pattern stands in the exclude list with no
exclude pattern before it matching the object, or it stands in the include list
while no exclude pattern matches the object and no include pattern before it
does), then `zipSourceCode` fails, returning an error and no path; and on a
host where no file-system call of the walk fails, the error is then the text
with which the matcher rejects a pattern on such an object, behind the two
fixed prefixes: the pattern is not added to it. -/
theorem zipSourceCode_fails_on_rejected_pattern (host : Host) (m : Matcher) (goos : GOOS)
    (disk : Disk) (name : String) (children : List Node) (opts : ZipOptions)
    (tmpFile : TempFile) (hc : host.CreateTemp = .ok tmpFile)
    (hv : validNodes goos (host.listing tmpFile children) = true)
    (x : Member) (hx : x ∈ membersOf [] (host.listing tmpFile children)) (msg : String)
    (hf : FailsAt m goos opts x msg) :
    ∃ (e : String) (disk1 : Disk),
      zipSourceCodeOn host m goos disk (.dir name children) (some opts) = (.error e, disk1) ∧
      (NoFaults host →
        ∃ y ∈ membersOf [] (host.listing tmpFile children), ∃ msg1,
          FailsAt m goos opts y msg1 ∧ e = "压缩文件失败: " ++ msg1 ∧
          ∃ p ∈ opts.ExcludeList ++ opts.IncludeList, ∃ text,
            m p (Rel goos y.path) = .error text ∧
            (msg1 = "匹配排除规则失败: " ++ text ∨ msg1 = "匹配包含规则失败: " ++ text)) := by
  have hshape : ∀ (y : Member) (msg1 : String), FailsAt m goos opts y msg1 →
      ∃ p ∈ opts.ExcludeList ++ opts.IncludeList, ∃ text,
        m p (Rel goos y.path) = .error text ∧
        (msg1 = "匹配排除规则失败: " ++ text ∨ msg1 = "匹配包含规则失败: " ++ text) := by
    intro y msg1 hy
    rcases hy.2 with ⟨pre, p, post, e, hl, _, hp, hm⟩ | ⟨_, pre, p, post, e, hl, _, hp, hm⟩
    · exact ⟨p, by rw [hl]; simp, e, hp, Or.inl hm⟩
    · exact ⟨p, by rw [hl]; simp, e, hp, Or.inr hm⟩
  rcases hr : zipSourceCodeOn host m goos disk (.dir name children) (some opts) with ⟨r, disk1⟩
  cases r with
  | ok p =>
    exfalso
    obtain ⟨t, ht, h1⟩ := zipSourceCodeOn_ok host m goos disk _ _ p disk1 hr
    rw [hc] at ht
    cases Except.ok.inj ht
    rw [Host.walked_dir] at h1
    rcases zipSourceCode_trace m goos tmpFile.Name disk name _ opts hv with
      ⟨zw1, msg2, y, h2, _, _⟩ | ⟨_, hnone⟩
    · rw [h2] at h1
      exact Except.noConfusion (Prod.mk.inj h1).1
    · exact hnone x hx msg hf
  | error e =>
    refine ⟨e, disk1, rfl, fun hn => ?_⟩
    rw [zipSourceCodeOn_noFaults host hn tmpFile hc, Host.walked_dir] at hr
    rcases zipSourceCode_trace m goos tmpFile.Name disk name _ opts hv with
      ⟨zw1, msg2, y, h2, hy, hf2⟩ | ⟨⟨archive, h2⟩, _⟩
    · rw [h2] at hr
      exact ⟨y, hy, msg2, hf2, (Except.error.inj (Prod.mk.inj hr).1).symm, hshape y msg2 hf2⟩
    · rw [h2] at hr
      exact Except.noConfusion (Prod.mk.inj hr).1

/-- C6, amended, at a tree whose first file is `a.txt`: the exclude list
`*.log`, `[` fails on it, and the error does not name the pattern. -/
theorem zipSourceCode_fails_on_rejected_pattern_witness :
    sampleHost.CreateTemp = .ok (TempFile.mk "/tmp/cloudbase-1.zip" "cloudbase-1.zip") ∧
    validNodes GOOS.unix
      (sampleHost.listing (TempFile.mk "/tmp/cloudbase-1.zip" "cloudbase-1.zip")
        [.file "b.log" [98], .file "a.txt" [97]]) = true ∧
    Member.mk ["a.txt"] false [97] ∈
      membersOf [] (sampleHost.listing (TempFile.mk "/tmp/cloudbase-1.zip" "cloudbase-1.zip")
        [.file "b.log" [98], .file "a.txt" [97]]) ∧
    FailsAt doublestarMatch GOOS.unix (ZipOptions.mk [] ["*.log", "["])
      (Member.mk ["a.txt"] false [97]) "匹配排除规则失败: syntax error in pattern" ∧
    (∃ (e : String) (disk1 : Disk),
      zipSourceCodeOn sampleHost doublestarMatch GOOS.unix []
          (.dir "app" [.file "b.log" [98], .file "a.txt" [97]])
          (some (ZipOptions.mk [] ["*.log", "["])) = (.error e, disk1) ∧
      (NoFaults sampleHost →
        ∃ y ∈ membersOf []
            (sampleHost.listing (TempFile.mk "/tmp/cloudbase-1.zip" "cloudbase-1.zip")
              [.file "b.log" [98], .file "a.txt" [97]]), ∃ msg1,
          FailsAt doublestarMatch GOOS.unix (ZipOptions.mk [] ["*.log", "["]) y msg1 ∧
          e = "压缩文件失败: " ++ msg1 ∧
          ∃ p ∈ (ZipOptions.mk [] ["*.log", "["]).ExcludeList ++
              (ZipOptions.mk [] ["*.log", "["]).IncludeList, ∃ text,
            doublestarMatch p (Rel GOOS.unix y.path) = .error text ∧
            (msg1 = "匹配排除规则失败: " ++ text ∨ msg1 = "匹配包含规则失败: " ++ text))) ∧
    zipSourceCodeOn sampleHost doublestarMatch GOOS.unix []
        (.dir "app" [.file "b.log" [98], .file "a.txt" [97]])
        (some (ZipOptions.mk [] ["*.log", "["])) =
      (.error "压缩文件失败: 匹配排除规则失败: syntax error in pattern",
        [("/tmp/cloudbase-1.zip", [])]) :=
  have hf : FailsAt doublestarMatch GOOS.unix (ZipOptions.mk [] ["*.log", "["])
      (Member.mk ["a.txt"] false [97]) "匹配排除规则失败: syntax error in pattern" :=
    ⟨by decide, Or.inl ⟨["*.log"], "[", [], ErrBadPattern, rfl, by decide, by decide, by decide⟩⟩
  ⟨rfl, by decide, by decide, hf,
   zipSourceCode_fails_on_rejected_pattern sampleHost doublestarMatch GOOS.unix [] "app"
     [.file "b.log" [98], .file "a.txt" [97]] (ZipOptions.mk [] ["*.log", "["])
     (TempFile.mk "/tmp/cloudbase-1.zip" "cloudbase-1.zip") rfl (by decide)
     (Member.mk ["a.txt"] false [97]) (by decide) _ hf,
   by decide⟩

/-- C7 on the code: when packaging fails on the malformed exclude pattern `[`,
both `prepareAndUploadCode` and the customize-diff function return with the
temporary archive still in the temporary directory; when packaging succeeds the
archive is removed, also when the upload is answered with 404. -/
theorem temp_archive_left_on_zip_error :
    prepareAndUploadCode doublestarMatch GOOS.unix "cloudbase-1.zip" (sampleNet 200 "200 OK") []
        (ResourceData.mk "package" none (some ["["])) sampleService "svc" "env"
        (.dir "app" [.file "a.txt" [97]]) =
      (.error "代码压缩失败: 压缩文件失败: 匹配排除规则失败: syntax error in pattern",
        [("cloudbase-1.zip", [])]) ∧
    resourceTencentCloudCloudbaseRunCustomizeDiff doublestarMatch GOOS.unix "cloudbase-1.zip"
        (Codec.mk (fun _ => []) (fun _ => [])) []
        (ResourceData.mk "package" none (some ["["])) (.dir "app" [.file "a.txt" [97]]) =
      (DiffOutcome.mk
        (some "计算源代码哈希值失败: 压缩文件失败: 匹配排除规则失败: syntax error in pattern") none,
        [("cloudbase-1.zip", [])]) ∧
    prepareAndUploadCode doublestarMatch GOOS.unix "cloudbase-1.zip" (sampleNet 200 "200 OK") []
        (ResourceData.mk "package" none none) sampleService "svc" "env"
        (.dir "app" [.file "a.txt" [97]]) =
      (.ok (uploadResult.mk "pkg" "v1"), []) ∧
    prepareAndUploadCode doublestarMatch GOOS.unix "cloudbase-1.zip"
        (sampleNet 404 "404 Not Found") []
        (ResourceData.mk "package" none none) sampleService "svc" "env"
        (.dir "app" [.file "a.txt" [97]]) =
      (.error "上传文件失败: HTTP 错误: 404 Not Found", []) := by
  decide

/-- C8, as stated, fails on a host whose separator is the backslash: the file
`a.go` in the directory `src` is written under the name `src\a.go`, not under
the forward-slash path `src/a.go`. -/
theorem backslash_host_entry_name :
    zipSourceCode doublestarMatch GOOS.windows "cloudbase-1.zip" []
        (.dir "app" [.dir "src" [.file "a.go" [97]]]) (some (ZipOptions.mk [] [])) =
      (.ok "cloudbase-1.zip", [("cloudbase-1.zip",
        [ZipEntry.mk "src/" true [], ZipEntry.mk "src\\a.go" false [97]])]) ∧
    ZipEntry.mk "src/a.go" false [97] ∉
      [ZipEntry.mk "src/" true [], ZipEntry.mk "src\\a.go" false [97]] := by
  decide

/-- C8, amended: every entry `zipSourceCode` writes belongs to an object below
the root, and its name is that object's relative path as `filepath.Rel` gives
it, the names joined by the host's separator (the slash on a host whose
separator is the slash).  A directory's name is the relative path followed by
one slash and it has no content; a file's name is the relative path, which
does not end in a slash, and it has the file's bytes.  No entry is named `.`
or `./`.  The call succeeds when the matcher accepts every pattern. -/
theorem zipSourceCode_entry_names (m : Matcher) (goos : GOOS) (tmp : String) (disk : Disk)
    (name : String) (children : List Node) (opts : ZipOptions)
    (hv : validNodes goos children = true) :
    ((∀ p ∈ opts.ExcludeList, Accepts m p) → (∀ p ∈ opts.IncludeList, Accepts m p) →
      ∃ archive : Archive,
        zipSourceCode m goos tmp disk (.dir name children) (some opts) =
          (.ok tmp, (tmp, archive) :: disk)) ∧
    ∀ (zipFile : String) (disk1 : Disk),
      zipSourceCode m goos tmp disk (.dir name children) (some opts) = (.ok zipFile, disk1) →
      ∃ archive : Archive, zipFile = tmp ∧ disk1 = (tmp, archive) :: disk ∧
        ∀ e ∈ archive, ∃ x ∈ membersOf [] children,
          x.path ≠ [] ∧
          Rel goos x.path = joinPath (String.singleton (PathSeparator goos)) x.path ∧
          (goos = GOOS.unix → Rel goos x.path = joinPath "/" x.path) ∧
          (∀ t, Rel goos x.path ≠ t ++ "/") ∧
          ((x.isDir = true ∧ e = ZipEntry.mk (Rel goos x.path ++ "/") true []) ∨
            (x.isDir = false ∧ e = ZipEntry.mk (Rel goos x.path) false x.content)) ∧
          e.name ≠ "." ∧ e.name ≠ "./" := by
  constructor
  · intro hexc hinc
    exact ⟨_, zipSourceCode_dir m goos tmp disk name children opts hv hexc hinc⟩
  · intro zipFile disk1 h
    obtain ⟨h1, h2⟩ := zipSourceCode_ok m goos tmp disk name children _ hv zipFile disk1 h
    have hp := filtered_perm m goos children opts
    refine ⟨_, h1, h2, ?_⟩
    intro e he
    exact entry_shape m goos opts children hv e (hp.mem_iff.mp he)

/-- C8, amended, at scenario 1 on a host whose separator is the slash. -/
theorem zipSourceCode_entry_names_witness :
    validNodes GOOS.unix scenario1 = true ∧
    (((∀ p ∈ (ZipOptions.mk [] ["*.log"]).ExcludeList, Accepts doublestarMatch p) →
      (∀ p ∈ (ZipOptions.mk [] ["*.log"]).IncludeList, Accepts doublestarMatch p) →
      ∃ archive : Archive,
        zipSourceCode doublestarMatch GOOS.unix "cloudbase-1.zip" [] (.dir "app" scenario1)
            (some (ZipOptions.mk [] ["*.log"])) =
          (.ok "cloudbase-1.zip", [("cloudbase-1.zip", archive)])) ∧
    ∀ (zipFile : String) (disk1 : Disk),
      zipSourceCode doublestarMatch GOOS.unix "cloudbase-1.zip" [] (.dir "app" scenario1)
          (some (ZipOptions.mk [] ["*.log"])) = (.ok zipFile, disk1) →
      ∃ archive : Archive, zipFile = "cloudbase-1.zip" ∧
        disk1 = [("cloudbase-1.zip", archive)] ∧
        ∀ e ∈ archive, ∃ x ∈ membersOf [] scenario1,
          x.path ≠ [] ∧
          Rel GOOS.unix x.path =
            joinPath (String.singleton (PathSeparator GOOS.unix)) x.path ∧
          (GOOS.unix = GOOS.unix → Rel GOOS.unix x.path = joinPath "/" x.path) ∧
          (∀ t, Rel GOOS.unix x.path ≠ t ++ "/") ∧
          ((x.isDir = true ∧ e = ZipEntry.mk (Rel GOOS.unix x.path ++ "/") true []) ∨
            (x.isDir = false ∧ e = ZipEntry.mk (Rel GOOS.unix x.path) false x.content)) ∧
          e.name ≠ "." ∧ e.name ≠ "./") ∧
    zipSourceCode doublestarMatch GOOS.unix "cloudbase-1.zip" [] (.dir "app" scenario1)
        (some (ZipOptions.mk [] ["*.log"])) =
      (.ok "cloudbase-1.zip", [("cloudbase-1.zip",
        [ZipEntry.mk "a.txt" false [97], ZipEntry.mk "sub/" true [],
         ZipEntry.mk "sub/c.txt" false [99]])]) :=
  ⟨by decide,
   zipSourceCode_entry_names doublestarMatch GOOS.unix "cloudbase-1.zip" [] "app" scenario1
     (ZipOptions.mk [] ["*.log"]) (by decide),
   by decide⟩

/-! ## The claims about `validateCloudbaseRunName` -/

/-- C9, as stated, fails: the name `café` gets no diagnostics although its last
character is none of `a`-`z`, `0`-`9` and the hyphen; the same holds for
`a²`, whose second character is a number to `unicode.IsNumber`. -/
theorem accented_name_accepted :
    (∀ u : UnicodeTables, validateCloudbaseRunName u "café" = []) ∧
    ¬ claimedNameRule "café" ∧
    (∀ u : UnicodeTables, validateCloudbaseRunName u "a²" = []) ∧
    ¬ claimedNameRule "a²" := by
  refine ⟨fun _ => rfl, ?_, fun _ => rfl, ?_⟩
  · intro h
    have h1 := h.2.2.2 'é' (by decide)
    revert h1
    decide
  · intro h
    have h1 := h.2.2.2 '²' (by decide)
    revert h1
    decide

/-- C9, amended: `validateCloudbaseRunName` returns no diagnostics if and only
if the name has between 1 and 39 characters, its first character is a
lowercase letter in the sense of `unicode.IsLower`, and every character is a
lowercase letter in that sense, a number in the sense of `unicode.IsNumber`, or
a hyphen; every other string gets exactly one diagnostic, an error. -/
theorem validateCloudbaseRunName_accepts_iff (u : UnicodeTables) (value : String) :
    (validateCloudbaseRunName u value = [] ↔
      1 ≤ value.length ∧ value.length ≤ 39 ∧
      (∃ r0 rest, value.data = r0 :: rest ∧ IsLower u r0 = true) ∧
      ∀ r ∈ value.data, IsLower u r = true ∨ IsNumber u r = true ∨ r = '-') ∧
    (validateCloudbaseRunName u value ≠ [] →
      ∃ d, validateCloudbaseRunName u value = [d] ∧ d.Severity = Severity.Error) := by
  have hlen : value.length = value.data.length := rfl
  by_cases h : value.data.length > 39 ∨ value.data.length < 1
  · simp only [validateCloudbaseRunName, if_pos h]
    refine ⟨?_, fun _ => ⟨_, rfl, rfl⟩⟩
    constructor
    · intro h0
      simp at h0
    · rintro ⟨h1, h2, _⟩
      omega
  · simp only [validateCloudbaseRunName, if_neg h]
    cases hd : value.data with
    | nil =>
      rw [hd] at h
      simp at h
    | cons r0 rest =>
      have h1 : 1 ≤ value.length ∧ value.length ≤ 39 := by omega
      simp only []
      by_cases hl : IsLower u r0 = true
      · simp only [hl, Bool.not_true, Bool.false_eq_true, if_false]
        constructor
        · rw [checkRunes_eq_nil]
          constructor
          · intro h0
            exact ⟨h1.1, h1.2, ⟨r0, rest, rfl, hl⟩, h0⟩
          · rintro ⟨_, _, _, h0⟩
            exact h0
        · intro hne
          rcases checkRunes_length u (r0 :: rest) with h0 | h0
          · exact absurd h0 hne
          · exact ⟨_, h0, rfl⟩
      · have hl2 : IsLower u r0 = false := by simpa using hl
        simp only [hl2, Bool.not_false, if_true]
        refine ⟨?_, fun _ => ⟨_, rfl, rfl⟩⟩
        constructor
        · intro h0
          simp at h0
        · rintro ⟨_, _, ⟨r1, rest1, h2, h3⟩, _⟩
          simp only [List.cons.injEq] at h2
          rw [← h2.1, hl2] at h3
          simp at h3

/-- C10: a name of no characters, or of more than 39 characters, gets exactly
one diagnostic: the error whose detail is "Name length must be between 1 and
39 characters", whatever the characters are. -/
theorem validateCloudbaseRunName_length (u : UnicodeTables) (value : String)
    (h : value.length = 0 ∨ 39 < value.length) :
    validateCloudbaseRunName u value =
      [Diagnostic.mk Severity.Error "Invalid name length"
        "Name length must be between 1 and 39 characters"] := by
  have hlen : value.length = value.data.length := rfl
  have h1 : value.data.length > 39 ∨ value.data.length < 1 := by omega
  simp only [validateCloudbaseRunName, if_pos h1]

/-- C10 at the name of 69 characters the acceptance test uses, whose characters
are all legal, and at the empty name. -/
theorem validateCloudbaseRunName_length_witness :
    ("this-is-a-very-long-name-that-exceeds-the-limit-of-39-characters-test".length = 0 ∨
      39 < "this-is-a-very-long-name-that-exceeds-the-limit-of-39-characters-test".length) ∧
    validateCloudbaseRunName latin1Tables
        "this-is-a-very-long-name-that-exceeds-the-limit-of-39-characters-test" =
      [Diagnostic.mk Severity.Error "Invalid name length"
        "Name length must be between 1 and 39 characters"] ∧
    validateCloudbaseRunName latin1Tables "" =
      [Diagnostic.mk Severity.Error "Invalid name length"
        "Name length must be between 1 and 39 characters"] :=
  ⟨by decide, validateCloudbaseRunName_length latin1Tables _ (by decide),
   by decide⟩

/-- C11: a name of 1 to 39 characters whose first character is not a lowercase
letter gets exactly one diagnostic: the error whose detail is "Name must start
with a lowercase letter", whatever the characters after the first are. -/
theorem validateCloudbaseRunName_first_char (u : UnicodeTables) (value : String)
    (r0 : Char) (rest : List Char)
    (hlen : 1 ≤ value.length ∧ value.length ≤ 39)
    (hdata : value.data = r0 :: rest)
    (hfirst : IsLower u r0 = false) :
    validateCloudbaseRunName u value =
      [Diagnostic.mk Severity.Error "Invalid name format"
        "Name must start with a lowercase letter"] := by
  have hl : value.length = value.data.length := rfl
  have h1 : ¬ (value.data.length > 39 ∨ value.data.length < 1) := by omega
  simp only [validateCloudbaseRunName, if_neg h1]
  rw [hdata]
  simp only [hfirst, Bool.not_false, if_true]

/-- C11 at the name "Test-cloudbase" of the acceptance test, and at "_a b",
whose later characters are illegal too. -/
theorem validateCloudbaseRunName_first_char_witness :
    (1 ≤ "Test-cloudbase".length ∧ "Test-cloudbase".length ≤ 39) ∧
    validateCloudbaseRunName latin1Tables "Test-cloudbase" =
      [Diagnostic.mk Severity.Error "Invalid name format"
        "Name must start with a lowercase letter"] ∧
    validateCloudbaseRunName latin1Tables "_a b" =
      [Diagnostic.mk Severity.Error "Invalid name format"
        "Name must start with a lowercase letter"] :=
  ⟨by decide,
   validateCloudbaseRunName_first_char latin1Tables "Test-cloudbase" 'T'
     "est-cloudbase".data (by decide) rfl (by decide),
   validateCloudbaseRunName_first_char latin1Tables "_a b" '_' "a b".data (by decide) rfl
     (by decide)⟩

/-- C12: a name of 1 to 39 characters that starts with a lowercase letter and
holds a character that is neither a lowercase letter, a number nor a hyphen
gets exactly one diagnostic: the error whose detail is "Name can only contain
lowercase letters, numbers and hyphens(-)", however many such characters there
are. -/
theorem validateCloudbaseRunName_illegal_char (u : UnicodeTables) (value : String)
    (r0 : Char) (rest : List Char) (r : Char)
    (hlen : 1 ≤ value.length ∧ value.length ≤ 39)
    (hdata : value.data = r0 :: rest)
    (hfirst : IsLower u r0 = true)
    (hmem : r ∈ value.data)
    (hbad : IsLower u r = false ∧ IsNumber u r = false ∧ r ≠ '-') :
    validateCloudbaseRunName u value =
      [Diagnostic.mk Severity.Error "Invalid name format"
        "Name can only contain lowercase letters, numbers and hyphens(-)"] := by
  have hl : value.length = value.data.length := rfl
  have h1 : ¬ (value.data.length > 39 ∨ value.data.length < 1) := by omega
  have h2 : checkRunes u value.data ≠ [] := by
    intro h0
    have h3 := (checkRunes_eq_nil u value.data).mp h0 r hmem
    rw [hbad.1, hbad.2.1] at h3
    rcases h3 with h3 | h3 | h3
    · exact Bool.noConfusion h3
    · exact Bool.noConfusion h3
    · exact hbad.2.2 h3
  have h4 : checkRunes u value.data =
      [Diagnostic.mk Severity.Error "Invalid name format"
        "Name can only contain lowercase letters, numbers and hyphens(-)"] := by
    rcases checkRunes_length u value.data with h5 | h5
    · exact absurd h5 h2
    · exact h5
  simp only [validateCloudbaseRunName, if_neg h1]
  rw [← h4, hdata]
  simp only [hfirst, Bool.not_true, Bool.false_eq_true, if_false]

/-- C12 at the name "test_cloudbase" of the acceptance test, and at "a_b c!",
which holds three illegal characters. -/
theorem validateCloudbaseRunName_illegal_char_witness :
    (1 ≤ "test_cloudbase".length ∧ "test_cloudbase".length ≤ 39) ∧
    validateCloudbaseRunName latin1Tables "test_cloudbase" =
      [Diagnostic.mk Severity.Error "Invalid name format"
        "Name can only contain lowercase letters, numbers and hyphens(-)"] ∧
    validateCloudbaseRunName latin1Tables "a_b c!" =
      [Diagnostic.mk Severity.Error "Invalid name format"
        "Name can only contain lowercase letters, numbers and hyphens(-)"] :=
  ⟨by decide,
   validateCloudbaseRunName_illegal_char latin1Tables "test_cloudbase" 't'
     "est_cloudbase".data '_' (by decide) rfl (by decide) (by decide) (by decide),
   validateCloudbaseRunName_illegal_char latin1Tables "a_b c!" 'a' "_b c!".data '!'
     (by decide) rfl (by decide) (by decide) (by decide)⟩

/-- C13, as worded, fails: a response with status 200 whose body cannot be read
to the end makes `uploadFile` return an error, and a response with status 404
whose body cannot be read gives an error without the status line. -/
theorem uploadFile_body_read_failure :
    uploadFile
        (Net.mk (fun _ _ => none)
          (fun _ => .ok (HttpResponse.mk 200 "200 OK" [] (.error "unexpected EOF")))
          (fun _ => (none : Option Unit)))
        [("/tmp/source-1.zip", [])] (UploadOptions.mk "https://upload.example/pkg"
          "/tmp/source-1.zip" "PUT" [] false) =
      .error "读取响应失败: unexpected EOF" ∧
    uploadFile
        (Net.mk (fun _ _ => none)
          (fun _ => .ok (HttpResponse.mk 404 "404 Not Found" [] (.error "unexpected EOF")))
          (fun _ => (none : Option Unit)))
        [("/tmp/source-1.zip", [])] (UploadOptions.mk "https://upload.example/pkg"
          "/tmp/source-1.zip" "PUT" [] false) =
      .error "读取响应失败: unexpected EOF" := by
  constructor <;> rfl

/-- C13, amended: for every response `uploadFile` receives, if reading its body
fails the call returns the error "读取响应失败: " followed by the read error,
whatever the status code is; and if the body is read to the end, the call
returns an error if and only if the status code is below 200 or at least 300,
that error is "HTTP 错误: " followed by the status line of the response, and
for a status code from 200 to 299 it returns the result holding the status
code, the status line, the headers and the file name, whatever the bytes of the
body are and whatever the JSON decoder makes of them. -/
theorem uploadFile_status {J : Type} (net : Net J) (disk : Disk) (opts : UploadOptions)
    (file : Archive) (resp : HttpResponse)
    (hfile : disk.read opts.File = some file)
    (hreq : net.NewRequest (if opts.Method = "" then "POST" else opts.Method) opts.Action = none)
    (hdo : net.Do (HttpRequest.mk (if opts.Method = "" then "POST" else opts.Method)
      opts.Action opts.Headers file) = .ok resp) :
    (∀ err, resp.Body = .error err →
      uploadFile net disk opts = .error ("读取响应失败: " ++ err)) ∧
    (∀ body, resp.Body = .ok body →
      ((∃ e, uploadFile net disk opts = .error e) ↔
        (resp.StatusCode < 200 ∨ resp.StatusCode ≥ 300)) ∧
      (∀ e, uploadFile net disk opts = .error e → e = "HTTP 错误: " ++ resp.Status) ∧
      (200 ≤ resp.StatusCode ∧ resp.StatusCode < 300 →
        uploadFile net disk opts = .ok (UploadResult.mk
          (if body.length > 0 then net.Unmarshal body else none)
          resp.StatusCode resp.Status resp.Header opts.File))) := by
  constructor
  · intro err hbody
    simp only [uploadFile, hfile, hreq, hdo, hbody]
  · intro body hbody
    have hu : uploadFile net disk opts =
        if resp.StatusCode < 200 ∨ resp.StatusCode ≥ 300 then
          .error ("HTTP 错误: " ++ resp.Status)
        else .ok (UploadResult.mk (if body.length > 0 then net.Unmarshal body else none)
          resp.StatusCode resp.Status resp.Header opts.File) := by
      simp only [uploadFile, hfile, hreq, hdo, hbody]
    by_cases hs : resp.StatusCode < 200 ∨ resp.StatusCode ≥ 300
    · rw [hu, if_pos hs]
      refine ⟨⟨fun _ => hs, fun _ => ⟨_, rfl⟩⟩, ?_, ?_⟩
      · intro e he
        exact (Except.error.inj he).symm
      · intro h2
        omega
    · rw [hu, if_neg hs]
      refine ⟨⟨?_, fun h => absurd h hs⟩, ?_, fun _ => rfl⟩
      · rintro ⟨e, he⟩
        cases he
      · intro e he
        cases he

/-- C13, amended, at a server answering 404 with the body "not found", which is
not JSON: the call fails with the status line in its error; and at a server
whose answer 200 breaks off in the body: the call fails with the read error. -/
theorem uploadFile_status_witness :
    uploadFile
        (Net.mk (fun _ _ => none)
          (fun _ => .ok (HttpResponse.mk 404 "404 Not Found" []
            (.ok [110, 111, 116, 32, 102, 111, 117, 110, 100])))
          (fun _ => (none : Option Unit)))
        [("/tmp/source-1.zip", [])] (UploadOptions.mk "https://upload.example/pkg"
          "/tmp/source-1.zip" "PUT" [] false) =
      .error "HTTP 错误: 404 Not Found" ∧
    uploadFile
        (Net.mk (fun _ _ => none)
          (fun _ => .ok (HttpResponse.mk 200 "200 OK" [] (.error "unexpected EOF")))
          (fun _ => (none : Option Unit)))
        [("/tmp/source-1.zip", [])] (UploadOptions.mk "https://upload.example/pkg"
          "/tmp/source-1.zip" "PUT" [] false) =
      .error "读取响应失败: unexpected EOF" :=
  ⟨(((uploadFile_status
      (Net.mk (fun _ _ => none)
        (fun _ => .ok (HttpResponse.mk 404 "404 Not Found" []
          (.ok [110, 111, 116, 32, 102, 111, 117, 110, 100])))
        (fun _ => (none : Option Unit)))
      [("/tmp/source-1.zip", [])] (UploadOptions.mk "https://upload.example/pkg"
        "/tmp/source-1.zip" "PUT" [] false)
      [] (HttpResponse.mk 404 "404 Not Found" []
        (.ok [110, 111, 116, 32, 102, 111, 117, 110, 100])) rfl rfl rfl).2
      [110, 111, 116, 32, 102, 111, 117, 110, 100] rfl).1.mpr (Or.inr (by decide))).elim
    (fun e he =>
      he.trans (congrArg Except.error
        (((uploadFile_status
          (Net.mk (fun _ _ => none)
            (fun _ => .ok (HttpResponse.mk 404 "404 Not Found" []
              (.ok [110, 111, 116, 32, 102, 111, 117, 110, 100])))
            (fun _ => (none : Option Unit)))
          [("/tmp/source-1.zip", [])] (UploadOptions.mk "https://upload.example/pkg"
            "/tmp/source-1.zip" "PUT" [] false)
          [] (HttpResponse.mk 404 "404 Not Found" []
            (.ok [110, 111, 116, 32, 102, 111, 117, 110, 100])) rfl rfl rfl).2
          [110, 111, 116, 32, 102, 111, 117, 110, 100] rfl).2.1 e he))),
   (uploadFile_status
      (Net.mk (fun _ _ => none)
        (fun _ => .ok (HttpResponse.mk 200 "200 OK" [] (.error "unexpected EOF")))
        (fun _ => (none : Option Unit)))
      [("/tmp/source-1.zip", [])] (UploadOptions.mk "https://upload.example/pkg"
        "/tmp/source-1.zip" "PUT" [] false)
      [] (HttpResponse.mk 200 "200 OK" [] (.error "unexpected EOF")) rfl rfl rfl).1
      "unexpected EOF" rfl⟩

/-- C14, as worded, fails: for the configured exclude list that holds one empty
string the SDK hands out a list whose element is the nil interface, and both
`prepareAndUploadCode` and the customize-diff function panic on the assertion
`item.(string)` before `zipSourceCode` is called. -/
theorem empty_string_pattern_panics :
    prepareAndUploadCodeOn sampleHost doublestarMatch GOOS.unix (sampleNet 200 "200 OK") []
        (sampleSchemaData "package" none (some [none]) "") sampleService "svc" "env-1"
        sampleProcess.Getwd =
      (.typeAssertion, []) ∧
    resourceTencentCloudCloudbaseRunCustomizeDiffOn sampleHost doublestarMatch GOOS.unix
        (Codec.mk (fun _ => []) (fun _ => [])) [] sampleProcess
        (sampleSchemaData "package" none (some [none]) "") =
      (.typeAssertion, []) := by
  decide

/-- C14, amended: when `source_code_exclude` is not set, `prepareAndUploadCode`
and the customize-diff function call `zipSourceCode` with the exclude list
`.git`, `.terraform*`, `logs`, `node_modules`, `__pycache__`, `venv`,
`terraform.tfstate*`, in this order, and when it is set to a non-empty list of
strings that are all handed out as strings, with that list as configured: each
function returns the error of that call behind its own prefix when the call
fails, and when the call succeeds `prepareAndUploadCode` uploads the file the
call wrote and the customize-diff function sets the digest of that file. -/
theorem exclude_list_passed {J : Type} (host : Host) (m : Matcher) (goos : GOOS)
    (net : Net J) (codec : Codec) (disk : Disk) (proc : Process) (d : SchemaData)
    (service : TcbService) (name envId : String) (buildDir : Node)
    (resp : DescribeCloudBaseBuildServiceResponseParams)
    (uploadUrl packageName : String) (headers : List (String × String))
    (incl excl : List String)
    (hp : d.deploy_type = "package")
    (hs : service.DescribeCloudBaseBuildService name envId =
      .ok (DescribeCloudBaseBuildServiceResponse.mk (some resp)))
    (hu : resp.UploadUrl = some uploadUrl) (hn : resp.PackageName = some packageName)
    (hh : buildHeaders resp.UploadHeaders [] = some headers)
    (hI : (d.source_code_include = none ∧ incl = []) ∨
      d.source_code_include = some (incl.map some))
    (hE : (d.source_code_exclude = none ∧
        excl = [".git", ".terraform*", "logs", "node_modules", "__pycache__", "venv",
          "terraform.tfstate*"]) ∨
      (excl ≠ [] ∧ d.source_code_exclude = some (excl.map some))) :
    (∀ err disk1,
      zipSourceCodeOn host m goos disk buildDir (some (ZipOptions.mk incl excl)) =
        (.error err, disk1) →
      prepareAndUploadCodeOn host m goos net disk d service name envId buildDir =
        (.error ("代码压缩失败: " ++ err), disk1)) ∧
    (∀ zipFile disk1,
      zipSourceCodeOn host m goos disk buildDir (some (ZipOptions.mk incl excl)) =
        (.ok zipFile, disk1) →
      (∀ err, uploadFile net disk1 (UploadOptions.mk uploadUrl zipFile "PUT" headers false) =
          .error err →
        prepareAndUploadCodeOn host m goos net disk d service name envId buildDir =
          (.error ("上传文件失败: " ++ err), disk1.Remove zipFile)) ∧
      (∀ r packageVersion,
        uploadFile net disk1 (UploadOptions.mk uploadUrl zipFile "PUT" headers false) = .ok r →
        resp.PackageVersion = some packageVersion →
        prepareAndUploadCodeOn host m goos net disk d service name envId buildDir =
          (.ok (uploadResult.mk packageName packageVersion), disk1.Remove zipFile))) ∧
    (∀ err disk1,
      zipSourceCodeOn host m goos disk proc.Getwd (some (ZipOptions.mk incl excl)) =
        (.error err, disk1) →
      resourceTencentCloudCloudbaseRunCustomizeDiffOn host m goos codec disk proc d =
        (.error ("计算源代码哈希值失败: " ++ err), disk1)) ∧
    (∀ zipFile disk1 content,
      zipSourceCodeOn host m goos disk proc.Getwd (some (ZipOptions.mk incl excl)) =
        (.ok zipFile, disk1) →
      disk1.read zipFile = some content →
      resourceTencentCloudCloudbaseRunCustomizeDiffOn host m goos codec disk proc d =
        (.ok (some (sprintfHex (codec.Sum256 (codec.zipBytes content)))),
          disk1.Remove zipFile)) := by
  have hE3 : (d.source_code_exclude = none ∧ excl = defaultSourceCodeExclude) ∨
      (d.source_code_exclude = some [] ∧ excl = defaultSourceCodeExclude) ∨
      (∃ l, l ≠ [] ∧ d.source_code_exclude = some l ∧ assertStrings l = some excl) := by
    rcases hE with ⟨h1, h2⟩ | ⟨h1, h2⟩
    · exact Or.inl ⟨h1, h2⟩
    · exact Or.inr (Or.inr ⟨excl.map some, by simpa using h1, h2, assertStrings_map excl⟩)
  have hI3 : (d.source_code_include = none ∧ incl = []) ∨
      (d.source_code_include = some [] ∧ incl = []) ∨
      (∃ l, l ≠ [] ∧ d.source_code_include = some l ∧ assertStrings l = some incl) := by
    rcases hI with h1 | h1
    · exact Or.inl h1
    · by_cases h0 : incl = []
      · subst h0
        exact Or.inr (Or.inl ⟨h1, rfl⟩)
      · exact Or.inr (Or.inr ⟨incl.map some, by simpa using h0, h1, assertStrings_map incl⟩)
  obtain ⟨h1, h2⟩ := prepareAndUploadCodeOn_packaging host m goos net disk d service name envId
    buildDir resp uploadUrl packageName headers incl excl hs hu hn hh hE3 hI3
  obtain ⟨h3, h4⟩ := customizeDiffOn_packaging host m goos codec disk proc d incl excl hp hE3 hI3
  exact ⟨h1, h2, h3, h4⟩

/-- C14, amended, at a configuration that sets no exclude list, in a working
directory holding `main.go` and `app.log`: the hash set is the digest of the
archive packaged with the default list; and at a configuration that sets
`*.log`, `.git`: the hash set is the digest of the archive without `app.log`. -/
theorem exclude_list_passed_witness :
    resourceTencentCloudCloudbaseRunCustomizeDiffOn sampleHost doublestarMatch GOOS.unix
        (Codec.mk (fun _ => []) (fun _ => List.replicate 32 171)) [] sampleProcess
        (sampleSchemaData "package" none none "") =
      (.ok (some (sprintfHex ((Codec.mk (fun _ => []) (fun _ => List.replicate 32 171)).Sum256
          ((Codec.mk (fun _ => []) (fun _ => List.replicate 32 171)).zipBytes
            [ZipEntry.mk "app.log" false [108], ZipEntry.mk "main.go" false [109]])))),
        Disk.Remove [("/tmp/cloudbase-1.zip",
          [ZipEntry.mk "app.log" false [108], ZipEntry.mk "main.go" false [109]])]
          "/tmp/cloudbase-1.zip") ∧
    resourceTencentCloudCloudbaseRunCustomizeDiffOn sampleHost doublestarMatch GOOS.unix
        (Codec.mk (fun _ => []) (fun _ => List.replicate 32 171)) [] sampleProcess
        (sampleSchemaData "package" none (some [some "*.log", some ".git"]) "") =
      (.ok (some (sprintfHex ((Codec.mk (fun _ => []) (fun _ => List.replicate 32 171)).Sum256
          ((Codec.mk (fun _ => []) (fun _ => List.replicate 32 171)).zipBytes
            [ZipEntry.mk "main.go" false [109]])))),
        Disk.Remove [("/tmp/cloudbase-1.zip", [ZipEntry.mk "main.go" false [109]])]
          "/tmp/cloudbase-1.zip") :=
  ⟨(exclude_list_passed sampleHost doublestarMatch GOOS.unix (sampleNet 200 "200 OK")
      (Codec.mk (fun _ => []) (fun _ => List.replicate 32 171)) [] sampleProcess
      (sampleSchemaData "package" none none "") sampleService "svc" "env-1" sampleProcess.Getwd
      (DescribeCloudBaseBuildServiceResponseParams.mk (some "https://upload.example/pkg") []
        (some "pkg") (some "v1"))
      "https://upload.example/pkg" "pkg" [] []
      [".git", ".terraform*", "logs", "node_modules", "__pycache__", "venv",
        "terraform.tfstate*"]
      rfl rfl rfl rfl rfl (Or.inl ⟨rfl, rfl⟩) (Or.inl ⟨rfl, rfl⟩)).2.2.2
      "/tmp/cloudbase-1.zip"
      [("/tmp/cloudbase-1.zip",
        [ZipEntry.mk "app.log" false [108], ZipEntry.mk "main.go" false [109]])]
      [ZipEntry.mk "app.log" false [108], ZipEntry.mk "main.go" false [109]]
      (by decide) (by decide),
   (exclude_list_passed sampleHost doublestarMatch GOOS.unix (sampleNet 200 "200 OK")
      (Codec.mk (fun _ => []) (fun _ => List.replicate 32 171)) [] sampleProcess
      (sampleSchemaData "package" none (some [some "*.log", some ".git"]) "") sampleService
      "svc" "env-1" sampleProcess.Getwd
      (DescribeCloudBaseBuildServiceResponseParams.mk (some "https://upload.example/pkg") []
        (some "pkg") (some "v1"))
      "https://upload.example/pkg" "pkg" [] [] ["*.log", ".git"]
      rfl rfl rfl rfl rfl (Or.inl ⟨rfl, rfl⟩) (Or.inr ⟨by decide, rfl⟩)).2.2.2
      "/tmp/cloudbase-1.zip"
      [("/tmp/cloudbase-1.zip", [ZipEntry.mk "main.go" false [109]])]
      [ZipEntry.mk "main.go" false [109]]
      (by decide) (by decide)⟩

/-- C15: with a digest function that gives 32 bytes, as `sha256.Sum256` does,
the customize-diff function sets `source_code_hash` only when `deploy_type` is
"package"; for any other `deploy_type` it returns no error, sets nothing and
leaves the temporary directory as it was; and for "package", when packaging
succeeds, it returns no error and the value it sets is the digest of the bytes
of the archive file, rendered as 64 characters that are all lowercase
hexadecimal digits. -/
theorem customizeDiff_hash (m : Matcher) (goos : GOOS) (tmp : String) (codec : Codec)
    (disk : Disk) (d : ResourceData) (currentDir : Node)
    (hsum : ∀ bytes, (codec.Sum256 bytes).length = 32) :
    (d.deploy_type ≠ "package" →
      resourceTencentCloudCloudbaseRunCustomizeDiff m goos tmp codec disk d currentDir =
        (DiffOutcome.mk none none, disk)) ∧
    (∀ h, (resourceTencentCloudCloudbaseRunCustomizeDiff m goos tmp codec disk d
        currentDir).1.source_code_hash = some h → d.deploy_type = "package") ∧
    (d.deploy_type = "package" → ∀ (zipFile : String) (disk1 : Disk),
      zipSourceCode m goos tmp disk currentDir
          (some (ZipOptions.mk (resolveInclude d) (resolveExclude d))) = (.ok zipFile, disk1) →
      ∃ archive : Archive, zipFile = tmp ∧ disk1 = (tmp, archive) :: disk ∧
        resourceTencentCloudCloudbaseRunCustomizeDiff m goos tmp codec disk d currentDir =
          (DiffOutcome.mk none (some (sprintfHex (codec.Sum256 (codec.zipBytes archive)))),
            disk1.Remove tmp) ∧
        (sprintfHex (codec.Sum256 (codec.zipBytes archive))).length = 64 ∧
        ∀ ch ∈ (sprintfHex (codec.Sum256 (codec.zipBytes archive))).data,
          ch ∈ "0123456789abcdef".data) := by
  refine ⟨fun hp => ?_, fun h hh => ?_, fun hp zipFile disk1 hz => ?_⟩
  · simp only [resourceTencentCloudCloudbaseRunCustomizeDiff, if_pos hp]
  · by_contra hp
    simp only [resourceTencentCloudCloudbaseRunCustomizeDiff, if_pos hp] at hh
    exact Option.noConfusion hh
  · obtain ⟨archive, h1 | ⟨e, h1⟩⟩ := zipSourceCode_result m goos tmp disk currentDir
      (some (ZipOptions.mk (resolveInclude d) (resolveExclude d)))
    · rw [h1] at hz
      obtain ⟨hz1, hz2⟩ := Prod.mk.inj hz
      have hz3 := Except.ok.inj hz1
      refine ⟨archive, hz3.symm, hz2.symm, ?_, ?_, sprintfHex_digits _⟩
      · simp only [resourceTencentCloudCloudbaseRunCustomizeDiff, hp, ne_eq, not_true_eq_false,
          if_false, h1, Disk.read_cons_self, ← hz2]
      · rw [sprintfHex_length, hsum]
    · rw [h1] at hz
      exact Except.noConfusion (Prod.mk.inj hz).1

/-- C15 with a digest function that answers every input with the 32 bytes
`ab`: for the working directory holding `main.go` and `app.log` and the default
exclude list, the value set is `ab` written 32 times. -/
theorem customizeDiff_hash_witness :
    (∀ bytes, ((Codec.mk (fun _ => []) (fun _ => List.replicate 32 171)).Sum256 bytes).length =
      32) ∧
    ∃ archive : Archive, "cloudbase-1.zip" = "cloudbase-1.zip" ∧
      [("cloudbase-1.zip",
          [ZipEntry.mk "app.log" false [108], ZipEntry.mk "main.go" false [109]])] =
        ("cloudbase-1.zip", archive) :: ([] : Disk) ∧
      resourceTencentCloudCloudbaseRunCustomizeDiff doublestarMatch GOOS.unix "cloudbase-1.zip"
          (Codec.mk (fun _ => []) (fun _ => List.replicate 32 171)) []
          (ResourceData.mk "package" none none) sampleProcess.Getwd =
        (DiffOutcome.mk none (some (sprintfHex
          ((Codec.mk (fun _ => []) (fun _ => List.replicate 32 171)).Sum256
            ((Codec.mk (fun _ => []) (fun _ => List.replicate 32 171)).zipBytes archive)))),
          Disk.Remove [("cloudbase-1.zip",
            [ZipEntry.mk "app.log" false [108], ZipEntry.mk "main.go" false [109]])]
            "cloudbase-1.zip") ∧
      (sprintfHex ((Codec.mk (fun _ => []) (fun _ => List.replicate 32 171)).Sum256
        ((Codec.mk (fun _ => []) (fun _ => List.replicate 32 171)).zipBytes archive))).length =
        64 ∧
      ∀ ch ∈ (sprintfHex ((Codec.mk (fun _ => []) (fun _ => List.replicate 32 171)).Sum256
          ((Codec.mk (fun _ => []) (fun _ => List.replicate 32 171)).zipBytes archive))).data,
        ch ∈ "0123456789abcdef".data :=
  ⟨fun _ => rfl,
   (customizeDiff_hash doublestarMatch GOOS.unix "cloudbase-1.zip"
      (Codec.mk (fun _ => []) (fun _ => List.replicate 32 171)) []
      (ResourceData.mk "package" none none) sampleProcess.Getwd (fun _ => rfl)).2.2 rfl
      "cloudbase-1.zip"
      [("cloudbase-1.zip",
        [ZipEntry.mk "app.log" false [108], ZipEntry.mk "main.go" false [109]])]
      (by decide)⟩

/-- C16, as worded, fails: when the packaged directory is the temporary
directory itself, the entry sequence holds the name of the temporary file,
which `os.CreateTemp` chooses anew at every call, so the same tree with the
same patterns gives two different sequences. -/
theorem temp_file_name_in_sequence :
    zipSourceCodeOn (tempDirHost "cloudbase-1.zip") doublestarMatch GOOS.unix []
        (.dir "tmp" [.file "a.txt" [97]]) (some (ZipOptions.mk [] [])) =
      (.ok "/tmp/cloudbase-1.zip",
        [("/tmp/cloudbase-1.zip",
          [ZipEntry.mk "a.txt" false [97], ZipEntry.mk "cloudbase-1.zip" false []])]) ∧
    zipSourceCodeOn (tempDirHost "cloudbase-2.zip") doublestarMatch GOOS.unix []
        (.dir "tmp" [.file "a.txt" [97]]) (some (ZipOptions.mk [] [])) =
      (.ok "/tmp/cloudbase-2.zip",
        [("/tmp/cloudbase-2.zip",
          [ZipEntry.mk "a.txt" false [97], ZipEntry.mk "cloudbase-2.zip" false []])]) ∧
    [ZipEntry.mk "a.txt" false [97], ZipEntry.mk "cloudbase-1.zip" false []] ≠
      [ZipEntry.mk "a.txt" false [97], ZipEntry.mk "cloudbase-2.zip" false []] := by
  decide

/-- C16, amended: for every tree of listable names in which, as the walk finds
it, no directory lists a name twice, and every pair of pattern lists, a
successful run writes the entries of the objects that pass the filters in
depth-first order: the position of one entry is before that of another exactly
when its path comes first in the order `pathBefore`; so the entry of a
directory is before every entry beneath it, and of two entries whose paths
part below a common directory the one going through the name that is first in
the order of `sort.Strings` is first.  When the temporary directory is not the
packaged directory or a directory below it, the sequence is the same on every
such host, for every content of the temporary directory and every snapshot
that holds the same objects, in whatever order its directories list them.  The
call succeeds when the matcher accepts every pattern, on a host where no
file-system call of the walk fails. -/
theorem zipSourceCode_depth_first (host : Host) (m : Matcher) (goos : GOOS) (disk : Disk)
    (name : String) (children : List Node) (opts : ZipOptions) (tmpFile : TempFile)
    (hc : host.CreateTemp = .ok tmpFile)
    (hv : validNodes goos (host.listing tmpFile children) = true)
    (hu : uniqueNodes (host.listing tmpFile children) = true) :
    (NoFaults host → (∀ p ∈ opts.ExcludeList, Accepts m p) →
      (∀ p ∈ opts.IncludeList, Accepts m p) →
      ∃ archive : Archive,
        zipSourceCodeOn host m goos disk (.dir name children) (some opts) =
          (.ok tmpFile.Name, (tmpFile.Name, archive) :: disk)) ∧
    ∀ (zipFile : String) (disk1 : Disk),
      zipSourceCodeOn host m goos disk (.dir name children) (some opts) = (.ok zipFile, disk1) →
      ∃ members : List Member, zipFile = tmpFile.Name ∧
        disk1 = (tmpFile.Name, members.map (entryOf goos)) :: disk ∧
        (∀ x, x ∈ members ↔
          x ∈ membersOf [] (host.listing tmpFile children) ∧ kept m goos opts x = true) ∧
        (∀ (i j : Nat) (hi : i < members.length) (hj : j < members.length),
          i < j ↔ pathBefore (members.get ⟨i, hi⟩).path (members.get ⟨j, hj⟩).path = true) ∧
        (∀ (i j : Nat) (hi : i < members.length) (hj : j < members.length),
          (members.get ⟨i, hi⟩).path <+: (members.get ⟨j, hj⟩).path → i ≠ j → i < j) ∧
        (∀ (i j : Nat) (hi : i < members.length) (hj : j < members.length)
          (q : List String) (a b : String) (r1 r2 : List String),
          (members.get ⟨i, hi⟩).path = q ++ a :: r1 →
          (members.get ⟨j, hj⟩).path = q ++ b :: r2 → a ≠ b →
          (i < j ↔ lessEq a.data b.data = true)) ∧
        (host.TempDir = none →
          ∀ (host1 : Host) (disk2 : Disk) (name1 : String) (children1 : List Node)
            (zipFile1 : String) (disk3 : Disk),
            host1.TempDir = none →
            validNodes goos children1 = true → uniqueNodes children1 = true →
            (∀ x, x ∈ membersOf [] children1 ↔ x ∈ membersOf [] children) →
            zipSourceCodeOn host1 m goos disk2 (.dir name1 children1) (some opts) =
              (.ok zipFile1, disk3) →
            disk3 = (zipFile1, members.map (entryOf goos)) :: disk2) := by
  refine ⟨fun hn hexc hinc => ?_, fun zipFile disk1 hz => ?_⟩
  · rw [zipSourceCodeOn_noFaults host hn tmpFile hc, Host.walked_dir]
    exact ⟨_, zipSourceCode_dir m goos tmpFile.Name disk name _ opts hv hexc hinc⟩
  obtain ⟨t, ht, hz1⟩ := zipSourceCodeOn_ok host m goos disk _ _ zipFile disk1 hz
  rw [hc] at ht
  cases Except.ok.inj ht
  rw [Host.walked_dir] at hz1
  obtain ⟨h1, h2⟩ := zipSourceCode_ok m goos tmpFile.Name disk name _ opts hv zipFile disk1 hz1
  have hpw : ((membersOf [] (readDirNames (sortNodes (host.listing tmpFile children)))).filter
      (kept m goos opts)).Pairwise (fun x y => pathBefore x.path y.path = true) :=
    (walked_pairwise _ hu).sublist (List.filter_sublist _)
  have hidx := pairwise_index _ hpw
  refine ⟨_, h1, h2, fun x => ?_, hidx, fun i j hi hj hpre hij => ?_,
    fun i j hi hj q a b r1 r2 hpi hpj hab => ?_,
    fun htd host1 disk2 name1 children1 zipFile1 disk3 htd1 hv1 hu1 hmem hz2 => ?_⟩
  · rw [List.mem_filter, walked_mem]
  · rcases Nat.lt_or_gt_of_ne hij with hlt | hgt
    · exact hlt
    · have hb := (hidx j i hj hi).mp hgt
      obtain ⟨r, hr⟩ := hpre
      cases r with
      | nil =>
        rw [List.append_nil] at hr
        rw [hr, pathBefore_irrefl] at hb
        exact Bool.noConfusion hb
      | cons a r =>
        have hb2 := pathBefore_below
          (((membersOf [] (readDirNames (sortNodes (host.listing tmpFile children)))).filter
            (kept m goos opts)).get ⟨i, hi⟩).path a r
        rw [hr, pathBefore_asymm _ _ hb] at hb2
        exact Bool.noConfusion hb2
  · rw [hidx i j hi hj, hpi, hpj, pathBefore_split q a b r1 r2 hab]
  · obtain ⟨t1, _, hz3⟩ := zipSourceCodeOn_ok host1 m goos disk2 _ _ zipFile1 disk3 hz2
    rw [Host.walked_dir, Host.listing_outside host1 t1 children1 htd1] at hz3
    obtain ⟨h3, h4⟩ := zipSourceCode_ok m goos t1.Name disk2 name1 children1 opts hv1 zipFile1
      disk3 hz3
    have hpw1 : ((membersOf [] (readDirNames (sortNodes children1))).filter
        (kept m goos opts)).Pairwise (fun x y => pathBefore x.path y.path = true) :=
      (walked_pairwise children1 hu1).sublist (List.filter_sublist _)
    have heq := pairwise_unique _ _ hpw1 hpw (fun x => by
      rw [List.mem_filter, List.mem_filter, walked_mem, walked_mem,
        Host.listing_outside host tmpFile children htd, hmem x])
    rw [heq, ← h3] at h4
    exact h4

/-- C16, amended, at the tree that lists `b.txt` before the directory `a`, and
in `a` the file `z.go` before `c.go` and `run.log`, with the exclude pattern
`**/*.log`, on a host whose temporary directory lies outside the packaged
directory and where no call fails: the archive holds `a/`, `a/c.go`, `a/z.go`,
`b.txt`, in this order. -/
theorem zipSourceCode_depth_first_witness :
    sampleHost.CreateTemp = .ok (TempFile.mk "/tmp/cloudbase-1.zip" "cloudbase-1.zip") ∧
    validNodes GOOS.unix
      (sampleHost.listing (TempFile.mk "/tmp/cloudbase-1.zip" "cloudbase-1.zip") scenario4) =
      true ∧
    uniqueNodes
      (sampleHost.listing (TempFile.mk "/tmp/cloudbase-1.zip" "cloudbase-1.zip") scenario4) =
      true ∧
    zipSourceCodeOn sampleHost doublestarMatch GOOS.unix [] (.dir "app" scenario4)
        (some (ZipOptions.mk [] ["**/*.log"])) =
      (.ok "/tmp/cloudbase-1.zip", [("/tmp/cloudbase-1.zip",
        [ZipEntry.mk "a/" true [], ZipEntry.mk "a/c.go" false [99],
          ZipEntry.mk "a/z.go" false [122], ZipEntry.mk "b.txt" false [98]])]) ∧
    ∃ members : List Member, "/tmp/cloudbase-1.zip" =
        (TempFile.mk "/tmp/cloudbase-1.zip" "cloudbase-1.zip").Name ∧
      [("/tmp/cloudbase-1.zip",
        [ZipEntry.mk "a/" true [], ZipEntry.mk "a/c.go" false [99],
          ZipEntry.mk "a/z.go" false [122], ZipEntry.mk "b.txt" false [98]])] =
        ((TempFile.mk "/tmp/cloudbase-1.zip" "cloudbase-1.zip").Name,
          members.map (entryOf GOOS.unix)) :: ([] : Disk) ∧
      (∀ x, x ∈ members ↔
        x ∈ membersOf []
          (sampleHost.listing (TempFile.mk "/tmp/cloudbase-1.zip" "cloudbase-1.zip")
            scenario4) ∧
        kept doublestarMatch GOOS.unix (ZipOptions.mk [] ["**/*.log"]) x = true) ∧
      (∀ (i j : Nat) (hi : i < members.length) (hj : j < members.length),
        i < j ↔ pathBefore (members.get ⟨i, hi⟩).path (members.get ⟨j, hj⟩).path = true) ∧
      (∀ (i j : Nat) (hi : i < members.length) (hj : j < members.length),
        (members.get ⟨i, hi⟩).path <+: (members.get ⟨j, hj⟩).path → i ≠ j → i < j) ∧
      (∀ (i j : Nat) (hi : i < members.length) (hj : j < members.length)
        (q : List String) (a b : String) (r1 r2 : List String),
        (members.get ⟨i, hi⟩).path = q ++ a :: r1 →
        (members.get ⟨j, hj⟩).path = q ++ b :: r2 → a ≠ b →
        (i < j ↔ lessEq a.data b.data = true)) ∧
      (sampleHost.TempDir = none →
        ∀ (host1 : Host) (disk2 : Disk) (name1 : String) (children1 : List Node)
          (zipFile1 : String) (disk3 : Disk),
          host1.TempDir = none →
          validNodes GOOS.unix children1 = true → uniqueNodes children1 = true →
          (∀ x, x ∈ membersOf [] children1 ↔ x ∈ membersOf [] scenario4) →
          zipSourceCodeOn host1 doublestarMatch GOOS.unix disk2 (.dir name1 children1)
              (some (ZipOptions.mk [] ["**/*.log"])) = (.ok zipFile1, disk3) →
          disk3 = (zipFile1, members.map (entryOf GOOS.unix)) :: disk2) :=
  ⟨rfl, by decide, by decide, by decide,
   (zipSourceCode_depth_first sampleHost doublestarMatch GOOS.unix [] "app" scenario4
     (ZipOptions.mk [] ["**/*.log"]) (TempFile.mk "/tmp/cloudbase-1.zip" "cloudbase-1.zip")
     rfl (by decide) (by decide)).2 "/tmp/cloudbase-1.zip"
     [("/tmp/cloudbase-1.zip",
       [ZipEntry.mk "a/" true [], ZipEntry.mk "a/c.go" false [99],
         ZipEntry.mk "a/z.go" false [122], ZipEntry.mk "b.txt" false [98]])]
     (by decide)⟩

/-- C17 on the code: for a build-service answer that holds the upload address
and the package name but no package version, the answer passes the
completeness check, the archive is uploaded and answered with 200, and
`prepareAndUploadCode` then ends in a panic on the nil pointer; with the
package version present the same call returns the result. -/
theorem prepareAndUploadCode_nil_package_version :
    prepareAndUploadCode doublestarMatch GOOS.unix "cloudbase-1.zip" (sampleNet 200 "200 OK") []
        (ResourceData.mk "package" none none)
        (TcbService.mk (fun _ _ => .ok (DescribeCloudBaseBuildServiceResponse.mk
          (some (DescribeCloudBaseBuildServiceResponseParams.mk
            (some "https://upload.example/pkg") [] (some "pkg") none)))))
        "svc" "env-1" sampleProcess.Getwd =
      (.nilDereference, []) ∧
    prepareAndUploadCode doublestarMatch GOOS.unix "cloudbase-1.zip" (sampleNet 200 "200 OK") []
        (ResourceData.mk "package" none none) sampleService "svc" "env-1" sampleProcess.Getwd =
      (.ok (uploadResult.mk "pkg" "v1"), []) := by
  decide

/-- C18: for every configuration and working directory, the customize-diff
function and `setDeployInfo`, through `prepareAndUploadCode`, call
`zipSourceCode` with the same three arguments.  For a deployment type other
than "package" neither calls it.  For the type "package" both call it with the
working directory and the include and exclude lists the configuration resolves
to: each returns the error of that call behind its own prefixes when the call
fails, and when it succeeds the customize-diff function sets the digest of the
file the call wrote and `setDeployInfo` uploads that file; when a configured
list holds an element that is not handed out as a string, both panic before
packaging; and every configuration is of one of these two kinds.  Another value
of `build_dir` changes neither function.  The build service is taken to answer
with the upload address, the package name and headers that are all there, so
that `prepareAndUploadCode` gets to the packaging. -/
theorem zip_inputs_agree {J : Type} (host : Host) (m : Matcher) (goos : GOOS) (net : Net J)
    (codec : Codec) (disk : Disk) (proc : Process) (d : SchemaData) (service : TcbService)
    (deployInfo : DeployParam) (resp : DescribeCloudBaseBuildServiceResponseParams)
    (uploadUrl packageName : String) (headers : List (String × String))
    (hs : service.DescribeCloudBaseBuildService d.server_name proc.ENV_ID =
      .ok (DescribeCloudBaseBuildServiceResponse.mk (some resp)))
    (hu : resp.UploadUrl = some uploadUrl) (hn : resp.PackageName = some packageName)
    (hh : buildHeaders resp.UploadHeaders [] = some headers) :
    (d.deploy_type ≠ "package" →
      resourceTencentCloudCloudbaseRunCustomizeDiffOn host m goos codec disk proc d =
        (.ok none, disk) ∧
      setDeployInfo host m goos net disk proc d service deployInfo =
        (.ok (DeployParam.mk (some d.deploy_type) (some d.image_url) deployInfo.PackageName
          deployInfo.PackageVersion
          (if d.Id ≠ "" then some "FULL" else deployInfo.ReleaseType)), disk)) ∧
    (d.deploy_type = "package" →
      (∀ (incl excl : List String),
        ((d.source_code_exclude = none ∧ excl = defaultSourceCodeExclude) ∨
          (d.source_code_exclude = some [] ∧ excl = defaultSourceCodeExclude) ∨
          (∃ l, l ≠ [] ∧ d.source_code_exclude = some l ∧ assertStrings l = some excl)) →
        ((d.source_code_include = none ∧ incl = []) ∨
          (d.source_code_include = some [] ∧ incl = []) ∨
          (∃ l, l ≠ [] ∧ d.source_code_include = some l ∧ assertStrings l = some incl)) →
        (∀ err disk1,
          zipSourceCodeOn host m goos disk proc.Getwd (some (ZipOptions.mk incl excl)) =
            (.error err, disk1) →
          resourceTencentCloudCloudbaseRunCustomizeDiffOn host m goos codec disk proc d =
            (.error ("计算源代码哈希值失败: " ++ err), disk1) ∧
          setDeployInfo host m goos net disk proc d service deployInfo =
            (.error ("上传代码失败: " ++ ("代码压缩失败: " ++ err)), disk1)) ∧
        (∀ zipFile disk1,
          zipSourceCodeOn host m goos disk proc.Getwd (some (ZipOptions.mk incl excl)) =
            (.ok zipFile, disk1) →
          (∀ content, disk1.read zipFile = some content →
            resourceTencentCloudCloudbaseRunCustomizeDiffOn host m goos codec disk proc d =
              (.ok (some (sprintfHex (codec.Sum256 (codec.zipBytes content)))),
                disk1.Remove zipFile)) ∧
          (∀ err,
            uploadFile net disk1 (UploadOptions.mk uploadUrl zipFile "PUT" headers false) =
              .error err →
            setDeployInfo host m goos net disk proc d service deployInfo =
              (.error ("上传代码失败: " ++ ("上传文件失败: " ++ err)), disk1.Remove zipFile)) ∧
          (∀ r packageVersion,
            uploadFile net disk1 (UploadOptions.mk uploadUrl zipFile "PUT" headers false) =
              .ok r →
            resp.PackageVersion = some packageVersion →
            setDeployInfo host m goos net disk proc d service deployInfo =
              (.ok (DeployParam.mk (some "package") deployInfo.ImageUrl (some packageName)
                (some packageVersion)
                (if d.Id ≠ "" then some "FULL" else deployInfo.ReleaseType)),
                disk1.Remove zipFile)))) ∧
      (((∃ l, l ≠ [] ∧ d.source_code_exclude = some l ∧ assertStrings l = none) ∨
          ((d.source_code_exclude = none ∨ d.source_code_exclude = some [] ∨
              ∃ l excl, l ≠ [] ∧ d.source_code_exclude = some l ∧
                assertStrings l = some excl) ∧
            ∃ l, l ≠ [] ∧ d.source_code_include = some l ∧ assertStrings l = none)) →
        resourceTencentCloudCloudbaseRunCustomizeDiffOn host m goos codec disk proc d =
          (.typeAssertion, disk) ∧
        setDeployInfo host m goos net disk proc d service deployInfo =
          (.typeAssertion, disk)) ∧
      ((∃ incl excl : List String,
          ((d.source_code_exclude = none ∧ excl = defaultSourceCodeExclude) ∨
            (d.source_code_exclude = some [] ∧ excl = defaultSourceCodeExclude) ∨
            (∃ l, l ≠ [] ∧ d.source_code_exclude = some l ∧ assertStrings l = some excl)) ∧
          ((d.source_code_include = none ∧ incl = []) ∨
            (d.source_code_include = some [] ∧ incl = []) ∨
            (∃ l, l ≠ [] ∧ d.source_code_include = some l ∧
              assertStrings l = some incl))) ∨
        ((∃ l, l ≠ [] ∧ d.source_code_exclude = some l ∧ assertStrings l = none) ∨
          ((d.source_code_exclude = none ∨ d.source_code_exclude = some [] ∨
              ∃ l excl, l ≠ [] ∧ d.source_code_exclude = some l ∧
                assertStrings l = some excl) ∧
            ∃ l, l ≠ [] ∧ d.source_code_include = some l ∧ assertStrings l = none)))) ∧
    (∀ buildDir : String,
      resourceTencentCloudCloudbaseRunCustomizeDiffOn host m goos codec disk proc
          (d.withBuildDir buildDir) =
        resourceTencentCloudCloudbaseRunCustomizeDiffOn host m goos codec disk proc d ∧
      setDeployInfo host m goos net disk proc (d.withBuildDir buildDir) service deployInfo =
        setDeployInfo host m goos net disk proc d service deployInfo) := by
  refine ⟨fun hnp => ?_, fun hp => ⟨fun incl excl hE hI => ?_, fun hnil => ?_,
    lists_resolve_or_panic d⟩, fun buildDir => ⟨rfl, rfl⟩⟩
  · constructor
    · simp only [resourceTencentCloudCloudbaseRunCustomizeDiffOn, ne_eq, hnp, not_false_eq_true,
        if_true]
    · simp only [setDeployInfo, hnp, if_false]
  · obtain ⟨h1, h2⟩ := customizeDiffOn_packaging host m goos codec disk proc d incl excl hp hE hI
    obtain ⟨h3, h4⟩ := setDeployInfo_packaging host m goos net disk proc d service deployInfo
      resp uploadUrl packageName headers incl excl hp hs hu hn hh hE hI
    exact ⟨fun err disk1 hz => ⟨h1 err disk1 hz, h3 err disk1 hz⟩,
      fun zipFile disk1 hz => ⟨fun content hr => h2 zipFile disk1 content hz hr,
        (h4 zipFile disk1 hz).1, (h4 zipFile disk1 hz).2⟩⟩
  · obtain ⟨_, h2, h3⟩ := typeAssertion_panics host m goos net codec disk proc d service
      d.server_name proc.ENV_ID proc.Getwd deployInfo resp uploadUrl packageName headers hp hs hs
      hu hn hh hnil
    exact ⟨h2, h3⟩

/-- C18 at a configuration of type "package" with `build_dir` set to `sub` and
the exclude list `*.log`, in the working directory holding `main.go` and
`app.log`: the archive of the working directory without `app.log` is the one
whose digest the customize-diff function sets, and the one `setDeployInfo`
uploads. -/
theorem zip_inputs_agree_witness :
    zipSourceCodeOn sampleHost doublestarMatch GOOS.unix [] sampleProcess.Getwd
        (some (ZipOptions.mk [] ["*.log"])) =
      (.ok "/tmp/cloudbase-1.zip",
        [("/tmp/cloudbase-1.zip", [ZipEntry.mk "main.go" false [109]])]) ∧
    resourceTencentCloudCloudbaseRunCustomizeDiffOn sampleHost doublestarMatch GOOS.unix
        (Codec.mk (fun _ => []) (fun _ => List.replicate 32 171)) [] sampleProcess
        (sampleSchemaData "package" none (some [some "*.log"]) "sub") =
      (.ok (some (sprintfHex ((Codec.mk (fun _ => []) (fun _ => List.replicate 32 171)).Sum256
          ((Codec.mk (fun _ => []) (fun _ => List.replicate 32 171)).zipBytes
            [ZipEntry.mk "main.go" false [109]])))),
        Disk.Remove [("/tmp/cloudbase-1.zip", [ZipEntry.mk "main.go" false [109]])]
          "/tmp/cloudbase-1.zip") ∧
    setDeployInfo sampleHost doublestarMatch GOOS.unix (sampleNet 200 "200 OK") [] sampleProcess
        (sampleSchemaData "package" none (some [some "*.log"]) "sub") sampleService
        emptyDeployParam =
      (.ok (DeployParam.mk (some "package") emptyDeployParam.ImageUrl (some "pkg") (some "v1")
        (if (sampleSchemaData "package" none (some [some "*.log"]) "sub").Id ≠ "" then
          some "FULL" else emptyDeployParam.ReleaseType)),
        Disk.Remove [("/tmp/cloudbase-1.zip", [ZipEntry.mk "main.go" false [109]])]
          "/tmp/cloudbase-1.zip") :=
  ⟨by decide,
   ((((zip_inputs_agree sampleHost doublestarMatch GOOS.unix (sampleNet 200 "200 OK")
      (Codec.mk (fun _ => []) (fun _ => List.replicate 32 171)) [] sampleProcess
      (sampleSchemaData "package" none (some [some "*.log"]) "sub") sampleService
      emptyDeployParam
      (DescribeCloudBaseBuildServiceResponseParams.mk (some "https://upload.example/pkg") []
        (some "pkg") (some "v1"))
      "https://upload.example/pkg" "pkg" [] rfl rfl rfl rfl).2.1 rfl).1 [] ["*.log"]
      (Or.inr (Or.inr ⟨[some "*.log"], by decide, rfl, rfl⟩)) (Or.inl ⟨rfl, rfl⟩)).2
      "/tmp/cloudbase-1.zip" [("/tmp/cloudbase-1.zip", [ZipEntry.mk "main.go" false [109]])]
      (by decide)).1 [ZipEntry.mk "main.go" false [109]] (by decide),
   ((((zip_inputs_agree sampleHost doublestarMatch GOOS.unix (sampleNet 200 "200 OK")
      (Codec.mk (fun _ => []) (fun _ => List.replicate 32 171)) [] sampleProcess
      (sampleSchemaData "package" none (some [some "*.log"]) "sub") sampleService
      emptyDeployParam
      (DescribeCloudBaseBuildServiceResponseParams.mk (some "https://upload.example/pkg") []
        (some "pkg") (some "v1"))
      "https://upload.example/pkg" "pkg" [] rfl rfl rfl rfl).2.1 rfl).1 [] ["*.log"]
      (Or.inr (Or.inr ⟨[some "*.log"], by decide, rfl, rfl⟩)) (Or.inl ⟨rfl, rfl⟩)).2
      "/tmp/cloudbase-1.zip" [("/tmp/cloudbase-1.zip", [ZipEntry.mk "main.go" false [109]])]
      (by decide)).2.2
      (UploadResult.mk none 200 "200 OK" [] "/tmp/cloudbase-1.zip") "v1" rfl rfl⟩

/-- C19, as worded, fails on a negative threshold: for the one configured
policy of type `cpu` and threshold -1 the request carries a policy of threshold
18446744073709551615. -/
theorem negative_threshold_wraps :
    (setServerConfig (fun _ => .ok "") sampleProcess
        (sampleRunData "package" none "" [PolicyDetail.mk "cpu" (-1)])
        emptyServerBaseConfig).1.PolicyDetails =
      [HpaPolicy.mk (some "cpu") (some 18446744073709551615)] := by
  decide

/-- C19, amended: the request built by `setServerConfig` carries no policy when
no policy is configured, and otherwise exactly one, made of the type of the
first configured policy and of its threshold converted to `uint64`: the same
number when the threshold is not negative, 2^64 more when it is; the policies
after the first have no part in it; and the read operation stores one map for
every policy the service returns, in the same order. -/
theorem setServerConfig_policy_details
    (marshal : List (String × String) → Except String String) (proc : Process)
    (d : RunResourceData) (config : ServerBaseConfig) :
    (d.policy_details = [] → (setServerConfig marshal proc d config).1.PolicyDetails = []) ∧
    (∀ (pd : PolicyDetail) (rest : List PolicyDetail), d.policy_details = pd :: rest →
      (setServerConfig marshal proc d config).1.PolicyDetails =
        [HpaPolicy.mk (some pd.policy_type) (some (uint64 pd.policy_threshold))] ∧
      (0 ≤ pd.policy_threshold → pd.policy_threshold < 9223372036854775808 →
        (uint64 pd.policy_threshold : Int) = pd.policy_threshold) ∧
      (pd.policy_threshold < 0 → -9223372036854775808 ≤ pd.policy_threshold →
        (uint64 pd.policy_threshold : Int) = pd.policy_threshold + 18446744073709551616)) ∧
    (∀ (p : HpaPolicy) (ps : List HpaPolicy),
      resourceTencentCloudCloudbaseRunRead_policyDetails ((p :: ps).map some) =
        .ok (some ((p :: ps).map (fun x => StoredPolicy.mk x.PolicyType x.PolicyThreshold)))) := by
  refine ⟨fun h => ?_, fun pd rest h => ⟨?_, fun h0 h1 => ?_, fun h0 h1 => ?_⟩, fun p ps => ?_⟩
  · rw [setServerConfig_policies, h]
  · rw [setServerConfig_policies, h]
  · unfold uint64
    rw [Int.toNat_of_nonneg (Int.emod_nonneg _ (by decide))]
    exact Int.emod_eq_of_lt h0 (by omega)
  · unfold uint64
    rw [Int.toNat_of_nonneg (Int.emod_nonneg _ (by decide))]
    omega
  · unfold resourceTencentCloudCloudbaseRunRead_policyDetails
    rw [storedPolicies_map]
    simp

/-- C19, amended, at a configuration with the policies `cpu` 60 and `mem` 80:
the request carries the policy `cpu` 60 alone, and a service answer with both
policies is stored as two maps. -/
theorem setServerConfig_policy_details_witness :
    (setServerConfig (fun _ => .ok "") sampleProcess
        (sampleRunData "package" none "" [PolicyDetail.mk "cpu" 60, PolicyDetail.mk "mem" 80])
        emptyServerBaseConfig).1.PolicyDetails =
      [HpaPolicy.mk (some "cpu") (some (uint64 60))] ∧
    uint64 60 = 60 ∧
    resourceTencentCloudCloudbaseRunRead_policyDetails
        [some (HpaPolicy.mk (some "cpu") (some 60)), some (HpaPolicy.mk (some "mem") (some 80))] =
      .ok (some [StoredPolicy.mk (some "cpu") (some 60), StoredPolicy.mk (some "mem") (some 80)]) :=
  ⟨((setServerConfig_policy_details (fun _ => .ok "") sampleProcess
      (sampleRunData "package" none "" [PolicyDetail.mk "cpu" 60, PolicyDetail.mk "mem" 80])
      emptyServerBaseConfig).2.1 (PolicyDetail.mk "cpu" 60) [PolicyDetail.mk "mem" 80] rfl).1,
   by decide, by decide⟩

/-- C20: a `source_code_exclude` configured as the empty list is treated as an
unset one: `prepareAndUploadCode` and the customize-diff function return the
same with either, and they then call `zipSourceCode` with the exclude list
`.git`, `.terraform*`, `logs`, `node_modules`, `__pycache__`, `venv`,
`terraform.tfstate*`; whatever the configuration, the exclude list they call it
with is not empty: it is that default list, or the non-empty list configured.
Each function returns the error of the call behind its own prefix when the call
fails, and when the call succeeds `prepareAndUploadCode` uploads the file the
call wrote and the customize-diff function sets the digest of that file. -/
theorem empty_exclude_list_is_unset {J : Type} (host : Host) (m : Matcher) (goos : GOOS)
    (net : Net J) (codec : Codec) (disk : Disk) (proc : Process) (d : SchemaData)
    (service : TcbService) (name envId : String) (buildDir : Node)
    (resp : DescribeCloudBaseBuildServiceResponseParams)
    (uploadUrl packageName : String) (headers : List (String × String))
    (incl : List String)
    (hp : d.deploy_type = "package")
    (hs : service.DescribeCloudBaseBuildService name envId =
      .ok (DescribeCloudBaseBuildServiceResponse.mk (some resp)))
    (hu : resp.UploadUrl = some uploadUrl) (hn : resp.PackageName = some packageName)
    (hh : buildHeaders resp.UploadHeaders [] = some headers)
    (hI : (d.source_code_include = none ∧ incl = []) ∨
      d.source_code_include = some (incl.map some)) :
    (d.source_code_exclude = some [] →
      prepareAndUploadCodeOn host m goos net disk d service name envId buildDir =
        prepareAndUploadCodeOn host m goos net disk (d.withExclude none) service name envId
          buildDir ∧
      resourceTencentCloudCloudbaseRunCustomizeDiffOn host m goos codec disk proc d =
        resourceTencentCloudCloudbaseRunCustomizeDiffOn host m goos codec disk proc
          (d.withExclude none)) ∧
    ∀ excl : List String,
      ((d.source_code_exclude = some [] ∧
          excl = [".git", ".terraform*", "logs", "node_modules", "__pycache__", "venv",
            "terraform.tfstate*"]) ∨
        (d.source_code_exclude = none ∧
          excl = [".git", ".terraform*", "logs", "node_modules", "__pycache__", "venv",
            "terraform.tfstate*"]) ∨
        (∃ l, l ≠ [] ∧ d.source_code_exclude = some l ∧ assertStrings l = some excl)) →
      excl ≠ [] ∧
      (∀ err disk1,
        zipSourceCodeOn host m goos disk buildDir (some (ZipOptions.mk incl excl)) =
          (.error err, disk1) →
        prepareAndUploadCodeOn host m goos net disk d service name envId buildDir =
          (.error ("代码压缩失败: " ++ err), disk1)) ∧
      (∀ zipFile disk1,
        zipSourceCodeOn host m goos disk buildDir (some (ZipOptions.mk incl excl)) =
          (.ok zipFile, disk1) →
        (∀ err, uploadFile net disk1 (UploadOptions.mk uploadUrl zipFile "PUT" headers false) =
            .error err →
          prepareAndUploadCodeOn host m goos net disk d service name envId buildDir =
            (.error ("上传文件失败: " ++ err), disk1.Remove zipFile)) ∧
        (∀ r packageVersion,
          uploadFile net disk1 (UploadOptions.mk uploadUrl zipFile "PUT" headers false) =
            .ok r →
          resp.PackageVersion = some packageVersion →
          prepareAndUploadCodeOn host m goos net disk d service name envId buildDir =
            (.ok (uploadResult.mk packageName packageVersion), disk1.Remove zipFile))) ∧
      (∀ err disk1,
        zipSourceCodeOn host m goos disk proc.Getwd (some (ZipOptions.mk incl excl)) =
          (.error err, disk1) →
        resourceTencentCloudCloudbaseRunCustomizeDiffOn host m goos codec disk proc d =
          (.error ("计算源代码哈希值失败: " ++ err), disk1)) ∧
      (∀ zipFile disk1 content,
        zipSourceCodeOn host m goos disk proc.Getwd (some (ZipOptions.mk incl excl)) =
          (.ok zipFile, disk1) →
        disk1.read zipFile = some content →
        resourceTencentCloudCloudbaseRunCustomizeDiffOn host m goos codec disk proc d =
          (.ok (some (sprintfHex (codec.Sum256 (codec.zipBytes content)))),
            disk1.Remove zipFile)) := by
  have hI3 : (d.source_code_include = none ∧ incl = []) ∨
      (d.source_code_include = some [] ∧ incl = []) ∨
      (∃ l, l ≠ [] ∧ d.source_code_include = some l ∧ assertStrings l = some incl) := by
    rcases hI with h1 | h1
    · exact Or.inl h1
    · by_cases h0 : incl = []
      · subst h0
        exact Or.inr (Or.inl ⟨h1, rfl⟩)
      · exact Or.inr (Or.inr ⟨incl.map some, by simpa using h0, h1, assertStrings_map incl⟩)
  refine ⟨fun hd => ?_, fun excl hE => ?_⟩
  · constructor
    · simp only [prepareAndUploadCodeOn, SchemaData.withExclude, hd, GetOkList]
    · simp only [resourceTencentCloudCloudbaseRunCustomizeDiffOn, SchemaData.withExclude, hd,
        GetOkList]
  · have hE3 : (d.source_code_exclude = none ∧ excl = defaultSourceCodeExclude) ∨
        (d.source_code_exclude = some [] ∧ excl = defaultSourceCodeExclude) ∨
        (∃ l, l ≠ [] ∧ d.source_code_exclude = some l ∧ assertStrings l = some excl) := by
      rcases hE with ⟨h1, h2⟩ | ⟨h1, h2⟩ | h1
      · exact Or.inr (Or.inl ⟨h1, h2⟩)
      · exact Or.inl ⟨h1, h2⟩
      · exact Or.inr (Or.inr h1)
    have hne : excl ≠ [] := by
      rcases hE with ⟨_, h2⟩ | ⟨_, h2⟩ | ⟨l, hl, _, ha⟩
      · rw [h2]; exact List.cons_ne_nil _ _
      · rw [h2]; exact List.cons_ne_nil _ _
      · intro h0
        obtain ⟨x, xs, hx⟩ := List.exists_cons_of_ne_nil hl
        subst hx h0
        cases x with
        | none => simp [assertStrings] at ha
        | some a =>
          simp only [assertStrings] at ha
          split at ha <;> simp at ha
    obtain ⟨h1, h2⟩ := prepareAndUploadCodeOn_packaging host m goos net disk d service name
      envId buildDir resp uploadUrl packageName headers incl excl hs hu hn hh hE3 hI3
    obtain ⟨h3, h4⟩ := customizeDiffOn_packaging host m goos codec disk proc d incl excl hp hE3
      hI3
    exact ⟨hne, h1, h2, h3, h4⟩

/-- C20 at the configuration of type "package" whose exclude list is the empty
list, in a working directory holding `main.go`, `app.log` and the directory
`logs`: the digest set is that of the archive packaged with the default list,
which leaves `logs` out. -/
theorem empty_exclude_list_is_unset_witness :
    resourceTencentCloudCloudbaseRunCustomizeDiffOn sampleHost doublestarMatch GOOS.unix
        (Codec.mk (fun _ => []) (fun _ => List.replicate 32 171)) []
        (Process.mk "env-1"
          (.dir "app" [.file "main.go" [109], .file "app.log" [108],
            .dir "logs" [.file "x" [120]]]))
        (sampleSchemaData "package" none (some []) "") =
      (.ok (some (sprintfHex ((Codec.mk (fun _ => []) (fun _ => List.replicate 32 171)).Sum256
          ((Codec.mk (fun _ => []) (fun _ => List.replicate 32 171)).zipBytes
            [ZipEntry.mk "app.log" false [108], ZipEntry.mk "main.go" false [109]])))),
        Disk.Remove [("/tmp/cloudbase-1.zip",
          [ZipEntry.mk "app.log" false [108], ZipEntry.mk "main.go" false [109]])]
          "/tmp/cloudbase-1.zip") :=
  ((empty_exclude_list_is_unset sampleHost doublestarMatch GOOS.unix (sampleNet 200 "200 OK")
      (Codec.mk (fun _ => []) (fun _ => List.replicate 32 171)) []
      (Process.mk "env-1"
        (.dir "app" [.file "main.go" [109], .file "app.log" [108],
          .dir "logs" [.file "x" [120]]]))
      (sampleSchemaData "package" none (some []) "") sampleService "svc" "env-1"
      sampleProcess.Getwd
      (DescribeCloudBaseBuildServiceResponseParams.mk (some "https://upload.example/pkg") []
        (some "pkg") (some "v1"))
      "https://upload.example/pkg" "pkg" [] []
      rfl rfl rfl rfl rfl (Or.inl ⟨rfl, rfl⟩)).2
      [".git", ".terraform*", "logs", "node_modules", "__pycache__", "venv",
        "terraform.tfstate*"]
      (Or.inl ⟨rfl, rfl⟩)).2.2.2.2
      "/tmp/cloudbase-1.zip"
      [("/tmp/cloudbase-1.zip",
        [ZipEntry.mk "app.log" false [108], ZipEntry.mk "main.go" false [109]])]
      [ZipEntry.mk "app.log" false [108], ZipEntry.mk "main.go" false [109]]
      (by decide) (by decide)

end Cloudbase
